import Mathlib

/-! # Directory expander of `modules/access/directory.c`

A shallow embedding of `Read`, `ReadDir`, `OpenDir` and the ignore-list parser
of `modules/access/directory.c` (POSIX build, i.e. the `#ifndef WIN32` branch),
together with theorems about them. The namespace `DirectX` further down embeds
the picture set-up of `plugins/directx/vout_directx.c`. The definitions of both
come first, the theorems follow.

Conventions of the embedding

* A C string is the list of its characters before the terminating NUL.
* The filesystem and the configuration are read through the oracles of `World`;
  they do not change during one expansion.
* Every call that leaves `ReadDir` (logging, `utf8_opendir`, `utf8_loaddir`,
  `closedir`, `playlist_NodeCreate`, `playlist_BothAddInput`) is appended to the
  log of the state `Sys`, in program order.
* Memory allocation is assumed to succeed (`strdup`, `calloc`,
  `playlist_NodeCreate` and `input_ItemNewWithType` never return NULL).
* `ReadDir` is recursive on the directory structure, which may be cyclic; the
  embedding takes a fuel argument bounding the recursion depth and returns
  `none` when the fuel is exhausted.
-/

namespace Directory

/-- A C string, without its terminating NUL. -/
abbrev CStr := List Char

/-! ## Constants -/

/-- The success return code `VLC_SUCCESS`. -/
def VLC_SUCCESS : Int := 0

/-- Modelled from the spec: the generic error code `VLC_EGENERIC` of the host
headers (`vlc/vlc.h`, not part of the sources at hand); a non-zero code. -/
def VLC_EGENERIC : Int := -666

/-- Modelled from the spec: the `errno` value `ENOTDIR` ("not a directory") of
the C library headers. -/
def ENOTDIR : Nat := 20

/-- The anonymous enum `MODE_EXPAND`, `MODE_COLLAPSE`, `MODE_NONE`. -/
inductive Mode
  | MODE_EXPAND
  | MODE_COLLAPSE
  | MODE_NONE
deriving DecidableEq, Repr

open Mode

/-! ## C string helpers used by `ReadDir` -/

/-- The libc `strchr`: index of the first occurrence of `c`, `none` for NULL. -/
def strchr (c : Char) : CStr → Option Nat
  | [] => none
  | x :: xs => if x = c then some 0 else (strchr c xs).map (· + 1)

/-- The libc `strrchr`: the suffix starting at the last occurrence of `c`,
`none` for NULL. -/
def strrchr (c : Char) : CStr → Option CStr
  | [] => none
  | x :: xs =>
    match strrchr c xs with
    | some p => some p
    | none => if x = c then some (x :: xs) else none

/-! ## The ignore list (`ReadDir`, "Build array with ignores") -/

/-- The counting loop
`for( a = 0; psz_parser[a] != '\0'; a++ ) if( psz_parser[a] == ',' ) i_extensions++;`. -/
def count_commas : CStr → Nat
  | [] => 0
  | c :: cs => (if c = ',' then 1 else 0) + count_commas cs

/-- The inner loop
`while( psz_parser[0] != '\0' && psz_parser[0] == ' ' ) psz_parser++;`. -/
def skip_spaces : CStr → CStr
  | [] => []
  | c :: cs => if c = ' ' then skip_spaces cs else c :: cs

/-- The filling loop `for( a = 0; a < i_extensions; a++ )`; the first argument
is the number of iterations left, the second (`psz_cur`) is the pointer
`psz_parser` of the source, which is `none`
once it has been set to `NULL + 1`. Reading through that pointer is undefined
behaviour, rendered by the result `none`. -/
def ignore_loop : Nat → Option CStr → Option (List CStr)
  | 0, _ => some []
  | _ + 1, none => none
  | n + 1, some psz_cur =>
    let psz_cur := skip_spaces psz_cur
    match strchr ',' psz_cur with
    | none =>
      -- tmp = strdup( psz_parser ); psz_parser = NULL + 1
      (ignore_loop n none).map (psz_cur :: ·)
    | some k =>
      -- tmp = strndup( psz_parser, ptr - psz_parser ); psz_parser = ptr + 1
      (ignore_loop n (some (psz_cur.drop (k + 1)))).map (psz_cur.take k :: ·)

/-- The block "Build array with ignores": from the value of `ignore-filetypes`
(`none` for a NULL string) to the array `ppsz_extensions`; `i_extensions` is
the length of the result. -/
def build_ignores : Option CStr → Option (List CStr)
  | none => some []
  | some [] => some []
  | some (c :: cs) => ignore_loop (count_commas (c :: cs)) (some (c :: cs))

/-- The search loop
`for( a = 0; a < i_extensions; a++ ) if( !strcmp( psz_dot, ppsz_extensions[a] ) ) break;`:
the value of `a` after the loop. -/
def ext_index (psz_dot : CStr) : List CStr → Nat
  | [] => 0
  | x :: xs => if psz_dot = x then 0 else ext_index psz_dot xs + 1

/-- The test deciding whether a file entry is dropped ("ignoring file"):
`i_extensions > 0`, `strrchr` finds a dot, the text after it is not empty and
the search loop stops before `i_extensions`. -/
def ignored (ppsz_extensions : List CStr) (entry : CStr) : Bool :=
  if ppsz_extensions.length > 0 then
    match strrchr '.' entry with
    | some (_ :: psz_dot) =>
      if psz_dot ≠ [] then decide (ext_index psz_dot ppsz_extensions < ppsz_extensions.length)
      else false
    | _ => false
  else false

/-! ## The environment of `ReadDir` -/

/-- The fields of `struct stat` that `ReadDir` reads. -/
structure stat where
  st_ino : Nat
  st_dev : Nat
deriving DecidableEq, Repr

/-- An open directory stream `DIR *`. -/
abbrev DIR := Nat

/-- A `playlist_item_t *`: either an item the host playlist already held when
the expansion started, or the node returned by the `k`-th call of
`playlist_NodeCreate`. -/
inductive playlist_item_t
  | host (k : Nat)
  | created (k : Nat)
deriving DecidableEq, Repr

/-- Modelled from the spec: the collaborators `openDirectory`, `statIdentity`,
`listAndSortEntries` and the configuration string, which `ReadDir` reaches
through `utf8_opendir`, `dirfd`, `fstat`, `utf8_loaddir` (with the comparison
`Sort`, so the listing is the sorted one) and `var_CreateGetString`; none of
them is defined in the sources at hand.
`utf8_opendir` answers a handle or the `errno` of the failure, `dirfd` answers
`-1` on failure, `fstat` answers `none` on failure, `utf8_loaddir` answers
`none` for the result `-1`, `ignore_filetypes` is `none` for a NULL string. -/
structure World where
  utf8_opendir : CStr → Except Nat DIR
  dirfd : DIR → Int
  fstat : Int → Option stat
  utf8_loaddir : DIR → Option (List CStr)
  ignore_filetypes : Option CStr

/-- The calls `ReadDir`, `OpenDir` and `Read` make to the outside, one
constructor per call site. -/
inductive Event
  -- `msg_Err (p_playlist, "cannot stat ...")`
  | err_cannot_stat (psz_name : CStr)
  -- `msg_Warn (p_playlist, "ignoring infinitely recursive directory ...")`
  | warn_recursive (psz_name : CStr)
  -- `utf8_loaddir (handle, &pp_dir_content, NULL, Sort)`
  | loaddir (handle : DIR)
  -- `msg_Err (p_playlist, "cannot read ...")`
  | err_cannot_read (psz_name : CStr)
  -- `msg_Dbg( p_playlist, "%s directory is empty", psz_name )`
  | dbg_empty (psz_name : CStr)
  -- `msg_Dbg (obj, "opening directory ...")`
  | dbg_opening (path : CStr)
  -- `utf8_opendir (path)`
  | opendir (path : CStr)
  -- `msg_Err (obj, "%s: %s", path, strerror (err))`
  | err_open (path : CStr) (err : Nat)
  -- `msg_Dbg (obj, "skipping non-directory ...")`
  | dbg_nondir (path : CStr)
  -- `msg_Dbg( p_playlist, "skipping subdirectory ...")`
  | dbg_skipping (psz_uri : CStr)
  -- `closedir (subdir)`
  | closedir (handle : DIR)
  -- `msg_Dbg (p_playlist, "creating subdirectory %s", psz_uri)`
  | dbg_creating (psz_uri : CStr)
  -- `playlist_NodeCreate( p_playlist, name, parent, PLAYLIST_NO_REBUILD )`
  -- and the node it returned
  | NodeCreate (name : CStr) (parent : Option playlist_item_t) (p_node : playlist_item_t)
  -- `msg_Dbg( p_playlist, "ignoring file %s", psz_uri )`
  | dbg_ignoring (psz_uri : CStr)
  -- `input_ItemNewWithType` with URI and name, `input_ItemCopyOptions` from
  -- `p_current_input` when it is not NULL, and `playlist_BothAddInput` under
  -- `parent` with `PLAYLIST_APPEND` at `PLAYLIST_END`
  | BothAddInput (psz_uri name : CStr) (p_current_input : Option Nat)
      (parent : Option playlist_item_t)
  -- `msg_Err( p_access, "unable to find input (internal error)" )` in `Read`
  | err_no_input
  -- `msg_Err( p_access, "unable to find item in playlist" )` in `Read`
  | err_no_item
  -- `p_current->p_input->i_type = ITEM_TYPE_DIRECTORY` and
  -- `playlist_ItemToNode( p_playlist, p_current, VLC_FALSE )` in `Read`
  | ItemToNode (p_current : playlist_item_t)
  -- `var_SetInteger( p_playlist, "activity", value )` in `Read`
  | set_activity (value : Int)
  -- `playlist_Signal( p_playlist )` in `Read`
  | Signal
deriving DecidableEq, Repr

/-- The mutable surroundings of `ReadDir`: the calls made so far, oldest first,
and the number of nodes `playlist_NodeCreate` has handed out. -/
structure Sys where
  log : List Event
  i_nodes : Nat
deriving DecidableEq, Repr

/-- Append one call to the log. -/
def Sys.emit (s : Sys) (e : Event) : Sys :=
  { s with log := s.log ++ [e] }

/-- Modelled from the spec: the collaborator `createContainerNode(name, parent)`
(`playlist_NodeCreate`, defined in the host): it returns a node distinct from
every item that exists, attached as last child of `parent`. -/
def playlist_NodeCreate (name : CStr) (parent : Option playlist_item_t) (s : Sys) :
    playlist_item_t × Sys :=
  (playlist_item_t.created s.i_nodes,
   { log := s.log ++ [Event.NodeCreate name parent (playlist_item_t.created s.i_nodes)],
     i_nodes := s.i_nodes + 1 })

/-- The function `OpenDir`: `utf8_opendir` with its diagnostics; `none` is the
NULL result. -/
def OpenDir (w : World) (path : CStr) (s : Sys) : Option DIR × Sys :=
  let s := (s.emit (Event.dbg_opening path)).emit (Event.opendir path)
  match w.utf8_opendir path with
  | Except.error err =>
    if err ≠ ENOTDIR then (none, s.emit (Event.err_open path err))
    else (none, s.emit (Event.dbg_nondir path))
  | Except.ok handle => (some handle, s)

/-- The parameters of `ReadDir` other than `p_playlist`; `stparent` is the
linked list of `stat_list_t`, innermost link first (`[]` for NULL). -/
structure Args where
  psz_name : CStr
  i_mode : Mode
  p_parent : Option playlist_item_t
  p_parent_category : Option playlist_item_t
  p_current_input : Option Nat
  handle : DIR
  stparent : List stat
deriving DecidableEq, Repr

/-- The guard loop
`for (stat_list_t *stats = stparent; stats != NULL; stats = stats->parent)`:
`true` when some link has the inode and the device of `stself`. -/
def stat_list_hit (stself : stat) : List stat → Bool
  | [] => false
  | stats :: parent =>
    if stself.st_ino = stats.st_ino ∧ stself.st_dev = stats.st_dev then true
    else stat_list_hit stself parent

/-- The text `"file://"` that `memcpy` writes in front of `psz_uri`. -/
def file_scheme : CStr := ['f', 'i', 'l', 'e', ':', '/', '/']

/-- The result of `sprintf( psz_uri, "%s/%s", psz_name, entry)`. -/
def mk_uri (psz_name entry : CStr) : CStr := psz_name ++ '/' :: entry

/-- The loop "While we still have entries in the directory" of `ReadDir`, over
the entries not yet visited. `callee` stands for the recursive call of
`ReadDir`, `stself` is the identity of the directory being read,
`ppsz_extensions` the ignore array and `i_return` the local variable of that
name. -/
def ReadDir_loop (w : World) (callee : Args → Sys → Option (Int × Sys)) (a : Args)
    (stself : stat) (ppsz_extensions : List CStr) :
    Int → List CStr → Sys → Option (Int × Sys)
  | i_return, [], s => some (i_return, s)
  | i_return, entry :: rest, s =>
    let psz_uri := mk_uri a.psz_name entry
    -- if it starts with '.' then forget it
    if entry.head? = some '.' then
      ReadDir_loop w callee a stself ppsz_extensions i_return rest s
    else
      let opened := if a.i_mode ≠ MODE_COLLAPSE then OpenDir w psz_uri s else (none, s)
      match opened with
      | (some subdir, s) =>
        if a.i_mode = MODE_NONE then
          ReadDir_loop w callee a stself ppsz_extensions i_return rest
            ((s.emit (Event.dbg_skipping psz_uri)).emit (Event.closedir subdir))
        else
          let created := playlist_NodeCreate entry a.p_parent_category
            (s.emit (Event.dbg_creating psz_uri))
          match callee
              { psz_name := psz_uri
                i_mode := MODE_EXPAND
                p_parent := some created.1
                p_parent_category := if a.p_parent_category.isSome then some created.1 else none
                p_current_input := a.p_current_input
                handle := subdir
                stparent := stself :: a.stparent } created.2 with
          | none => none
          | some (i_return, s) =>
            let s := s.emit (Event.closedir subdir)
            if i_return ≠ 0 then some (i_return, s)
            else ReadDir_loop w callee a stself ppsz_extensions i_return rest s
      | (none, s) =>
        if ignored ppsz_extensions entry then
          ReadDir_loop w callee a stself ppsz_extensions i_return rest
            (s.emit (Event.dbg_ignoring psz_uri))
        else
          ReadDir_loop w callee a stself ppsz_extensions i_return rest
            (s.emit (Event.BothAddInput (file_scheme ++ psz_uri) entry a.p_current_input
              a.p_parent_category))

/-- The function `ReadDir`. The first argument bounds the depth of the
recursion; the result is `none` when it is exhausted (or when the ignore list
parser would read through an invalid pointer). -/
def ReadDir (w : World) : Nat → Args → Sys → Option (Int × Sys)
  | 0, _, _ => none
  | fuel + 1, a, s =>
    let fd := w.dirfd a.handle
    if fd = -1 then some (VLC_EGENERIC, s.emit (Event.err_cannot_stat a.psz_name))
    else
      match w.fstat fd with
      | none => some (VLC_EGENERIC, s.emit (Event.err_cannot_stat a.psz_name))
      | some st =>
        if stat_list_hit st a.stparent then
          some (VLC_SUCCESS, s.emit (Event.warn_recursive a.psz_name))
        else
          -- Get the first directory entry
          let s := s.emit (Event.loaddir a.handle)
          match w.utf8_loaddir a.handle with
          | none => some (VLC_EGENERIC, s.emit (Event.err_cannot_read a.psz_name))
          | some [] => some (VLC_SUCCESS, s.emit (Event.dbg_empty a.psz_name))
          | some (e :: es) =>
            match build_ignores w.ignore_filetypes with
            | none => none
            | some ppsz_extensions =>
              ReadDir_loop w (ReadDir w fuel) a st ppsz_extensions VLC_SUCCESS (e :: es) s

/-! ## The specification side -/

/-- The comma-separated fields of a string, in order (the empty string has one,
empty, field). -/
def spec_fields : CStr → List CStr
  | [] => [[]]
  | c :: cs =>
    if c = ',' then [] :: spec_fields cs
    else
      match spec_fields cs with
      | [] => [[c]]
      | f :: fs => (c :: f) :: fs

/-- The IgnoreSet in the words of the specification: the comma-separated
entries, each trimmed of its leading spaces; the empty string gives the empty
set. -/
def spec_IgnoreSet (s : CStr) : List CStr :=
  if s = [] then [] else (spec_fields s).map (List.dropWhile (· = ' '))

/-- The default value of `ignore-filetypes` in the module descriptor. -/
def default_ignore_filetypes : CStr := "m3u,db,nfo,jpg,gif,sfv,txt,sub,idx,srt,cue".toList

/-! ## Sample filesystems -/

/-- The state before an expansion: nothing logged, no node created. -/
def Sys.init : Sys := { log := [], i_nodes := 0 }

/-- The arguments `Read` passes for the root `/m`: handle `0`, no ancestry. -/
def args_m (i_mode : Mode) : Args :=
  { psz_name := "/m".toList
    i_mode := i_mode
    p_parent := some (playlist_item_t.host 0)
    p_parent_category := some (playlist_item_t.host 1)
    p_current_input := some 0
    handle := 0
    stparent := [] }

/-- A directory `/m` holding the single regular file `x.cue`, with the default
configuration. -/
def world_cue : World :=
  { utf8_opendir := fun _ => Except.error ENOTDIR
    dirfd := fun h => h
    fstat := fun fd => if fd = 0 then some { st_ino := 100, st_dev := 1 } else none
    utf8_loaddir := fun h => if h = 0 then some ["x.cue".toList] else none
    ignore_filetypes := some default_ignore_filetypes }

/-- A directory `/m` whose sorted listing is `d`, `x.mp3`: `d` opens as a
directory (handle `1`) that cannot be stat'ed, `x.mp3` is a regular file; the
configuration is `db,`, which gives the ignore array `db`. -/
def world_failfast : World :=
  { utf8_opendir := fun p => if p = "/m/d".toList then Except.ok 1 else Except.error ENOTDIR
    dirfd := fun h => h
    fstat := fun fd => if fd = 0 then some { st_ino := 100, st_dev := 1 } else none
    utf8_loaddir := fun h => if h = 0 then some ["d".toList, "x.mp3".toList] else none
    ignore_filetypes := some "db,".toList }

/-! ## Observations on the log -/

/-- The event is the addition of a leaf (`playlist_BothAddInput`). -/
def Event.isLeaf : Event → Bool
  | Event.BothAddInput _ _ _ _ => true
  | _ => false

/-- The event is the creation of a container node (`playlist_NodeCreate`). -/
def Event.isNode : Event → Bool
  | Event.NodeCreate _ _ _ => true
  | _ => false

/-- The event is an attempt to open a directory (`utf8_opendir`). -/
def Event.isOpen : Event → Bool
  | Event.opendir _ => true
  | _ => false

/-- The name given to the node or leaf the event creates, if it creates one. -/
def Event.itemName : Event → Option CStr
  | Event.NodeCreate name _ _ => some name
  | Event.BothAddInput _ name _ _ => some name
  | _ => none

/-- The state of `ReadDir` after the open attempt on an entry: `OpenDir` is
called unless the mode is `MODE_COLLAPSE`. -/
def after_open (w : World) (a : Args) (entry : CStr) (s : Sys) : Sys :=
  if a.i_mode ≠ MODE_COLLAPSE then (OpenDir w (mk_uri a.psz_name entry) s).2 else s

/-- The arguments of the recursive call `ReadDir` makes for the entry `entry`
that opened as `subdir`, when `playlist_NodeCreate` returned `p_node`. -/
def sub_args (a : Args) (stself : stat) (entry : CStr) (subdir : DIR)
    (p_node : playlist_item_t) : Args :=
  { psz_name := mk_uri a.psz_name entry
    i_mode := MODE_EXPAND
    p_parent := some p_node
    p_parent_category := if a.p_parent_category.isSome then some p_node else none
    p_current_input := a.p_current_input
    handle := subdir
    stparent := stself :: a.stparent }

/-- The state in which that recursive call starts: the open attempt, the
"creating subdirectory" message and the creation of the node are logged. -/
def sub_start (a : Args) (entry : CStr) (s : Sys) : Sys :=
  { log := s.log ++ [Event.dbg_opening (mk_uri a.psz_name entry),
      Event.opendir (mk_uri a.psz_name entry), Event.dbg_creating (mk_uri a.psz_name entry),
      Event.NodeCreate entry a.p_parent_category (playlist_item_t.created s.i_nodes)]
    i_nodes := s.i_nodes + 1 }

/-- The state `s` with the calls `l` put before its log. -/
def Sys.shift (l : List Event) (s : Sys) : Sys :=
  { log := l ++ s.log, i_nodes := s.i_nodes }

/-- The same result, with the calls `l` put before the log. -/
def shift_result (l : List Event) (r : Option (Int × Sys)) : Option (Int × Sys) :=
  r.map (fun p => (p.1, p.2.shift l))

/-- A callee whose behaviour does not depend on the calls already logged. -/
def Framed (callee : Args → Sys → Option (Int × Sys)) : Prop :=
  ∀ (a : Args) (s : Sys) (l : List Event), callee a (s.shift l) = shift_result l (callee a s)

/-- No node and no leaf of the log has a name that begins with a dot. -/
def names_visible (log : List Event) : Prop :=
  ∀ e ∈ log, ∀ n, e.itemName = some n → n.head? ≠ some '.'

/-- A directory `/m` with the hidden entries `.`, `..` and `.git` and the
regular file `a.mp3`; every path but `/m/a.mp3` opens as a directory. -/
def world_hidden : World :=
  { utf8_opendir := fun p => if p = "/m/a.mp3".toList then Except.error ENOTDIR else Except.ok 1
    dirfd := fun h => h
    fstat := fun fd => if fd = 0 then some { st_ino := 100, st_dev := 1 }
      else if fd = 1 then some { st_ino := 101, st_dev := 1 } else none
    utf8_loaddir := fun h =>
      if h = 0 then some [".".toList, "..".toList, ".git".toList, "a.mp3".toList]
      else if h = 1 then some ["config".toList] else none
    ignore_filetypes := some default_ignore_filetypes }

/-- A directory `/m` (inode 100 on device 1, handle `0`) whose listing is
`a.mp3`, `loop`, `other`: `loop` is a link back to `/m` itself (handle `1`, the
same inode and device), `other` is an empty directory with the same inode
number on another device (handle `2`); `a.mp3` is a regular file. Through
`loop` the directory `/m` is reachable from itself. -/
def world_loop : World :=
  { utf8_opendir := fun p =>
      if p = "/m/loop".toList then Except.ok 1
      else if p = "/m/other".toList then Except.ok 2
      else Except.error ENOTDIR
    dirfd := fun h => h
    fstat := fun fd =>
      if fd = 0 ∨ fd = 1 then some { st_ino := 100, st_dev := 1 }
      else if fd = 2 then some { st_ino := 100, st_dev := 2 } else none
    utf8_loaddir := fun h =>
      if h = 0 ∨ h = 1 then some ["a.mp3".toList, "loop".toList, "other".toList]
      else if h = 2 then some [] else none
    ignore_filetypes := some default_ignore_filetypes }

/-- The identities that occur in `world_loop`. -/
def idents_loop : List stat := [{ st_ino := 100, st_dev := 1 }, { st_ino := 100, st_dev := 2 }]

/-- The handle the event closes, if it is a `closedir`. -/
def Event.closed : Event → Option DIR
  | Event.closedir handle => some handle
  | _ => none

/-- The leaf `ReadDir` adds for an entry handled as a file. -/
def leaf_of (a : Args) (entry : CStr) : Event :=
  Event.BothAddInput (file_scheme ++ mk_uri a.psz_name entry) entry a.p_current_input
    a.p_parent_category

/-- The handle `utf8_opendir` gives for the entry, if it opens as a
directory. -/
def opens_as (w : World) (a : Args) (entry : CStr) : Option DIR :=
  match w.utf8_opendir (mk_uri a.psz_name entry) with
  | Except.ok subdir => some subdir
  | Except.error _ => none

/-- The entries of a listing for which `ReadDir` opens a directory in the modes
`MODE_NONE` and `MODE_EXPAND`: not hidden, and `utf8_opendir` succeeds. -/
def is_subdir (w : World) (a : Args) (entry : CStr) : Bool :=
  entry.head? ≠ some '.' ∧ (opens_as w a entry).isSome

/-- The entries of a listing that `ReadDir` adds as leaves: not hidden, handled
as a file (the mode is `MODE_COLLAPSE` or the entry does not open as a
directory) and not dropped by the extension filter. -/
def is_added_file (w : World) (a : Args) (exts : List CStr) (entry : CStr) : Bool :=
  entry.head? ≠ some '.' ∧ (a.i_mode = MODE_COLLAPSE ∨ (opens_as w a entry).isNone) ∧
    ignored exts entry = false

/-! ## The playlist tree -/

/-- An ordered playlist tree: a leaf with its URI and name, or a container node
with its name and its children, first child first. -/
inductive PlTree
  | leaf (psz_uri name : CStr)
  | node (name : CStr) (children : List PlTree)

/-- Modelled from the spec: the collaborator `appendChild(parent, child)` read
backwards. Given the children lists `f` that the later calls build, the
children lists with the call `e` before them: a created node or an added leaf
becomes the first child of its parent (`PLAYLIST_APPEND`, `PLAYLIST_END`), a
node carrying the children attached to it later; other calls change nothing. -/
def attach (e : Event) (f : Option playlist_item_t → List PlTree) :
    Option playlist_item_t → List PlTree :=
  match e with
  | Event.NodeCreate name parent p_node =>
    fun q => if q = parent then PlTree.node name (f (some p_node)) :: f q else f q
  | Event.BothAddInput psz_uri name _ parent =>
    fun q => if q = parent then PlTree.leaf psz_uri name :: f q else f q
  | _ => f

/-- The children lists after the calls `D`, followed by calls that build `f`. -/
def grow (D : List Event) (f : Option playlist_item_t → List PlTree) :
    Option playlist_item_t → List PlTree :=
  D.foldr attach f

/-- The ordered children of every item (`none`: of no parent) that a log
builds. -/
def children_of (log : List Event) : Option playlist_item_t → List PlTree :=
  grow log (fun _ => [])

/-- What the specification expects for one entry of the sorted listing of the
directory `path`, given the expected trees `sub` of the subdirectories: nothing
for a hidden entry, a container node holding the expected tree of the
subdirectory for an entry that opens as a directory, nothing for a file that
the extension filter drops, and otherwise a leaf with the URI
`file://<path>/<entry>`. -/
def spec_entry (w : World) (exts : List CStr) (sub : CStr → DIR → List PlTree) (path : CStr)
    (entry : CStr) : Option PlTree :=
  if entry.head? = some '.' then none
  else
    match w.utf8_opendir (mk_uri path entry) with
    | Except.ok subdir => some (PlTree.node entry (sub (mk_uri path entry) subdir))
    | Except.error _ =>
      if ignored exts entry then none
      else some (PlTree.leaf (file_scheme ++ mk_uri path entry) entry)

/-- The tree the specification expects below a directory, for a recursion
depth of at most `fuel`: what it expects for each entry of the sorted listing,
in listing order. -/
def spec_tree (w : World) (exts : List CStr) : Nat → CStr → DIR → List PlTree
  | 0, _, _ => []
  | fuel + 1, path, handle =>
    match w.utf8_loaddir handle with
    | none => []
    | some entries => entries.filterMap (spec_entry w exts (spec_tree w exts fuel) path)

/-- The entry of the directory `path` is hidden, or is not a directory
(`ENOTDIR`), or opens as a directory that `sub` accepts. -/
def well_entry (w : World) (sub : DIR → CStr → Bool) (path : CStr) (entry : CStr) : Bool :=
  decide (entry.head? = some '.') ||
  match w.utf8_opendir (mk_uri path entry) with
  | Except.ok subdir => sub subdir (mk_uri path entry)
  | Except.error err => decide (err = ENOTDIR)

/-- What lies below the directory `handle` of path `path`, reached through the
ancestors `chain`, is a directory tree without cycles that is read without I/O
failure, of depth at most `fuel`: the identity of the directory is available
and is not that of an ancestor, its listing is available, and every non-hidden
entry either is not a directory (`ENOTDIR`) or opens as a directory of which
the same holds. -/
def well_tree (w : World) : Nat → List stat → DIR → CStr → Bool
  | 0, _, _, _ => false
  | fuel + 1, chain, handle, path =>
    decide (w.dirfd handle ≠ -1) &&
    match w.fstat (w.dirfd handle) with
    | none => false
    | some st =>
      !stat_list_hit st chain &&
      match w.utf8_loaddir handle with
      | none => false
      | some entries => entries.all (well_entry w (well_tree w fuel (st :: chain)) path)

/-- The calls `D`, which create the nodes numbered from `k` up to `n`, build
the children `spec` under the item `c` and touch no other item that exists
before them or is created after them. -/
def Grows (D : List Event) (k n : Nat) (c : playlist_item_t) (spec : List PlTree) : Prop :=
  ∀ f0 : Option playlist_item_t → List PlTree,
    (∀ j, k ≤ j → j < n → f0 (some (playlist_item_t.created j)) = []) →
    grow D f0 (some c) = spec ++ f0 (some c) ∧
    ∀ q, q ≠ some c → (∀ j, q = some (playlist_item_t.created j) → j < k ∨ n ≤ j) →
      grow D f0 q = f0 q

/-- A directory `/m` holding `.hidden.mp3`, `a.mp3` and the directory `sub`
(handle `1`), which holds `b.mp3`; the configuration is `db,`. -/
def world_tree : World :=
  { utf8_opendir := fun p => if p = "/m/sub".toList then Except.ok 1 else Except.error ENOTDIR
    dirfd := fun h => h
    fstat := fun fd =>
      if fd = 0 then some { st_ino := 100, st_dev := 1 }
      else if fd = 1 then some { st_ino := 101, st_dev := 1 } else none
    utf8_loaddir := fun h =>
      if h = 0 then some [".hidden.mp3".toList, "a.mp3".toList, "sub".toList]
      else if h = 1 then some ["b.mp3".toList] else none
    ignore_filetypes := some "db,".toList }

/-- A directory `/m` holding only the hidden directory `.d` (handle `1`),
which holds the regular file `a.mp3`; the configuration is `db,`. -/
def world_dotdir : World :=
  { utf8_opendir := fun p => if p = "/m/.d".toList then Except.ok 1 else Except.error ENOTDIR
    dirfd := fun h => h
    fstat := fun fd =>
      if fd = 0 then some { st_ino := 100, st_dev := 1 }
      else if fd = 1 then some { st_ino := 101, st_dev := 1 } else none
    utf8_loaddir := fun h =>
      if h = 0 then some [".d".toList] else if h = 1 then some ["a.mp3".toList] else none
    ignore_filetypes := some "db,".toList }

/-- The arguments for the root `/m` when the host supplied no category node. -/
def args_m_nocat : Args :=
  { psz_name := "/m".toList
    i_mode := MODE_EXPAND
    p_parent := some (playlist_item_t.host 0)
    p_parent_category := none
    p_current_input := some 0
    handle := 0
    stparent := [] }

/-! ## The top-level caller `Read` -/

/-- Modelled from the spec: the error code `VLC_ENOMEM` of the host headers
(`vlc/vlc.h`, not part of the sources at hand); a non-zero code. -/
def VLC_ENOMEM : Int := -1

/-- Modelled from the spec: the error code `VLC_ENOOBJ` of the host headers
(`vlc/vlc.h`, not part of the sources at hand); a non-zero code. -/
def VLC_ENOOBJ : Int := -20

/-- The value of a C `int` expression: the mathematical value reduced to 32
bits, two's complement. -/
def wrap_int (x : Int) : Int := (x + 2147483648) % 4294967296 - 2147483648

/-- The functions that `p_access->pf_read` can hold. -/
inductive pf_read_t
  | Read
  | ReadNull
deriving DecidableEq, Repr

/-- The fields of `access_t` that `Read` reads: the path and the directory
handle stored in `p_sys` by `Open`. -/
structure access_t where
  psz_path : CStr
  p_sys : DIR
deriving DecidableEq, Repr

/-- Modelled from the spec: what the host answers to `Read`, none of it defined
in the sources at hand. `strdup_null` tells that `strdup` returned NULL,
`p_input` is the result of `vlc_object_find` (`none` for NULL),
`p_current_input` that of `input_GetItem`, `p_current` that of
`playlist_ItemGetByInput`, `recursive` the value of the variable `recursive`,
`p_item_in_category` the result of `playlist_ItemToNode`, and
`DIRECTORY_ACTIVITY` the constant of that name. -/
structure Host where
  strdup_null : Bool
  p_input : Option Nat
  p_current_input : Option Nat
  p_current : Option playlist_item_t
  recursive : CStr
  p_item_in_category : Option playlist_item_t
  DIRECTORY_ACTIVITY : Int

/-- The state `Read` works on: the surroundings of `ReadDir`, the playlist
variable `activity`, the field `p_access->pf_read` and the bytes of
`p_buffer`. -/
structure Top where
  sys : Sys
  activity : Int
  pf_read : pf_read_t
  p_buffer : List Nat
deriving DecidableEq, Repr

/-- Append one call to the log. -/
def Top.emit (t : Top) (e : Event) : Top :=
  { t with sys := t.sys.emit e }

/-- Modelled from the spec: `var_SetInteger( p_playlist, "activity", value )`,
which stores the value and is logged. -/
def var_SetInteger_activity (value : Int) (t : Top) : Top :=
  { t with sys := t.sys.emit (Event.set_activity value), activity := value }

/-- The function `ReadNull`: `memset( p_buffer, 0, i_len )`, result `i_len`. -/
def ReadNull (i_len : Nat) (t : Top) : Int × Top :=
  ((i_len : Int), { t with p_buffer := List.replicate i_len 0 ++ t.p_buffer.drop i_len })

/-- The block "Remove the ending '/' char" of `Read`. -/
def remove_ending_slash (psz_name : CStr) : CStr :=
  match psz_name with
  | [] => []
  | _ :: _ =>
    match psz_name.getLast? with
    | some c => if c = '/' ∨ c = '\\' then psz_name.dropLast else psz_name
    | none => psz_name

/-- The test `!strncmp( s1, s2, n )` on C strings. -/
def strncmp_zero (s1 s2 : CStr) (n : Nat) : Bool :=
  s1.take n == s2.take n

/-- The block "Handle mode" of `Read`, from the value of `recursive`. -/
def handle_mode (psz : CStr) : Mode :=
  if psz = [] ∨ strncmp_zero psz "none".toList 4 = true then MODE_NONE
  else if strncmp_zero psz "collapse".toList 8 = true then MODE_COLLAPSE
  else MODE_EXPAND

/-- The arguments of the call of `ReadDir` in `Read`. -/
def Read_args (h : Host) (p_access : access_t) (p_current : playlist_item_t) : Args :=
  { psz_name := remove_ending_slash p_access.psz_path
    i_mode := handle_mode h.recursive
    p_parent := some p_current
    p_parent_category := h.p_item_in_category
    p_current_input := h.p_current_input
    handle := p_access.p_sys
    stparent := [] }

/-- The function `Read`. The fuel bounds the depth of the recursion of
`ReadDir`; the result is `none` when it is exhausted. -/
def Read (w : World) (h : Host) (fuel : Nat) (p_access : access_t) (i_len : Nat) (t : Top) :
    Option (Int × Top) :=
  if h.strdup_null then some (VLC_ENOMEM, t)
  else
    match h.p_input with
    | none => some (VLC_ENOOBJ, t.emit Event.err_no_input)
    | some _ =>
      match h.p_current with
      | none => some (VLC_ENOOBJ, t.emit Event.err_no_item)
      | some p_current =>
        let t := t.emit (Event.ItemToNode p_current)
        let i_activity := t.activity
        let t := var_SetInteger_activity (wrap_int (i_activity + h.DIRECTORY_ACTIVITY)) t
        -- the result of ReadDir is not stored
        match ReadDir w fuel (Read_args h p_access p_current) t.sys with
        | none => none
        | some (_, sys) =>
          let t := { t with sys := sys }
          let i_activity := t.activity
          let t := var_SetInteger_activity (wrap_int (i_activity - h.DIRECTORY_ACTIVITY)) t
          let t := t.emit Event.Signal
          -- Return fake data forever
          let t := { t with pf_read := pf_read_t.ReadNull }
          some (ReadNull i_len t)

/-- A host that finds its input and its item, with the variable `recursive` at
`expand` and the category node `host 1`. -/
def host_m : Host :=
  { strdup_null := false
    p_input := some 0
    p_current_input := some 0
    p_current := some (playlist_item_t.host 0)
    recursive := "expand".toList
    p_item_in_category := some (playlist_item_t.host 1)
    DIRECTORY_ACTIVITY := 100 }

/-- The access object for the path `/m/`, whose handle is `0`. -/
def access_m : access_t := { psz_path := "/m/".toList, p_sys := 0 }

/-- The state before `Read`: nothing logged, `activity` at 7, `pf_read` at
`Read`, a buffer of four bytes. -/
def Top.init : Top :=
  { sys := Sys.init, activity := 7, pf_read := pf_read_t.Read, p_buffer := [1, 2, 3, 4] }

/-! ## More sample filesystems -/

/-- A directory `/m` whose identity is available but whose listing fails. -/
def world_unreadable : World :=
  { utf8_opendir := fun _ => Except.error ENOTDIR
    dirfd := fun h => h
    fstat := fun fd => if fd = 0 then some { st_ino := 100, st_dev := 1 } else none
    utf8_loaddir := fun _ => none
    ignore_filetypes := some default_ignore_filetypes }

/-- An empty directory `/m`. -/
def world_empty : World :=
  { utf8_opendir := fun _ => Except.error ENOTDIR
    dirfd := fun h => h
    fstat := fun fd => if fd = 0 then some { st_ino := 100, st_dev := 1 } else none
    utf8_loaddir := fun h => if h = 0 then some [] else none
    ignore_filetypes := some default_ignore_filetypes }

/-- A directory `/m` whose sorted listing is `locked`, `z.mp3`: opening
`/m/locked` fails with the `errno` 13 (permission denied), `z.mp3` is a regular
file. -/
def world_locked : World :=
  { utf8_opendir := fun p =>
      if p = "/m/locked".toList then Except.error 13 else Except.error ENOTDIR
    dirfd := fun h => h
    fstat := fun fd => if fd = 0 then some { st_ino := 100, st_dev := 1 } else none
    utf8_loaddir := fun h => if h = 0 then some ["locked".toList, "z.mp3".toList] else none
    ignore_filetypes := some default_ignore_filetypes }

/-! ## Failure and its propagation -/

/-- The event is the report of a fatal failure of a call of `ReadDir`: "cannot
stat" or "cannot read". -/
def Event.isFailure : Event → Bool
  | Event.err_cannot_stat _ => true
  | Event.err_cannot_read _ => true
  | _ => false

/-- The event is a `closedir`. -/
def Event.isClose : Event → Bool
  | Event.closedir _ => true
  | _ => false

/-- The relation between the code `r` returned by a call and the calls `D` it
logged: either `r` is `VLC_SUCCESS` and no failure was reported, or `r` is not
`VLC_SUCCESS`, exactly one failure was reported, and the only calls made after
it are `closedir`s. -/
def Outcome (r : Int) (D : List Event) : Prop :=
  (r = VLC_SUCCESS ∧ ∀ e ∈ D, e.isFailure = false) ∨
  (r ≠ VLC_SUCCESS ∧ ∃ D0 e C, D = D0 ++ e :: C ∧ e.isFailure = true ∧
    (∀ x ∈ D0, x.isFailure = false) ∧ ∀ x ∈ C, x.isClose = true)

/-! ## Paths below the root -/

/-- The path of the directory reached from `root` through the directories
`ds`, outermost first: `root/d1/.../dk`. -/
def descend (root : CStr) (ds : List CStr) : CStr :=
  ds.foldl mk_uri root

/-- The handle of the directory reached from the directory `root`, open as
`handle`, through the directories `ds`, outermost first: every name is
non-hidden and `utf8_opendir` opens it below the previous ones; `none` when
one of them is hidden or does not open. -/
def handle_below (w : World) : CStr → DIR → List CStr → Option DIR
  | _, handle, [] => some handle
  | root, _, d :: ds =>
    if d.head? = some '.' then none
    else
      match w.utf8_opendir (mk_uri root d) with
      | Except.ok subdir => handle_below w (mk_uri root d) subdir ds
      | Except.error _ => none

/-- Every leaf of the log was found in a directory below `root`: its name is a
non-hidden entry, not dropped by the ignore array `exts`, of the listing of the
directory reached from `root` (open as `handle`) through some directories
`d1`, ..., `dk`, and its URI is `file://root/d1/.../dk/name` for that very
chain. -/
def found_below (w : World) (exts : List CStr) (root : CStr) (handle : DIR)
    (log : List Event) : Prop :=
  ∀ e ∈ log, ∀ psz_uri name i parent, e = Event.BothAddInput psz_uri name i parent →
    ∃ ds h entries, handle_below w root handle ds = some h ∧
      w.utf8_loaddir h = some entries ∧ name ∈ entries ∧ name.head? ≠ some '.' ∧
      ignored exts name = false ∧
      psz_uri = file_scheme ++ (descend root ds ++ '/' :: name)

/-- A directory `/m` with the sorted listing `listing`, in which `sub` is a
directory (handle `1`) with the sorted listing `sublisting` and every other
entry is a regular file, with `config` as value of `ignore-filetypes`. -/
def world_scenario (listing sublisting : List CStr) (config : CStr) : World :=
  { utf8_opendir := fun p => if p = "/m/sub".toList then Except.ok 1 else Except.error ENOTDIR
    dirfd := fun h => h
    fstat := fun fd =>
      if fd = 0 then some { st_ino := 100, st_dev := 1 }
      else if fd = 1 then some { st_ino := 101, st_dev := 1 } else none
    utf8_loaddir := fun h =>
      if h = 0 then some listing else if h = 1 then some sublisting else none
    ignore_filetypes := some config }

/-! ## Open directory handles -/

/-- The handles that are open after the calls of a log, most recent first,
starting from the open handles `st`: a successful `utf8_opendir` opens one more
and a `closedir` must close the one opened last; `none` when a `closedir` gets
another handle or finds none open. -/
def handle_stack (w : World) : List Event → List DIR → Option (List DIR)
  | [], st => some st
  | Event.opendir path :: rest, st =>
    match w.utf8_opendir path with
    | Except.ok handle => handle_stack w rest (handle :: st)
    | Except.error _ => handle_stack w rest st
  | Event.closedir handle :: rest, st =>
    match st with
    | top :: below => if top = handle then handle_stack w rest below else none
    | [] => none
  | _ :: rest, st => handle_stack w rest st

/-- The calls `D` close every handle they open, last opened first, and no
other. -/
def Balanced (w : World) (D : List Event) : Prop :=
  ∀ st, handle_stack w D st = some st

/-- The calls of the log are as `handle_stack` requires and at no moment more
than `n` handles are open. -/
def stack_within (w : World) (n : Nat) : List Event → List DIR → Bool
  | [], st => decide (st.length ≤ n)
  | Event.opendir path :: rest, st =>
    decide (st.length ≤ n) &&
    match w.utf8_opendir path with
    | Except.ok handle => stack_within w n rest (handle :: st)
    | Except.error _ => stack_within w n rest st
  | Event.closedir handle :: rest, st =>
    decide (st.length ≤ n) &&
    match st with
    | top :: below => decide (top = handle) && stack_within w n rest below
    | [] => false
  | _ :: rest, st => decide (st.length ≤ n) && stack_within w n rest st

/-- A callee that makes no call of its own and returns the code `ret` gives for
its arguments: what the entry loop logs with it are the calls of the frame
itself. -/
def silent_callee (ret : Args → Int) : Args → Sys → Option (Int × Sys) :=
  fun a s => some (ret a, s)

/-! ## Observations on `Read` -/

/-- The event is one of the calls made by `ReadDir` or `OpenDir` (and not one
of those made by `Read` itself). -/
def Event.ofReadDir : Event → Bool
  | Event.err_no_input => false
  | Event.err_no_item => false
  | Event.ItemToNode _ => false
  | Event.set_activity _ => false
  | Event.Signal => false
  | _ => true

/-- The event is a write of the variable `activity`. -/
def Event.isSetActivity : Event → Bool
  | Event.set_activity _ => true
  | _ => false

/-- The state in which `Read` calls `ReadDir`: the item was turned into a node
and `DIRECTORY_ACTIVITY` was added to `activity`. -/
def Read_start (h : Host) (p_current : playlist_item_t) (t : Top) : Sys :=
  { log := t.sys.log ++ [Event.ItemToNode p_current,
      Event.set_activity (wrap_int (t.activity + h.DIRECTORY_ACTIVITY))]
    i_nodes := t.sys.i_nodes }

/-! ## The path handed to the expansion -/

/-- The index `ptr - psz_name` at which the block "Remove the ending '/' char"
of `Read` reads through `*--ptr`, that is `strlen (psz_name) - 1`; `none` when
the block is skipped because `psz_name[0]` is NUL. -/
def ending_index (psz_name : CStr) : Option Int :=
  match psz_name with
  | [] => none
  | _ :: _ => some ((psz_name.length : Int) - 1)

/-! ## Entries handled as files -/

/-- A directory `/m` whose sorted listing is `shots.jpg`, `sub`, both of them
directories (handles `1` and `2`); the configuration is `jpg,`, which gives the
ignore array `jpg`. -/
def world_shots : World :=
  { utf8_opendir := fun p =>
      if p = "/m/shots.jpg".toList then Except.ok 1
      else if p = "/m/sub".toList then Except.ok 2
      else Except.error ENOTDIR
    dirfd := fun h => h
    fstat := fun fd =>
      if fd = 0 then some { st_ino := 100, st_dev := 1 }
      else if fd = 1 then some { st_ino := 101, st_dev := 1 }
      else if fd = 2 then some { st_ino := 102, st_dev := 1 } else none
    utf8_loaddir := fun h =>
      if h = 0 then some ["shots.jpg".toList, "sub".toList]
      else if h = 1 then some ["a.mp3".toList] else if h = 2 then some ["b.mp3".toList]
      else none
    ignore_filetypes := some "jpg,".toList }

/-! ## The array `psz_uri` -/

/-- The terminator of a C string. -/
def NUL : Char := Char.ofNat 0

/-- A write of the bytes `src` into an array at the offset `off`; `none` when
it would touch an index at or beyond the size of the array. -/
def poke (buf : List Char) (off : Nat) (src : List Char) : Option (List Char) :=
  if off + src.length ≤ buf.length then
    some (buf.take off ++ src ++ buf.drop (off + src.length))
  else none

/-- The call `sprintf( psz_uri, "%s/%s", psz_name, entry)`: the text and its
terminator are written from the start of the array. -/
def sprintf_uri (psz_uri : List Char) (psz_name entry : CStr) : Option (List Char) :=
  poke psz_uri 0 (psz_name ++ '/' :: entry ++ [NUL])

/-- The libc `memmove` inside one array: `n` bytes are read at the offset `src`
and then written at the offset `dst`; `none` when the read or the write leaves
the array. -/
def memmove (buf : List Char) (dst src n : Nat) : Option (List Char) :=
  if src + n ≤ buf.length then poke buf dst ((buf.drop src).take n) else none

/-- The libc `memcpy` of the first `n` bytes of a string literal (its text and
its terminator) to the offset `dst` of an array. -/
def memcpy (buf : List Char) (dst : Nat) (lit : CStr) (n : Nat) : Option (List Char) :=
  if n ≤ lit.length + 1 then poke buf dst ((lit ++ [NUL]).take n) else none

/-- The value of
`int i_size_entry = strlen( psz_name ) + strlen( entry ) + 2 + 7`. -/
def i_size_entry (psz_name entry : CStr) : Int :=
  wrap_int ((psz_name.length : Int) + (entry.length : Int) + 2 + 7)

/-- The lines of the entry loop that fill `psz_uri` for an entry added as a
leaf: the declaration `char psz_uri[i_size_entry]` (the array starts with the
undetermined bytes `garbage`), `sprintf`, then
`memmove (psz_uri + 7, psz_uri, sizeof (psz_uri) - 7)` and
`memcpy (psz_uri, "file://", 7)`. The result is the array at the call of
`input_ItemNewWithType`; it is `none` when the size is not positive or when an
access leaves the array. -/
def fill_psz_uri (psz_name entry : CStr) (garbage : Nat → Char) : Option (List Char) :=
  let size := i_size_entry psz_name entry
  if size ≤ 0 then none
  else
    let psz_uri := (List.range size.toNat).map garbage
    match sprintf_uri psz_uri psz_name entry with
    | none => none
    | some psz_uri =>
      if psz_uri.length < 7 then none
      else
        match memmove psz_uri 7 0 (psz_uri.length - 7) with
        | none => none
        | some psz_uri => memcpy psz_uri 0 file_scheme 7

/-! ## The frames of an expansion -/

/-- The calls of `ReadDir` that the expansion started by the call `root` can
hold: the call `root` itself and, for a call that passed the cycle guard with
the identity `st`, every call its entry loop makes, which has the arguments
`sub_args` with `st` put in front of the chain. -/
inductive Frame (w : World) (root : Args) : Args → Prop
  | root : Frame w root root
  | call (a : Args) (st : stat) (entry : CStr) (subdir : DIR) (p_node : playlist_item_t) :
      Frame w root a → w.dirfd a.handle ≠ -1 → w.fstat (w.dirfd a.handle) = some st →
      stat_list_hit st a.stparent = false →
      Frame w root (sub_args a st entry subdir p_node)

/-- The number of calls of `ReadDir` that are active while the call with the
arguments `a` runs, in an expansion started with an empty chain: one per link
of the chain, and the call itself. -/
def depth (a : Args) : Nat := a.stparent.length + 1

/-- A directory `/m` (inode 100 on device 1) whose only entry `again` is a link
to `/m` itself (handle `1`); it is the only directory of the filesystem, so
every handle has the same identity and the same listing. -/
def world_selfloop : World :=
  { utf8_opendir := fun p => if p = "/m/again".toList then Except.ok 1 else Except.error ENOTDIR
    dirfd := fun h => h
    fstat := fun _ => some { st_ino := 100, st_dev := 1 }
    utf8_loaddir := fun _ => some ["again".toList]
    ignore_filetypes := some default_ignore_filetypes }

/-! ## Renaming of playlist items -/

/-- The call `e` with every playlist item replaced by its image under `f`. -/
def Event.rename (f : playlist_item_t → playlist_item_t) : Event → Event
  | Event.NodeCreate name parent p_node => Event.NodeCreate name (parent.map f) (f p_node)
  | Event.BothAddInput psz_uri name p_current_input parent =>
    Event.BothAddInput psz_uri name p_current_input (parent.map f)
  | Event.ItemToNode p_current => Event.ItemToNode (f p_current)
  | e => e

/-- The arguments `a` with the two playlist items replaced by their images
under `f`; path, mode, input, handle and chain are kept. -/
def Args.rename (f : playlist_item_t → playlist_item_t) (a : Args) : Args :=
  { a with p_parent := a.p_parent.map f, p_parent_category := a.p_parent_category.map f }

/-- The renaming of items that moves the number of every created node up by
`d` and keeps the items of the host. -/
def shift_created (d : Nat) : playlist_item_t → playlist_item_t
  | playlist_item_t.host k => playlist_item_t.host k
  | playlist_item_t.created k => playlist_item_t.created (k + d)

/-- A callee of which a second run, started in another state and with renamed
items, makes the same calls up to the renaming and returns the same code. -/
def Repeatable (f : playlist_item_t → playlist_item_t)
    (callee : Args → Sys → Option (Int × Sys)) : Prop :=
  ∀ (a : Args) (s1 s2 : Sys),
    (∀ j, f (playlist_item_t.created (s1.i_nodes + j)) =
      playlist_item_t.created (s2.i_nodes + j)) →
    ∀ (r : Int) (t1 : Sys), callee a s1 = some (r, t1) →
      ∃ D k, t1 = { log := s1.log ++ D, i_nodes := s1.i_nodes + k } ∧
        callee (a.rename f) s2 =
          some (r, { log := s2.log ++ D.map (Event.rename f), i_nodes := s2.i_nodes + k })

end Directory

namespace DirectX

/-! # DirectX video output of `plugins/directx/vout_directx.c`

A shallow embedding of `UpdatePictureStruct`, `DirectXCreateSurface`,
`DirectXGetSurfaceDesc`, `NewPictureVec` and of the choice of the first chroma
in `vout_Init`.

Conventions of the embedding

* A chroma is the number of its FOURCC code; pointers are numbers, `0` for
  NULL, and are taken to be valid where the code dereferences them.
* DirectDraw and `malloc` are read through the oracles of `DDraw`.
* Of the array `p_pic` only the element `p_pic[0]` is kept, the only one the
  code touches (`I_OUTPUTPICTURES` is at most 1).
-/

/-! ## Chromas -/

/-- Modelled from the spec: the FOURCC code of four characters as `video.h`
(not part of the sources at hand) defines them, first character in the low
byte. -/
def fourcc (a b c d : Char) : Nat :=
  a.toNat + 256 * b.toNat + 65536 * c.toNat + 16777216 * d.toNat

/-- Modelled from the spec: the chroma `RGB2` of `video.h`. -/
def FOURCC_RGB2 : Nat := fourcc 'R' 'G' 'B' '2'

/-- Modelled from the spec: the chroma `RV15` of `video.h`. -/
def FOURCC_RV15 : Nat := fourcc 'R' 'V' '1' '5'

/-- Modelled from the spec: the chroma `RV16` of `video.h`. -/
def FOURCC_RV16 : Nat := fourcc 'R' 'V' '1' '6'

/-- Modelled from the spec: the chroma `RV24` of `video.h`. -/
def FOURCC_RV24 : Nat := fourcc 'R' 'V' '2' '4'

/-- Modelled from the spec: the chroma `RV32` of `video.h`. -/
def FOURCC_RV32 : Nat := fourcc 'R' 'V' '3' '2'

/-- Modelled from the spec: the chroma `YV12` of `video.h`. -/
def FOURCC_YV12 : Nat := fourcc 'Y' 'V' '1' '2'

/-- Modelled from the spec: the chroma `IYUV` of `video.h`. -/
def FOURCC_IYUV : Nat := fourcc 'I' 'Y' 'U' 'V'

/-- Modelled from the spec: the chroma `YUY2` of `video.h`. -/
def FOURCC_YUY2 : Nat := fourcc 'Y' 'U' 'Y' '2'

/-- Modelled from the spec: the chroma `YUNV` of `video.h`. -/
def FOURCC_YUNV : Nat := fourcc 'Y' 'U' 'N' 'V'

/-- Modelled from the spec: the chroma `UYVY` of `video.h`. -/
def FOURCC_UYVY : Nat := fourcc 'U' 'Y' 'V' 'Y'

/-- Modelled from the spec: the chroma `UYNV` of `video.h`. -/
def FOURCC_UYNV : Nat := fourcc 'U' 'Y' 'N' 'V'

/-- Modelled from the spec: the chroma `Y422` of `video.h`. -/
def FOURCC_Y422 : Nat := fourcc 'Y' '4' '2' '2'

/-- Modelled from the spec: the chroma `YVYU` of `video.h`. -/
def FOURCC_YVYU : Nat := fourcc 'Y' 'V' 'Y' 'U'

/-- The chromas for which `UpdatePictureStruct` has a `case` label. -/
def known_chromas : List Nat :=
  [FOURCC_RGB2, FOURCC_RV15, FOURCC_RV16, FOURCC_RV24, FOURCC_RV32, FOURCC_YV12, FOURCC_IYUV,
    FOURCC_YUY2]

/-! ## Pictures and the output thread -/

/-- The fields of `plane_t` that `UpdatePictureStruct` writes. -/
structure plane_t where
  p_pixels : Int
  i_lines : Int
  i_pitch : Int
  i_pixel_bytes : Int
  i_visible_bytes : Int
  b_margin : Int
deriving DecidableEq, Repr

/-- The fields of `DDSURFACEDESC` that the code reads. -/
structure DDSURFACEDESC where
  lpSurface : Int
  lPitch : Int
deriving DecidableEq, Repr

/-- The structure `picture_sys_t`. -/
structure picture_sys_t where
  p_front_surface : Nat
  p_surface : Nat
  ddsd : DDSURFACEDESC
deriving DecidableEq, Repr

/-- The fields of `picture_t` that the code touches; `p` is the array of
planes and `p_sys` the structure `p_sys` points to. -/
structure picture_t where
  p_sys : picture_sys_t
  p : List plane_t
  i_planes : Int
  i_status : Int
  i_type : Int
deriving DecidableEq, Repr

/-- The fields of `p_vout->output` that the code touches; `i_pictures` is what
the macro `I_OUTPUTPICTURES` stands for. -/
structure output_t where
  i_chroma : Nat
  i_width : Int
  i_height : Int
  i_rmask : Nat
  i_gmask : Nat
  i_bmask : Nat
  i_pictures : Int
deriving DecidableEq, Repr

/-- The fields of `vout_sys_t` that the code touches. -/
structure vout_sys_t where
  b_using_overlay : Bool
  b_hw_yuv : Bool
  p_current_surface : Nat
deriving DecidableEq, Repr

/-- The fields of `vout_thread_t` that the code touches. -/
structure vout_thread_t where
  output : output_t
  p_sys : vout_sys_t
deriving DecidableEq, Repr

/-- Modelled from the spec: the index `Y_PLANE` of `video.h`. -/
def Y_PLANE : Nat := 0

/-- Modelled from the spec: the index `U_PLANE` of `video.h`. -/
def U_PLANE : Nat := 1

/-- Modelled from the spec: the index `V_PLANE` of `video.h`. -/
def V_PLANE : Nat := 2

/-- Modelled from the spec: the picture status `DESTROYED_PICTURE` of
`video.h`. -/
def DESTROYED_PICTURE : Int := 6

/-- Modelled from the spec: the picture type `DIRECT_PICTURE` of `video.h`. -/
def DIRECT_PICTURE : Int := 200

/-- The plane `p[i]` of an array of planes. -/
def plane_at (p : List plane_t) (i : Nat) : plane_t :=
  p.getD i { p_pixels := 0, i_lines := 0, i_pitch := 0, i_pixel_bytes := 0,
             i_visible_bytes := 0, b_margin := 0 }

/-- The array of planes after the assignment `p[i] = pl`. -/
def set_plane (p : List plane_t) (i : Nat) (pl : plane_t) : List plane_t :=
  p.set i pl

/-- The assignments of `UpdatePictureStruct` to a plane of one byte per pixel
in the cases `FOURCC_YV12` and `FOURCC_IYUV`: the plane `i` gets the pixels
`p_pixels`, `i_lines` lines and the pitch `i_pitch`. -/
def set_yuv_plane (p_vout : vout_thread_t) (p_pic : picture_t) (i : Nat)
    (p_pixels i_lines i_pitch : Int) : picture_t :=
  let pl : plane_t :=
    { p_pixels := p_pixels
      i_lines := i_lines
      i_pitch := i_pitch
      i_pixel_bytes := 1
      i_visible_bytes := Directory.wrap_int (p_vout.output.i_width * 1)
      b_margin := 0 }
  { p_pic with p := set_plane p_pic.p i pl }

/-- The function `UpdatePictureStruct`: the result and the picture. -/
def UpdatePictureStruct (p_vout : vout_thread_t) (p_pic : picture_t) (i_chroma : Nat) :
    Int × picture_t :=
  let c := p_vout.output.i_chroma
  if c = FOURCC_RGB2 ∨ c = FOURCC_RV15 ∨ c = FOURCC_RV16 ∨ c = FOURCC_RV24 ∨ c = FOURCC_RV32 then
    let p0 := { plane_at p_pic.p 0 with
      p_pixels := p_pic.p_sys.ddsd.lpSurface
      i_lines := p_vout.output.i_height
      i_pitch := p_pic.p_sys.ddsd.lPitch
      b_margin := 0 }
    let p_pic := { p_pic with p := set_plane p_pic.p 0 p0, i_planes := 1 }
    -- the inner switch
    let i_pixel_bytes : Option Int :=
      if c = FOURCC_RGB2 then some 1
      else if c = FOURCC_RV15 ∨ c = FOURCC_RV16 then some 2
      else if c = FOURCC_RV24 ∨ c = FOURCC_RV32 then some 4
      else none
    match i_pixel_bytes with
    | none => (-1, p_pic)
    | some n =>
      let p0 := { p0 with
        i_pixel_bytes := n
        i_visible_bytes := Directory.wrap_int (p_vout.output.i_width * n) }
      (1, { p_pic with p := set_plane p_pic.p 0 p0 })
  else if c = FOURCC_YV12 then
    let y_lines := p_vout.output.i_height
    let y_pitch := p_pic.p_sys.ddsd.lPitch
    let p_pic := set_yuv_plane p_vout p_pic Y_PLANE p_pic.p_sys.ddsd.lpSurface y_lines y_pitch
    let v_pixels := p_pic.p_sys.ddsd.lpSurface + Directory.wrap_int (y_lines * y_pitch)
    let p_pic := set_yuv_plane p_vout p_pic V_PLANE v_pixels (Int.tdiv p_vout.output.i_height 2)
      (Int.tdiv y_pitch 2)
    let u_pixels :=
      v_pixels + Directory.wrap_int (Int.tdiv p_vout.output.i_height 2 * Int.tdiv y_pitch 2)
    let p_pic := set_yuv_plane p_vout p_pic U_PLANE u_pixels (Int.tdiv p_vout.output.i_height 2)
      (Int.tdiv y_pitch 2)
    (1, { p_pic with i_planes := 3 })
  else if c = FOURCC_IYUV then
    let y_lines := p_vout.output.i_height
    let y_pitch := p_pic.p_sys.ddsd.lPitch
    let p_pic := set_yuv_plane p_vout p_pic Y_PLANE p_pic.p_sys.ddsd.lpSurface y_lines y_pitch
    let u_pixels := p_pic.p_sys.ddsd.lpSurface + Directory.wrap_int (y_lines * y_pitch)
    let p_pic := set_yuv_plane p_vout p_pic U_PLANE u_pixels (Int.tdiv p_vout.output.i_height 2)
      (Int.tdiv y_pitch 2)
    let v_pixels :=
      u_pixels + Directory.wrap_int (Int.tdiv p_vout.output.i_height 2 * Int.tdiv y_pitch 2)
    let p_pic := set_yuv_plane p_vout p_pic V_PLANE v_pixels (Int.tdiv p_vout.output.i_height 2)
      (Int.tdiv y_pitch 2)
    (1, { p_pic with i_planes := 3 })
  else if c = FOURCC_YUY2 then
    let p0 : plane_t :=
      { p_pixels := p_pic.p_sys.ddsd.lpSurface
        i_lines := p_vout.output.i_height
        i_pitch := p_pic.p_sys.ddsd.lPitch
        i_pixel_bytes := 2
        i_visible_bytes := Directory.wrap_int (p_vout.output.i_width * 2)
        b_margin := 1 }
    (1, { p_pic with p := set_plane p_pic.p 0 p0, i_planes := 1 })
  else
    -- Not supported
    (0, p_pic)

/-- The block "Choose the chroma we will try first" of `vout_Init`: the value
given to `p_vout->output.i_chroma` for the chroma of the rendered pictures. -/
def vout_Init_chroma (render_chroma : Nat) : Nat :=
  if render_chroma = FOURCC_YUY2 ∨ render_chroma = FOURCC_YUNV then FOURCC_YUY2
  else if render_chroma = FOURCC_UYVY ∨ render_chroma = FOURCC_UYNV ∨
      render_chroma = FOURCC_Y422 then FOURCC_UYVY
  else if render_chroma = FOURCC_YVYU then FOURCC_YVYU
  else FOURCC_YV12

/-- A picture with three planes, all fields zero. -/
def picture_zero : picture_t :=
  { p_sys := { p_front_surface := 0, p_surface := 0, ddsd := { lpSurface := 0, lPitch := 0 } }
    p := List.replicate 3 { p_pixels := 0, i_lines := 0, i_pitch := 0, i_pixel_bytes := 0,
                            i_visible_bytes := 0, b_margin := 0 }
    i_planes := 0
    i_status := 0
    i_type := 0 }

/-- An output thread of 640 by 480 with the output chroma `i_chroma`. -/
def vout_sample (i_chroma : Nat) (b_using_overlay b_hw_yuv : Bool) : vout_thread_t :=
  { output := { i_chroma := i_chroma, i_width := 640, i_height := 480, i_rmask := 0,
                i_gmask := 0, i_bmask := 0, i_pictures := 0 }
    p_sys := { b_using_overlay := b_using_overlay, b_hw_yuv := b_hw_yuv,
               p_current_surface := 0 } }

/-! ## DirectDraw -/

/-- The values of `HRESULT` that the code tells apart: `DD_OK`,
`DDERR_SURFACELOST`, and any other error. -/
inductive HRESULT
  | DD_OK
  | DDERR_SURFACELOST
  | DDERR_GENERIC
deriving DecidableEq, Repr

/-- The fields of `DDPIXELFORMAT` that `NewPictureVec` reads; `dwFlags_RGB`
tells that `dwFlags & DDPF_RGB` is not zero. -/
structure DDPIXELFORMAT where
  dwFlags_RGB : Bool
  dwRGBBitCount : Nat
  dwRBitMask : Nat
  dwGBitMask : Nat
  dwBBitMask : Nat
deriving DecidableEq, Repr

/-- Modelled from the spec: what DirectDraw and the C library answer during one
call of `NewPictureVec`; none of it is defined in the sources at hand. The
calls of `DirectXCreateSurface` are numbered by their place in `NewPictureVec`
(`0` and `1`: the overlay with two and with no back buffer, `2`: the plain
surface in the chroma of the output, `3`: the plain RGB surface).
`IDirectDraw2_CreateSurface` answers for a call, given the overlay flag, the
chroma and the number of back buffers; `IDirectDrawSurface_QueryInterface`
answers with its result and the interface pointer; `malloc_ok` tells that
`malloc` does not return NULL; `IDirectDrawSurface2_Lock` answers for an
attempt on `p_pic[0]` (`0`, and `1` after `IDirectDrawSurface2_Restore`),
`ddsd` is the descriptor a successful lock fills in. The lock of the local
`front_pic` in the overlay part, which only serves to grey the pixels of the
front buffer, is left out. -/
structure DDraw where
  IDirectDraw2_CreateSurface : Nat → Bool → Nat → Int → HRESULT
  IDirectDrawSurface_QueryInterface : Nat → HRESULT × Nat
  malloc_ok : Bool
  IDirectDrawSurface2_GetAttachedSurface : HRESULT × Nat
  IDirectDrawSurface2_GetPixelFormat : DDPIXELFORMAT
  IDirectDrawSurface2_Lock : Nat → HRESULT
  ddsd : DDSURFACEDESC

/-- The function `DirectXCreateSurface`: the result and `*pp_surface_final`.
The argument `site` numbers the call. -/
def DirectXCreateSurface (dd : DDraw) (site : Nat) (i_chroma : Nat) (b_overlay : Bool)
    (i_backbuffers : Int) : Int × Nat :=
  if b_overlay = true ∧
      dd.IDirectDraw2_CreateSurface site b_overlay i_chroma i_backbuffers ≠ HRESULT.DD_OK then
    (0, 0)
  else if b_overlay = false ∧
      dd.IDirectDraw2_CreateSurface site b_overlay i_chroma i_backbuffers ≠ HRESULT.DD_OK then
    (0, 0)
  else
    -- Now that the surface is created, try to get a newer DirectX interface
    if (dd.IDirectDrawSurface_QueryInterface site).1 ≠ HRESULT.DD_OK then (0, 0)
    else (1, (dd.IDirectDrawSurface_QueryInterface site).2)

/-- The function `DirectXGetSurfaceDesc`: the result and the picture. -/
def DirectXGetSurfaceDesc (dd : DDraw) (p_pic : picture_t) : Int × picture_t :=
  let dxresult := dd.IDirectDrawSurface2_Lock 0
  let dxresult :=
    if dxresult = HRESULT.DDERR_SURFACELOST then dd.IDirectDrawSurface2_Lock 1
    else dxresult
  if dxresult ≠ HRESULT.DD_OK then
    (0, { p_pic with p_sys := { p_pic.p_sys with ddsd := { lpSurface := 0, lPitch := 0 } } })
  else
    (1, { p_pic with p_sys := { p_pic.p_sys with ddsd := dd.ddsd } })

/-- Where `NewPictureVec` stands after one of its three parts: it has returned
`code`, or it goes on. -/
inductive Flow
  | ret (code : Int) (p_vout : vout_thread_t) (p_pic : picture_t)
  | go (p_vout : vout_thread_t) (p_pic : picture_t)

/-- The first part of `NewPictureVec`, "First we try to use an YUV overlay
surface". -/
def NewPictureVec_overlay (dd : DDraw) (p_vout : vout_thread_t) (p_pic : picture_t) : Flow :=
  if p_vout.p_sys.b_using_overlay then
    let first := DirectXCreateSurface dd 0 p_vout.output.i_chroma
      p_vout.p_sys.b_using_overlay 2
    -- Try to reduce the number of backbuffers
    let created :=
      if first.1 = 0 then
        DirectXCreateSurface dd 1 p_vout.output.i_chroma p_vout.p_sys.b_using_overlay 0
      else first
    if created.1 ≠ 0 then
      -- Allocate internal structure
      if dd.malloc_ok = false then Flow.ret (-1) p_vout p_pic
      else
        let p_surface := created.2
        -- Get the back buffer
        let back :=
          if dd.IDirectDrawSurface2_GetAttachedSurface.1 ≠ HRESULT.DD_OK then p_surface
          else dd.IDirectDrawSurface2_GetAttachedSurface.2
        let p_pic := { p_pic with
          p_sys := { p_pic.p_sys with p_front_surface := p_surface, p_surface := back } }
        let p_vout := { p_vout with
          p_sys := { p_vout.p_sys with p_current_surface := p_surface } }
        -- reset the front buffer memory (through the local front_pic),
        -- DirectXUpdateOverlay
        Flow.go { p_vout with output := { p_vout.output with i_pictures := 1 } } p_pic
    else Flow.go p_vout p_pic
  else Flow.go p_vout p_pic

/-- The block of `NewPictureVec` under "Our last choice is to use a plain RGB
surface": the chroma and the masks taken from the pixel format of the display,
`none` for the `default:` label ("unknown screen depth"). -/
def rgb_output (pf : DDPIXELFORMAT) (output : output_t) : Option output_t :=
  if pf.dwFlags_RGB then
    let i_chroma : Option Nat :=
      if pf.dwRGBBitCount = 8 then some FOURCC_RGB2
      else if pf.dwRGBBitCount = 15 then some FOURCC_RV15
      else if pf.dwRGBBitCount = 16 then some FOURCC_RV16
      else if pf.dwRGBBitCount = 24 then some FOURCC_RV24
      else if pf.dwRGBBitCount = 32 then some FOURCC_RV32
      else none
    match i_chroma with
    | none => none
    | some c =>
      some { output with
        i_chroma := c
        i_rmask := pf.dwRBitMask
        i_gmask := pf.dwGBitMask
        i_bmask := pf.dwBBitMask }
  else some output

/-- The second part of `NewPictureVec`, "we'll try to create a plain offscreen
surface". -/
def NewPictureVec_plain (dd : DDraw) (p_vout : vout_thread_t) (p_pic : picture_t) : Flow :=
  if p_vout.p_sys.b_using_overlay = false then
    let first :=
      if p_vout.p_sys.b_hw_yuv then
        some (DirectXCreateSurface dd 2 p_vout.output.i_chroma p_vout.p_sys.b_using_overlay 0)
      else none
    let retry := p_vout.p_sys.b_hw_yuv = false ∨ (first.map (·.1)) = some 0
    if retry then
      match rgb_output dd.IDirectDrawSurface2_GetPixelFormat p_vout.output with
      | none =>
        -- unknown screen depth
        Flow.ret 0 p_vout p_pic
      | some output =>
        let p_vout := { p_vout with
          output := output
          p_sys := { p_vout.p_sys with b_hw_yuv := false } }
        let created := DirectXCreateSurface dd 3 p_vout.output.i_chroma
          p_vout.p_sys.b_using_overlay 0
        if created.1 ≠ 0 then
          if dd.malloc_ok = false then Flow.ret (-1) p_vout p_pic
          else
            let p_pic := { p_pic with
              p_sys := { p_pic.p_sys with p_front_surface := created.2, p_surface := created.2 } }
            Flow.go { p_vout with output := { p_vout.output with i_pictures := 1 } } p_pic
        else Flow.go p_vout p_pic
    else
      match first with
      | none => Flow.go p_vout p_pic
      | some created =>
        if created.1 ≠ 0 then
          if dd.malloc_ok = false then Flow.ret (-1) p_vout p_pic
          else
            let p_pic := { p_pic with
              p_sys := { p_pic.p_sys with p_front_surface := created.2, p_surface := created.2 } }
            Flow.go { p_vout with output := { p_vout.output with i_pictures := 1 } } p_pic
        else Flow.go p_vout p_pic
  else Flow.go p_vout p_pic

/-- The last part of `NewPictureVec`, "we can finish filling in the picture_t
structures": the loop `for( i = 0; i < I_OUTPUTPICTURES; i++ )`, whose body
runs for `i = 0` at most, and the final `return 0`. -/
def NewPictureVec_finish (dd : DDraw) (p_vout : vout_thread_t) (p_pic : picture_t) :
    Int × vout_thread_t × picture_t :=
  if 0 < p_vout.output.i_pictures then
    let p_pic := { p_pic with i_status := DESTROYED_PICTURE, i_type := DIRECT_PICTURE }
    let desc := DirectXGetSurfaceDesc dd p_pic
    if desc.1 = 0 then
      -- AAARRGG: FreePictureVec, I_OUTPUTPICTURES = 0
      (-1, { p_vout with output := { p_vout.output with i_pictures := 0 } }, desc.2)
    else
      let updated := UpdatePictureStruct p_vout desc.2 p_vout.output.i_chroma
      if updated.1 = 0 then
        -- Unknown chroma: FreePictureVec, I_OUTPUTPICTURES = 0
        (-1, { p_vout with output := { p_vout.output with i_pictures := 0 } }, updated.2)
      else (0, p_vout, updated.2)
  else (0, p_vout, p_pic)

/-- The function `NewPictureVec`: the result, the output thread and the
picture `p_pic[0]`. -/
def NewPictureVec (dd : DDraw) (p_vout : vout_thread_t) (p_pic : picture_t) (i_num_pics : Int) :
    Int × vout_thread_t × picture_t :=
  let p_vout := { p_vout with output := { p_vout.output with i_pictures := 0 } }
  match NewPictureVec_overlay dd p_vout p_pic with
  | Flow.ret code p_vout p_pic => (code, p_vout, p_pic)
  | Flow.go p_vout p_pic =>
    match NewPictureVec_plain dd p_vout p_pic with
    | Flow.ret code p_vout p_pic => (code, p_vout, p_pic)
    | Flow.go p_vout p_pic => NewPictureVec_finish dd p_vout p_pic

/-- A DirectDraw on a display of 12 bits per pixel, where every call
succeeds. -/
def ddraw_depth12 : DDraw :=
  { IDirectDraw2_CreateSurface := fun _ _ _ _ => HRESULT.DD_OK
    IDirectDrawSurface_QueryInterface := fun site => (HRESULT.DD_OK, site + 1)
    malloc_ok := true
    IDirectDrawSurface2_GetAttachedSurface := (HRESULT.DD_OK, 9)
    IDirectDrawSurface2_GetPixelFormat :=
      { dwFlags_RGB := true, dwRGBBitCount := 12, dwRBitMask := 3840, dwGBitMask := 240,
        dwBBitMask := 15 }
    IDirectDrawSurface2_Lock := fun _ => HRESULT.DD_OK
    ddsd := { lpSurface := 4096, lPitch := 1280 } }

/-- A DirectDraw on a display of 16 bits per pixel that creates no surface. -/
def ddraw_no_surface : DDraw :=
  { IDirectDraw2_CreateSurface := fun _ _ _ _ => HRESULT.DDERR_GENERIC
    IDirectDrawSurface_QueryInterface := fun site => (HRESULT.DD_OK, site + 1)
    malloc_ok := true
    IDirectDrawSurface2_GetAttachedSurface := (HRESULT.DD_OK, 9)
    IDirectDrawSurface2_GetPixelFormat :=
      { dwFlags_RGB := true, dwRGBBitCount := 16, dwRBitMask := 63488, dwGBitMask := 2016,
        dwBBitMask := 31 }
    IDirectDrawSurface2_Lock := fun _ => HRESULT.DD_OK
    ddsd := { lpSurface := 4096, lPitch := 1280 } }

/-- A DirectDraw on a display of 16 bits per pixel where every call
succeeds. -/
def ddraw_fine : DDraw :=
  { IDirectDraw2_CreateSurface := fun _ _ _ _ => HRESULT.DD_OK
    IDirectDrawSurface_QueryInterface := fun site => (HRESULT.DD_OK, site + 1)
    malloc_ok := true
    IDirectDrawSurface2_GetAttachedSurface := (HRESULT.DD_OK, 9)
    IDirectDrawSurface2_GetPixelFormat :=
      { dwFlags_RGB := true, dwRGBBitCount := 16, dwRBitMask := 63488, dwGBitMask := 2016,
        dwBBitMask := 31 }
    IDirectDrawSurface2_Lock := fun _ => HRESULT.DD_OK
    ddsd := { lpSurface := 4096, lPitch := 1280 } }

end DirectX

/-! # Theorems -/

namespace Directory

open Mode

/-! ## The ignore list -/

/-- C1 (code at the failing input): for the configuration `m3u, db` the parser
of `ReadDir` builds the one-element array `m3u`, and for `db` it builds the
empty array, whereas the comma-separated fields trimmed of leading spaces are
`m3u`, `db` and `db`: the field after the last comma is never stored. Only the
empty string behaves as stated. -/
theorem C1_last_field_dropped :
    build_ignores (some "m3u, db".toList) = some ["m3u".toList] ∧
    spec_IgnoreSet "m3u, db".toList = ["m3u".toList, "db".toList] ∧
    build_ignores (some "db".toList) = some [] ∧
    spec_IgnoreSet "db".toList = ["db".toList] ∧
    build_ignores (some []) = some [] ∧ spec_IgnoreSet [] = [] := by
  decide

/-- C2 (code at the failing input): with the default `ignore-filetypes` the
array built by `ReadDir` holds the first ten extensions and not `cue`, and in
every mode the regular file `x.cue` of `/m` is added to the playlist. -/
theorem C2_cue_is_added :
    build_ignores (some default_ignore_filetypes) =
      some ["m3u".toList, "db".toList, "nfo".toList, "jpg".toList, "gif".toList,
        "sfv".toList, "txt".toList, "sub".toList, "idx".toList, "srt".toList] ∧
    ∀ i_mode : Mode, ∃ s : Sys, ReadDir world_cue 1 (args_m i_mode) Sys.init = some (VLC_SUCCESS, s) ∧
      Event.BothAddInput "file:///m/x.cue".toList "x.cue".toList (some 0)
        (some (playlist_item_t.host 1)) ∈ s.log := by
  refine ⟨by decide, ?_⟩
  intro i_mode
  cases i_mode
  · exact ⟨_, by rfl, by decide⟩
  · exact ⟨_, by rfl, by decide⟩
  · exact ⟨_, by rfl, by decide⟩

theorem count_commas_skip_spaces (p : CStr) : count_commas (skip_spaces p) = count_commas p := by
  induction p with
  | nil => rfl
  | cons c cs ih =>
    by_cases hc : c = ' '
    · subst hc
      simp [skip_spaces, count_commas, ih]
    · simp [skip_spaces, hc]

theorem strchr_of_count_pos (p : CStr) (h : 0 < count_commas p) :
    ∃ k, strchr ',' p = some k ∧ count_commas (p.drop (k + 1)) + 1 = count_commas p := by
  induction p with
  | nil => simp [count_commas] at h
  | cons c cs ih =>
    by_cases hc : c = ','
    · exact ⟨0, by simp [strchr, hc], by simp [count_commas, hc]; omega⟩
    · have h1 : 0 < count_commas cs := by simpa [count_commas, hc] using h
      obtain ⟨k, hk, hcount⟩ := ih h1
      exact ⟨k + 1, by simp [strchr, hc, hk], by simpa [count_commas, hc] using hcount⟩

/-- The filling loop never reads through `NULL + 1`: as long as it runs at most
as many times as there are commas left, it fills one slot per iteration. -/
theorem ignore_loop_some (n : Nat) :
    ∀ p : CStr, n ≤ count_commas p → ∃ l, ignore_loop n (some p) = some l ∧ l.length = n := by
  induction n with
  | zero => intro p _; exact ⟨[], rfl, rfl⟩
  | succ n ih =>
    intro p hp
    have hpos : 0 < count_commas (skip_spaces p) := by
      rw [count_commas_skip_spaces]; omega
    obtain ⟨k, hk, hcount⟩ := strchr_of_count_pos (skip_spaces p) hpos
    rw [count_commas_skip_spaces] at hcount
    obtain ⟨l, hl, hlen⟩ := ih ((skip_spaces p).drop (k + 1)) (by omega)
    exact ⟨(skip_spaces p).take k :: l, by simp [ignore_loop, hk, hl], by simp [hlen]⟩

/-- The block "Build array with ignores" always produces an array. -/
theorem build_ignores_some (psz_ignore : Option CStr) :
    ∃ l, build_ignores psz_ignore = some l := by
  cases psz_ignore with
  | none => exact ⟨[], rfl⟩
  | some p =>
    cases p with
    | nil => exact ⟨[], rfl⟩
    | cons c cs =>
      obtain ⟨l, hl, _⟩ := ignore_loop_some (count_commas (c :: cs)) (c :: cs) (le_refl _)
      exact ⟨l, hl⟩

theorem skip_spaces_eq_dropWhile (p : CStr) : skip_spaces p = p.dropWhile (· = ' ') := by
  induction p with
  | nil => rfl
  | cons c cs ih =>
    by_cases hc : c = ' '
    · simp [skip_spaces, List.dropWhile_cons, hc, ih]
    · simp [skip_spaces, List.dropWhile_cons, hc]

theorem spec_fields_ne_nil (p : CStr) : spec_fields p ≠ [] := by
  cases p with
  | nil => simp [spec_fields]
  | cons c cs =>
    by_cases hc : c = ','
    · simp [spec_fields, hc]
    · cases h : spec_fields cs <;> simp [spec_fields, hc, h]

theorem spec_fields_no_comma (p : CStr) (h : count_commas p = 0) : spec_fields p = [p] := by
  induction p with
  | nil => rfl
  | cons c cs ih =>
    by_cases hc : c = ','
    · simp [count_commas, hc] at h
    · have h0 : count_commas cs = 0 := by simpa [count_commas, hc] using h
      simp [spec_fields, hc, ih h0]

/-- The first field of a string ends at its first comma. -/
theorem spec_fields_strchr (p : CStr) :
    ∀ k, strchr ',' p = some k → spec_fields p = p.take k :: spec_fields (p.drop (k + 1)) := by
  induction p with
  | nil => intro k h; simp [strchr] at h
  | cons c cs ih =>
    intro k h
    by_cases hc : c = ','
    · have hk : k = 0 := by simpa [strchr, hc] using h.symm
      subst hk
      simp [spec_fields, hc]
    · simp only [strchr, hc, if_false, Option.map_eq_some'] at h
      obtain ⟨k1, hk1, rfl⟩ := h
      simp [spec_fields, hc, ih k1 hk1]

/-- Skipping the leading spaces keeps the first comma: the text before it is
trimmed, the text after it is unchanged. -/
theorem strchr_skip_spaces (p : CStr) :
    ∀ k0, strchr ',' p = some k0 →
      ∃ k, strchr ',' (skip_spaces p) = some k ∧
        (skip_spaces p).take k = skip_spaces (p.take k0) ∧
        (skip_spaces p).drop (k + 1) = p.drop (k0 + 1) := by
  induction p with
  | nil => intro k0 h; simp [strchr] at h
  | cons c cs ih =>
    intro k0 h
    by_cases hc : c = ' '
    · subst hc
      simp only [strchr, Char.reduceEq, if_false, Option.map_eq_some'] at h
      obtain ⟨k1, hk1, rfl⟩ := h
      obtain ⟨k, h1, h2, h3⟩ := ih k1 hk1
      exact ⟨k, by simpa [skip_spaces] using h1, by simpa [skip_spaces] using h2,
        by simpa [skip_spaces] using h3⟩
    · refine ⟨k0, by simpa [skip_spaces, hc] using h, ?_, by simp [skip_spaces, hc]⟩
      cases k0 with
      | zero => simp [skip_spaces]
      | succ k1 => simp [skip_spaces, hc]

/-- The filling loop stores the trimmed fields of the string except the last
one. -/
theorem ignore_loop_eq (n : Nat) :
    ∀ p : CStr, count_commas p = n →
      ignore_loop n (some p) = some (((spec_fields p).map skip_spaces).dropLast) := by
  induction n with
  | zero =>
    intro p hp
    simp [ignore_loop, spec_fields_no_comma p hp]
  | succ n ih =>
    intro p hp
    obtain ⟨k0, hk0, hcount⟩ := strchr_of_count_pos p (by omega)
    obtain ⟨k, hk, htake, hdrop⟩ := strchr_skip_spaces p k0 hk0
    have hrest := ih (p.drop (k0 + 1)) (by omega)
    have hne : (spec_fields (p.drop (k0 + 1))).map skip_spaces ≠ [] := by
      simpa using spec_fields_ne_nil (p.drop (k0 + 1))
    simp only [ignore_loop, hk, hdrop, hrest, htake, Option.map_some',
      spec_fields_strchr p k0 hk0, List.map_cons, List.dropLast_cons_of_ne_nil hne]

/-- The array built by `ReadDir` is the IgnoreSet of the specification without
its last element: the field after the last comma is never stored. -/
theorem build_ignores_eq_dropLast (psz_ignore : CStr) :
    build_ignores (some psz_ignore) = some (spec_IgnoreSet psz_ignore).dropLast := by
  cases psz_ignore with
  | nil => rfl
  | cons c cs =>
    have hfun : (List.dropWhile (· = ' ') : CStr → CStr) = skip_spaces := by
      funext p
      exact (skip_spaces_eq_dropWhile p).symm
    simp only [build_ignores, spec_IgnoreSet, ignore_loop_eq _ (c :: cs) rfl, hfun]
    simp

/-! ## The extension filter -/

theorem strrchr_eq_none_iff (c : Char) (s : CStr) : strrchr c s = none ↔ c ∉ s := by
  induction s with
  | nil => simp [strrchr]
  | cons x xs ih =>
    simp only [strrchr, List.mem_cons, not_or]
    cases h : strrchr c xs with
    | none =>
      have hx := ih.mp h
      by_cases hc : x = c
      · simp [hc]
      · simp [hc, hx, Ne.symm hc]
    | some p =>
      have hx : ¬ c ∉ xs := fun hn => by simp [ih.mpr hn] at h
      simp [hx]

theorem strrchr_append_dot (c : Char) (pre ext : CStr) (h : c ∉ ext) :
    strrchr c (pre ++ c :: ext) = some (c :: ext) := by
  induction pre with
  | nil => simp [strrchr, (strrchr_eq_none_iff c ext).mpr h]
  | cons x xs ih => simp [strrchr, ih]

theorem ext_index_lt_iff (psz_dot : CStr) (exts : List CStr) :
    ext_index psz_dot exts < exts.length ↔ psz_dot ∈ exts := by
  induction exts with
  | nil => simp [ext_index]
  | cons x xs ih =>
    by_cases hx : psz_dot = x
    · simp [ext_index, hx]
    · simp [ext_index, hx, ih]

/-- The filter on a name with a non-empty extension: dropped exactly when the
text after the last dot is an element of the array. -/
theorem ignored_iff_mem (exts : List CStr) (pre ext : CStr) (hdot : '.' ∉ ext)
    (hne : ext ≠ []) : ignored exts (pre ++ '.' :: ext) = true ↔ ext ∈ exts := by
  unfold ignored
  rw [strrchr_append_dot '.' pre ext hdot]
  by_cases hl : exts.length > 0
  · simp [hl, hne, ext_index_lt_iff]
  · have : exts = [] := by
      cases exts with
      | nil => rfl
      | cons _ _ => simp at hl
    simp [this]

/-- A name without a dot, or ending in its last dot, is never dropped. -/
theorem ignored_no_ext (exts : List CStr) (entry : CStr)
    (h : '.' ∉ entry ∨ ∃ pre, entry = pre ++ ['.']) : ignored exts entry = false := by
  unfold ignored
  rcases h with h | ⟨pre, rfl⟩
  · rw [(strrchr_eq_none_iff '.' entry).mpr h]; simp
  · rw [strrchr_append_dot '.' pre [] (by simp)]; simp

theorem OpenDir_error (w : World) (path : CStr) (s : Sys) (err : Nat)
    (h : w.utf8_opendir path = Except.error err) : (OpenDir w path s).1 = none := by
  unfold OpenDir
  rw [h]
  by_cases he : err ≠ ENOTDIR <;> simp [he]

theorem OpenDir_ok (w : World) (path : CStr) (s : Sys) (handle : DIR)
    (h : w.utf8_opendir path = Except.ok handle) :
    OpenDir w path s =
      (some handle, (s.emit (Event.dbg_opening path)).emit (Event.opendir path)) := by
  unfold OpenDir
  rw [h]

theorem OpenDir_log (w : World) (path : CStr) (s : Sys) :
    ∃ m : Event, ((OpenDir w path s).2.log = s.log ++ [Event.dbg_opening path, Event.opendir path]
      ∨ (OpenDir w path s).2.log = s.log ++ [Event.dbg_opening path, Event.opendir path, m])
      ∧ m.isLeaf = false ∧ m.isNode = false ∧ (OpenDir w path s).2.i_nodes = s.i_nodes := by
  unfold OpenDir
  cases h : w.utf8_opendir path with
  | error err =>
    by_cases he : err ≠ ENOTDIR
    · exact ⟨Event.err_open path err, by simp [he, Sys.emit], rfl, rfl, by simp [he, Sys.emit]⟩
    · exact ⟨Event.dbg_nondir path, by simp [he, Sys.emit], rfl, rfl, by simp [he, Sys.emit]⟩
  | ok handle => exact ⟨Event.dbg_nondir path, by simp [Sys.emit], rfl, rfl, by simp [Sys.emit]⟩

/-- The open attempt creates neither a leaf nor a node. -/
theorem after_open_items (w : World) (a : Args) (entry : CStr) (s : Sys) :
    (after_open w a entry s).log.filter Event.isLeaf = s.log.filter Event.isLeaf ∧
    (after_open w a entry s).log.filter Event.isNode = s.log.filter Event.isNode ∧
    (after_open w a entry s).i_nodes = s.i_nodes := by
  unfold after_open
  by_cases hm : a.i_mode ≠ MODE_COLLAPSE
  · rw [if_pos hm]
    obtain ⟨m, hlog, hl, hn, hi⟩ := OpenDir_log w (mk_uri a.psz_name entry) s
    rcases hlog with hlog | hlog <;>
      simp only [hlog, hi, List.filter_append, List.filter_cons, List.filter_nil, hl, hn] <;>
      simp [Event.isLeaf, Event.isNode]
  · simp [hm]

/-- The iteration of the entry loop on an entry that is handled as a file
(`subdir == NULL`): it is dropped when `ignored` holds and added otherwise. -/
theorem ReadDir_loop_file (w : World) (callee : Args → Sys → Option (Int × Sys)) (a : Args)
    (stself : stat) (exts : List CStr) (i_return : Int) (entry : CStr) (rest : List CStr)
    (s : Sys) (hvis : entry.head? ≠ some '.')
    (hfile : a.i_mode = MODE_COLLAPSE ∨
      ∃ err, w.utf8_opendir (mk_uri a.psz_name entry) = Except.error err) :
    ReadDir_loop w callee a stself exts i_return (entry :: rest) s =
      ReadDir_loop w callee a stself exts i_return rest
        ((after_open w a entry s).emit
          (if ignored exts entry then Event.dbg_ignoring (mk_uri a.psz_name entry)
           else Event.BothAddInput (file_scheme ++ mk_uri a.psz_name entry) entry
             a.p_current_input a.p_parent_category)) := by
  rw [ReadDir_loop]
  simp only [hvis, if_false, after_open]
  by_cases hm : a.i_mode = MODE_COLLAPSE
  · simp only [hm, ne_eq, not_true_eq_false, if_false]
    by_cases hi : ignored exts entry = true <;> simp [hi]
  · rcases hfile with h | ⟨err, herr⟩
    · exact absurd h hm
    · have h1 := OpenDir_error w (mk_uri a.psz_name entry) s err herr
      simp only [ne_eq, hm, not_false_eq_true, if_true]
      rcases hO : OpenDir w (mk_uri a.psz_name entry) s with ⟨o, s1⟩
      rw [hO] at h1
      simp only at h1
      subst h1
      by_cases hi : ignored exts entry = true <;> simp [hi]

/-- The iteration of the entry loop on a hidden entry does nothing. -/
theorem ReadDir_loop_hidden (w : World) (callee : Args → Sys → Option (Int × Sys)) (a : Args)
    (stself : stat) (exts : List CStr) (i_return : Int) (entry : CStr) (rest : List CStr)
    (s : Sys) (hhid : entry.head? = some '.') :
    ReadDir_loop w callee a stself exts i_return (entry :: rest) s =
      ReadDir_loop w callee a stself exts i_return rest s := by
  rw [ReadDir_loop]
  simp only [hhid, if_true]

/-- An entry that is not handled as a file opened as a directory. -/
theorem not_file_opens (w : World) (a : Args) (entry : CStr)
    (h : ¬ (a.i_mode = MODE_COLLAPSE ∨
      ∃ err, w.utf8_opendir (mk_uri a.psz_name entry) = Except.error err)) :
    a.i_mode ≠ MODE_COLLAPSE ∧
      ∃ subdir, w.utf8_opendir (mk_uri a.psz_name entry) = Except.ok subdir := by
  refine ⟨fun hc => h (Or.inl hc), ?_⟩
  cases ho : w.utf8_opendir (mk_uri a.psz_name entry) with
  | error err => exact absurd (Or.inr ⟨err, ho⟩) h
  | ok subdir => exact ⟨subdir, rfl⟩

/-- The iteration of the entry loop on a subdirectory in mode `MODE_NONE`. -/
theorem ReadDir_loop_dir_none (w : World) (callee : Args → Sys → Option (Int × Sys))
    (a : Args) (stself : stat) (exts : List CStr) (i_return : Int) (entry : CStr)
    (rest : List CStr) (s : Sys) (subdir : DIR) (hvis : entry.head? ≠ some '.')
    (hm : a.i_mode = MODE_NONE)
    (hopen : w.utf8_opendir (mk_uri a.psz_name entry) = Except.ok subdir) :
    ReadDir_loop w callee a stself exts i_return (entry :: rest) s =
      ReadDir_loop w callee a stself exts i_return rest
        { log := s.log ++ [Event.dbg_opening (mk_uri a.psz_name entry),
            Event.opendir (mk_uri a.psz_name entry), Event.dbg_skipping (mk_uri a.psz_name entry),
            Event.closedir subdir]
          i_nodes := s.i_nodes } := by
  rw [ReadDir_loop]
  simp only [hvis, if_false, hm, ne_eq, reduceCtorEq, not_false_eq_true, if_true,
    OpenDir_ok w _ s subdir hopen]
  simp [Sys.emit]

/-- The iteration of the entry loop on a subdirectory when the mode is neither
`MODE_COLLAPSE` nor `MODE_NONE`: one node, one call of the callee, one
`closedir`, then either the loop is left with the non-zero result or goes on. -/
theorem ReadDir_loop_dir_expand (w : World) (callee : Args → Sys → Option (Int × Sys))
    (a : Args) (stself : stat) (exts : List CStr) (i_return : Int) (entry : CStr)
    (rest : List CStr) (s : Sys) (subdir : DIR) (hvis : entry.head? ≠ some '.')
    (hc : a.i_mode ≠ MODE_COLLAPSE) (hn : a.i_mode ≠ MODE_NONE)
    (hopen : w.utf8_opendir (mk_uri a.psz_name entry) = Except.ok subdir) :
    ReadDir_loop w callee a stself exts i_return (entry :: rest) s =
      match callee (sub_args a stself entry subdir (playlist_item_t.created s.i_nodes))
          (sub_start a entry s) with
      | none => none
      | some (r, s1) =>
        if r ≠ 0 then some (r, s1.emit (Event.closedir subdir))
        else ReadDir_loop w callee a stself exts r rest (s1.emit (Event.closedir subdir)) := by
  rw [ReadDir_loop]
  simp only [hvis, if_false, hc, hn, ne_eq, not_false_eq_true, if_true,
    OpenDir_ok w _ s subdir hopen]
  simp only [playlist_NodeCreate, Sys.emit, sub_args, sub_start, List.append_assoc,
    List.cons_append, List.nil_append]

/-- C3 (amended): when the entry loop of `ReadDir` reaches a non-hidden entry
that does not open as a directory (the open attempt fails, or the mode is
`MODE_COLLAPSE` and none is made) and whose name is `pre.ext` with `ext`
non-empty and free of dots, then for every ignore array: if `ext` is an element
of the array (equality of strings, hence case-sensitive) the iteration only
logs "ignoring file" and adds no leaf; otherwise it adds exactly the leaf
`file://<psz_name>/<entry>` under the category node; the open attempt before it
adds neither leaf nor node. -/
theorem C3_extension_filter (w : World) (callee : Args → Sys → Option (Int × Sys))
    (a : Args) (stself : stat) (exts : List CStr) (i_return : Int) (pre ext : CStr)
    (rest : List CStr) (s : Sys)
    (hvis : (pre ++ '.' :: ext).head? ≠ some '.') (hdot : '.' ∉ ext) (hne : ext ≠ [])
    (hfile : a.i_mode = MODE_COLLAPSE ∨
      ∃ err, w.utf8_opendir (mk_uri a.psz_name (pre ++ '.' :: ext)) = Except.error err) :
    (ext ∈ exts →
      ReadDir_loop w callee a stself exts i_return ((pre ++ '.' :: ext) :: rest) s =
        ReadDir_loop w callee a stself exts i_return rest
          ((after_open w a (pre ++ '.' :: ext) s).emit
            (Event.dbg_ignoring (mk_uri a.psz_name (pre ++ '.' :: ext))))) ∧
    (ext ∉ exts →
      ReadDir_loop w callee a stself exts i_return ((pre ++ '.' :: ext) :: rest) s =
        ReadDir_loop w callee a stself exts i_return rest
          ((after_open w a (pre ++ '.' :: ext) s).emit
            (Event.BothAddInput (file_scheme ++ mk_uri a.psz_name (pre ++ '.' :: ext))
              (pre ++ '.' :: ext) a.p_current_input a.p_parent_category))) ∧
    (after_open w a (pre ++ '.' :: ext) s).log.filter Event.isLeaf =
      s.log.filter Event.isLeaf := by
  have hstep := ReadDir_loop_file w callee a stself exts i_return (pre ++ '.' :: ext) rest s
    hvis hfile
  have hiff := ignored_iff_mem exts pre ext hdot hne
  refine ⟨fun hmem => ?_, fun hmem => ?_, (after_open_items w a _ s).1⟩
  · rw [hstep, if_pos (hiff.mpr hmem)]
  · rw [hstep, if_neg (fun h => hmem (hiff.mp h))]

/-- C3 (witness): the theorem applied to the entries `x.db` and `x.DB` against
the array `db`, in `/m` of `world_cue`. -/
theorem C3_extension_filter_witness :
    ReadDir_loop world_cue (ReadDir world_cue 0) (args_m MODE_EXPAND)
        { st_ino := 100, st_dev := 1 } ["db".toList] 0 ["x.db".toList] Sys.init =
      some (0, { log := [Event.dbg_opening "/m/x.db".toList, Event.opendir "/m/x.db".toList,
                   Event.dbg_nondir "/m/x.db".toList, Event.dbg_ignoring "/m/x.db".toList],
                 i_nodes := 0 }) ∧
    ReadDir_loop world_cue (ReadDir world_cue 0) (args_m MODE_EXPAND)
        { st_ino := 100, st_dev := 1 } ["db".toList] 0 ["x.DB".toList] Sys.init =
      some (0, { log := [Event.dbg_opening "/m/x.DB".toList, Event.opendir "/m/x.DB".toList,
                   Event.dbg_nondir "/m/x.DB".toList,
                   Event.BothAddInput "file:///m/x.DB".toList "x.DB".toList (some 0)
                     (some (playlist_item_t.host 1))],
                 i_nodes := 0 }) :=
  ⟨((C3_extension_filter world_cue (ReadDir world_cue 0) (args_m MODE_EXPAND)
      { st_ino := 100, st_dev := 1 } ["db".toList] 0 "x".toList "db".toList [] Sys.init
      (by decide) (by decide) (by decide) (Or.inr ⟨ENOTDIR, rfl⟩)).1 (by decide)).trans (by rfl),
   ((C3_extension_filter world_cue (ReadDir world_cue 0) (args_m MODE_EXPAND)
      { st_ino := 100, st_dev := 1 } ["db".toList] 0 "x".toList "DB".toList [] Sys.init
      (by decide) (by decide) (by decide) (Or.inr ⟨ENOTDIR, rfl⟩)).2.1 (by decide)).trans
      (by rfl)⟩

/-- C3 (counterexample): in `world_failfast` the entry `x.mp3` of `/m` is not
hidden, does not open as a directory, has the non-empty extension `mp3`, which
differs from every element of the ignore array `db`; yet `ReadDir` in mode
`MODE_EXPAND` adds no leaf at all: the expansion of the earlier sibling `d`
failed and the loop was left before reaching `x.mp3`. -/
theorem C3_counterexample :
    world_failfast.utf8_loaddir 0 = some ["d".toList, "x.mp3".toList] ∧
    "x.mp3".toList.head? ≠ some '.' ∧
    world_failfast.utf8_opendir (mk_uri "/m".toList "x.mp3".toList) = Except.error ENOTDIR ∧
    build_ignores world_failfast.ignore_filetypes = some ["db".toList] ∧
    "mp3".toList ∉ ["db".toList] ∧
    ∃ s : Sys, ReadDir world_failfast 2 (args_m MODE_EXPAND) Sys.init = some (VLC_EGENERIC, s) ∧
      s.log.filter Event.isLeaf = [] := by
  refine ⟨by rfl, by decide, by rfl, by decide, by decide, _, by rfl, by decide⟩

/-! ## The log is only extended -/

theorem Sys.shift_emit (l : List Event) (s : Sys) (e : Event) :
    (s.shift l).emit e = (s.emit e).shift l := by
  simp [Sys.shift, Sys.emit]

theorem OpenDir_shift (w : World) (path : CStr) (s : Sys) (l : List Event) :
    OpenDir w path (s.shift l) = ((OpenDir w path s).1, (OpenDir w path s).2.shift l) := by
  unfold OpenDir
  cases w.utf8_opendir path with
  | error err => by_cases he : err ≠ ENOTDIR <;> simp [he, Sys.shift, Sys.emit]
  | ok handle => simp [Sys.shift, Sys.emit]

theorem after_open_shift (w : World) (a : Args) (entry : CStr) (s : Sys) (l : List Event) :
    after_open w a entry (s.shift l) = (after_open w a entry s).shift l := by
  unfold after_open
  by_cases hm : a.i_mode ≠ MODE_COLLAPSE
  · rw [if_pos hm, if_pos hm, OpenDir_shift]
  · rw [if_neg hm, if_neg hm]

theorem sub_start_shift (a : Args) (entry : CStr) (s : Sys) (l : List Event) :
    sub_start a entry (s.shift l) = (sub_start a entry s).shift l := by
  simp [sub_start, Sys.shift]

/-- The entry loop does not depend on the calls already logged, if the callee
does not. -/
theorem ReadDir_loop_shift (w : World) (callee : Args → Sys → Option (Int × Sys))
    (hcallee : Framed callee) (a : Args) (stself : stat) (exts : List CStr)
    (entries : List CStr) (l : List Event) :
    ∀ (i_return : Int) (s : Sys),
      ReadDir_loop w callee a stself exts i_return entries (s.shift l) =
        shift_result l (ReadDir_loop w callee a stself exts i_return entries s) := by
  induction entries with
  | nil => intro i_return s; simp [ReadDir_loop, shift_result]
  | cons entry rest ih =>
    intro i_return s
    by_cases hvis : entry.head? = some '.'
    · rw [ReadDir_loop_hidden _ _ _ _ _ _ _ _ _ hvis, ReadDir_loop_hidden _ _ _ _ _ _ _ _ _ hvis]
      exact ih i_return s
    · by_cases hfile : a.i_mode = MODE_COLLAPSE ∨
          ∃ err, w.utf8_opendir (mk_uri a.psz_name entry) = Except.error err
      · rw [ReadDir_loop_file _ _ _ _ _ _ _ _ _ hvis hfile,
          ReadDir_loop_file _ _ _ _ _ _ _ _ _ hvis hfile, after_open_shift, Sys.shift_emit]
        exact ih i_return _
      · obtain ⟨hc, subdir, hopen⟩ := not_file_opens w a entry hfile
        by_cases hn : a.i_mode = MODE_NONE
        · rw [ReadDir_loop_dir_none _ _ _ _ _ _ _ _ _ subdir hvis hn hopen,
            ReadDir_loop_dir_none _ _ _ _ _ _ _ _ _ subdir hvis hn hopen]
          have := ih i_return
            { log := s.log ++ [Event.dbg_opening (mk_uri a.psz_name entry),
                Event.opendir (mk_uri a.psz_name entry),
                Event.dbg_skipping (mk_uri a.psz_name entry), Event.closedir subdir]
              i_nodes := s.i_nodes }
          simpa [Sys.shift] using this
        · rw [ReadDir_loop_dir_expand _ _ _ _ _ _ _ _ _ subdir hvis hc hn hopen,
            ReadDir_loop_dir_expand _ _ _ _ _ _ _ _ _ subdir hvis hc hn hopen, sub_start_shift]
          have hi : (s.shift l).i_nodes = s.i_nodes := rfl
          rw [hi, hcallee]
          cases hcall : callee (sub_args a stself entry subdir (playlist_item_t.created s.i_nodes))
              (sub_start a entry s) with
          | none => simp [shift_result]
          | some p =>
            obtain ⟨r, s1⟩ := p
            by_cases hr : r ≠ 0
            · simp [shift_result, hr, Sys.shift_emit]
            · simp only [shift_result, Option.map_some', hr, if_false, Sys.shift_emit]
              exact ih r _

/-- The function `ReadDir` does not depend on the calls already logged. -/
theorem ReadDir_shift (w : World) (fuel : Nat) : Framed (ReadDir w fuel) := by
  induction fuel with
  | zero => intro a s l; simp [ReadDir, shift_result]
  | succ fuel ih =>
    intro a s l
    simp only [ReadDir]
    by_cases hfd : w.dirfd a.handle = -1
    · simp [hfd, shift_result, Sys.shift_emit]
    · simp only [hfd, if_false]
      cases hst : w.fstat (w.dirfd a.handle) with
      | none => simp [shift_result, Sys.shift_emit]
      | some st =>
        by_cases hhit : stat_list_hit st a.stparent = true
        · simp [hhit, shift_result, Sys.shift_emit]
        · simp only [hhit, if_false]
          cases hld : w.utf8_loaddir a.handle with
          | none => simp [shift_result, Sys.shift_emit]
          | some content =>
            cases content with
            | nil => simp [shift_result, Sys.shift_emit]
            | cons e es =>
              cases hb : build_ignores w.ignore_filetypes with
              | none => simp [shift_result]
              | some exts =>
                simp only [Sys.shift_emit]
                exact ReadDir_loop_shift w (ReadDir w fuel) ih a st exts (e :: es) l _ _

/-! ## The cycle guard -/

theorem stat_list_hit_iff (stself : stat) (stparent : List stat) :
    stat_list_hit stself stparent = true ↔
      ∃ stats ∈ stparent, stself.st_ino = stats.st_ino ∧ stself.st_dev = stats.st_dev := by
  induction stparent with
  | nil => simp [stat_list_hit]
  | cons x xs ih =>
    by_cases hx : stself.st_ino = x.st_ino ∧ stself.st_dev = x.st_dev
    · simp [stat_list_hit, hx]
    · simp only [stat_list_hit, hx, if_false, ih, List.mem_cons, exists_eq_or_imp, false_or]

theorem stat_list_miss_not_mem (stself : stat) (stparent : List stat)
    (h : ¬ stat_list_hit stself stparent = true) : stself ∉ stparent := by
  intro hmem
  exact h ((stat_list_hit_iff stself stparent).mpr ⟨stself, hmem, rfl, rfl⟩)

/-! ## The shape of one call -/

/-- The paths through `ReadDir` before the entry loop: the identity of the
directory is not available; or it is and the guard fires, the listing fails,
the listing is empty, or the entry loop runs. -/
theorem ReadDir_succ_cases (w : World) (fuel : Nat) (a : Args) (s : Sys) :
    ((w.dirfd a.handle = -1 ∨ w.fstat (w.dirfd a.handle) = none) ∧
      ReadDir w (fuel + 1) a s = some (VLC_EGENERIC, s.emit (Event.err_cannot_stat a.psz_name))) ∨
    ∃ st, w.dirfd a.handle ≠ -1 ∧ w.fstat (w.dirfd a.handle) = some st ∧
      ((stat_list_hit st a.stparent = true ∧
          ReadDir w (fuel + 1) a s = some (VLC_SUCCESS, s.emit (Event.warn_recursive a.psz_name))) ∨
       (stat_list_hit st a.stparent = false ∧ w.utf8_loaddir a.handle = none ∧
          ReadDir w (fuel + 1) a s = some (VLC_EGENERIC,
            (s.emit (Event.loaddir a.handle)).emit (Event.err_cannot_read a.psz_name))) ∨
       (stat_list_hit st a.stparent = false ∧ w.utf8_loaddir a.handle = some [] ∧
          ReadDir w (fuel + 1) a s = some (VLC_SUCCESS,
            (s.emit (Event.loaddir a.handle)).emit (Event.dbg_empty a.psz_name))) ∨
       (stat_list_hit st a.stparent = false ∧ ∃ e es exts,
          w.utf8_loaddir a.handle = some (e :: es) ∧
          build_ignores w.ignore_filetypes = some exts ∧
          ReadDir w (fuel + 1) a s =
            ReadDir_loop w (ReadDir w fuel) a st exts VLC_SUCCESS (e :: es)
              (s.emit (Event.loaddir a.handle)))) := by
  simp only [ReadDir]
  by_cases hfd : w.dirfd a.handle = -1
  · left; simp [hfd]
  · cases hst : w.fstat (w.dirfd a.handle) with
    | none => left; simp [hfd]
    | some st =>
      right
      refine ⟨st, hfd, rfl, ?_⟩
      by_cases hhit : stat_list_hit st a.stparent = true
      · left; simp [hfd, hhit]
      · right
        have hf : stat_list_hit st a.stparent = false := by simpa using hhit
        cases hld : w.utf8_loaddir a.handle with
        | none => left; simp [hfd, hf]
        | some content =>
          cases content with
          | nil => right; left; simp [hfd, hf]
          | cons e es =>
            right; right
            obtain ⟨exts, hb⟩ := build_ignores_some w.ignore_filetypes
            exact ⟨hf, e, es, exts, rfl, hb, by simp [hfd, hf, hb]⟩

/-! ## Termination -/

/-- The entry loop returns if every recursive call it can make returns. -/
theorem ReadDir_loop_total (w : World) (callee : Args → Sys → Option (Int × Sys)) (a : Args)
    (stself : stat) (exts : List CStr)
    (hcallee : ∀ entry subdir p_node s, ∃ p,
      callee (sub_args a stself entry subdir p_node) s = some p)
    (entries : List CStr) :
    ∀ (i_return : Int) (s : Sys),
      ∃ p, ReadDir_loop w callee a stself exts i_return entries s = some p := by
  induction entries with
  | nil => intro i_return s; simp [ReadDir_loop]
  | cons entry rest ih =>
    intro i_return s
    by_cases hvis : entry.head? = some '.'
    · rw [ReadDir_loop_hidden _ _ _ _ _ _ _ _ _ hvis]
      exact ih i_return s
    · by_cases hfile : a.i_mode = MODE_COLLAPSE ∨
          ∃ err, w.utf8_opendir (mk_uri a.psz_name entry) = Except.error err
      · rw [ReadDir_loop_file _ _ _ _ _ _ _ _ _ hvis hfile]
        exact ih i_return _
      · obtain ⟨hc, subdir, hopen⟩ := not_file_opens w a entry hfile
        by_cases hn : a.i_mode = MODE_NONE
        · rw [ReadDir_loop_dir_none _ _ _ _ _ _ _ _ _ subdir hvis hn hopen]
          exact ih i_return _
        · rw [ReadDir_loop_dir_expand _ _ _ _ _ _ _ _ _ subdir hvis hc hn hopen]
          obtain ⟨⟨r, s1⟩, hp⟩ := hcallee entry subdir (playlist_item_t.created s.i_nodes)
            (sub_start a entry s)
          rw [hp]
          by_cases hr : r ≠ 0
          · simp [hr]
          · simp only [hr, if_false]
            exact ih r _

/-- With more fuel than there are identities outside the ancestry chain,
`ReadDir` returns. -/
theorem ReadDir_total (w : World) (idents : List stat)
    (hid : ∀ fd st, w.fstat fd = some st → st ∈ idents) (fuel : Nat) :
    ∀ (a : Args) (s : Sys), a.stparent.Nodup → a.stparent ⊆ idents →
      idents.length < fuel + a.stparent.length → ∃ p, ReadDir w fuel a s = some p := by
  induction fuel with
  | zero =>
    intro a s hnd hsub hlen
    have := (List.Nodup.subperm hnd hsub).length_le
    omega
  | succ fuel ih =>
    intro a s hnd hsub hlen
    simp only [ReadDir]
    by_cases hfd : w.dirfd a.handle = -1
    · simp [hfd]
    · simp only [hfd, if_false]
      cases hst : w.fstat (w.dirfd a.handle) with
      | none => exact ⟨_, rfl⟩
      | some st =>
        by_cases hhit : stat_list_hit st a.stparent = true
        · simp [hhit]
        · simp only [hhit, if_false]
          cases hld : w.utf8_loaddir a.handle with
          | none => exact ⟨_, rfl⟩
          | some content =>
            cases content with
            | nil => exact ⟨_, rfl⟩
            | cons e es =>
              obtain ⟨exts, hb⟩ := build_ignores_some w.ignore_filetypes
              simp only [hb]
              apply ReadDir_loop_total
              intro entry subdir p_node s1
              apply ih
              · simp only [sub_args]
                exact List.nodup_cons.mpr ⟨stat_list_miss_not_mem st a.stparent hhit, hnd⟩
              · simp only [sub_args]
                exact List.cons_subset.mpr ⟨hid _ _ hst, hsub⟩
              · simp only [sub_args, List.length_cons]
                omega

/-- The result of the entry loop does not change when the callee is replaced
by one that returns the same results and possibly more. -/
theorem ReadDir_loop_mono (w : World) (callee callee2 : Args → Sys → Option (Int × Sys))
    (hcallee : ∀ a s p, callee a s = some p → callee2 a s = some p) (a : Args)
    (stself : stat) (exts : List CStr) (entries : List CStr) :
    ∀ (i_return : Int) (s : Sys) (p : Int × Sys),
      ReadDir_loop w callee a stself exts i_return entries s = some p →
      ReadDir_loop w callee2 a stself exts i_return entries s = some p := by
  induction entries with
  | nil => intro i_return s p h; simpa [ReadDir_loop] using h
  | cons entry rest ih =>
    intro i_return s p
    by_cases hvis : entry.head? = some '.'
    · rw [ReadDir_loop_hidden _ _ _ _ _ _ _ _ _ hvis, ReadDir_loop_hidden _ _ _ _ _ _ _ _ _ hvis]
      exact ih i_return s p
    · by_cases hfile : a.i_mode = MODE_COLLAPSE ∨
          ∃ err, w.utf8_opendir (mk_uri a.psz_name entry) = Except.error err
      · rw [ReadDir_loop_file _ _ _ _ _ _ _ _ _ hvis hfile,
          ReadDir_loop_file _ _ _ _ _ _ _ _ _ hvis hfile]
        exact ih i_return _ p
      · obtain ⟨hc, subdir, hopen⟩ := not_file_opens w a entry hfile
        by_cases hn : a.i_mode = MODE_NONE
        · rw [ReadDir_loop_dir_none _ _ _ _ _ _ _ _ _ subdir hvis hn hopen,
            ReadDir_loop_dir_none _ _ _ _ _ _ _ _ _ subdir hvis hn hopen]
          exact ih i_return _ p
        · rw [ReadDir_loop_dir_expand _ _ _ _ _ _ _ _ _ subdir hvis hc hn hopen,
            ReadDir_loop_dir_expand _ _ _ _ _ _ _ _ _ subdir hvis hc hn hopen]
          cases hcall : callee (sub_args a stself entry subdir (playlist_item_t.created s.i_nodes))
              (sub_start a entry s) with
          | none => simp
          | some q =>
            obtain ⟨r, s1⟩ := q
            rw [hcallee _ _ _ hcall]
            by_cases hr : r ≠ 0
            · simp [hr]
            · simp only [hr, if_false]
              exact ih r _ p

/-- Fuel beyond what a run needs does not change its result. -/
theorem ReadDir_fuel_mono (w : World) (fuel : Nat) :
    ∀ (k : Nat) (a : Args) (s : Sys) (p : Int × Sys),
      ReadDir w fuel a s = some p → ReadDir w (fuel + k) a s = some p := by
  induction fuel with
  | zero => intro k a s p h; simp [ReadDir] at h
  | succ fuel ih =>
    intro k a s p h
    have hk : fuel + 1 + k = (fuel + k) + 1 := by omega
    rw [hk]
    simp only [ReadDir] at h ⊢
    by_cases hfd : w.dirfd a.handle = -1
    · simpa [hfd] using h
    · simp only [hfd, if_false] at h ⊢
      cases hst : w.fstat (w.dirfd a.handle) with
      | none => simpa [hst] using h
      | some st =>
        simp only [hst] at h ⊢
        by_cases hhit : stat_list_hit st a.stparent = true
        · simpa [hhit] using h
        · simp only [hhit, if_false] at h ⊢
          cases hld : w.utf8_loaddir a.handle with
          | none => simpa [hld] using h
          | some content =>
            cases content with
            | nil => simpa [hld] using h
            | cons e es =>
              simp only [hld] at h ⊢
              cases hb : build_ignores w.ignore_filetypes with
              | none => simp [hb] at h
              | some exts =>
                simp only [hb] at h ⊢
                exact ReadDir_loop_mono w (ReadDir w fuel) (ReadDir w (fuel + k))
                  (fun a s p hp => ih k a s p hp) a st exts (e :: es) _ _ p h

/-! ## Hidden entries -/

theorem names_visible_emit (s : Sys) (e : Event) (h : names_visible s.log)
    (he : ∀ n, e.itemName = some n → n.head? ≠ some '.') : names_visible (s.emit e).log := by
  intro e1 hmem n hn
  simp only [Sys.emit, List.mem_append, List.mem_singleton] at hmem
  rcases hmem with hmem | rfl
  · exact h e1 hmem n hn
  · exact he n hn

theorem itemName_eq_none (m : Event) (hl : m.isLeaf = false) (hn : m.isNode = false) :
    m.itemName = none := by
  cases m <;> simp [Event.isLeaf, Event.isNode, Event.itemName] at hl hn ⊢

theorem names_visible_after_open (w : World) (a : Args) (entry : CStr) (s : Sys)
    (h : names_visible s.log) : names_visible (after_open w a entry s).log := by
  unfold after_open
  by_cases hm : a.i_mode ≠ MODE_COLLAPSE
  · rw [if_pos hm]
    obtain ⟨m, hlog, hl, hn, _⟩ := OpenDir_log w (mk_uri a.psz_name entry) s
    have hm0 := itemName_eq_none m hl hn
    intro e he n hen
    rcases hlog with hlog | hlog <;> rw [hlog] at he <;>
      simp only [List.mem_append, List.mem_cons, List.mem_singleton, List.not_mem_nil,
        or_false] at he
    · rcases he with he | rfl | rfl
      · exact h e he n hen
      · simp [Event.itemName] at hen
      · simp [Event.itemName] at hen
    · rcases he with he | rfl | rfl | rfl
      · exact h e he n hen
      · simp [Event.itemName] at hen
      · simp [Event.itemName] at hen
      · simp [hm0] at hen
  · rw [if_neg hm]; exact h

theorem names_visible_append (l1 l2 : List Event) (h1 : names_visible l1)
    (h2 : names_visible l2) : names_visible (l1 ++ l2) := by
  intro e hmem n hn
  rcases List.mem_append.mp hmem with hm | hm
  · exact h1 e hm n hn
  · exact h2 e hm n hn

/-- The entry loop gives no node or leaf a name that begins with a dot, if the
callee does not. -/
theorem ReadDir_loop_names (w : World) (callee : Args → Sys → Option (Int × Sys))
    (hcallee : ∀ a s r s1, names_visible s.log → callee a s = some (r, s1) →
      names_visible s1.log)
    (a : Args) (stself : stat) (exts : List CStr) (entries : List CStr) :
    ∀ (i_return : Int) (s : Sys) (r : Int) (s1 : Sys), names_visible s.log →
      ReadDir_loop w callee a stself exts i_return entries s = some (r, s1) →
      names_visible s1.log := by
  induction entries with
  | nil =>
    intro i_return s r s1 hs h
    simp only [ReadDir_loop, Option.some.injEq, Prod.mk.injEq] at h
    rw [← h.2]; exact hs
  | cons entry rest ih =>
    intro i_return s r s1 hs
    by_cases hvis : entry.head? = some '.'
    · rw [ReadDir_loop_hidden _ _ _ _ _ _ _ _ _ hvis]
      exact ih i_return s r s1 hs
    · by_cases hfile : a.i_mode = MODE_COLLAPSE ∨
          ∃ err, w.utf8_opendir (mk_uri a.psz_name entry) = Except.error err
      · rw [ReadDir_loop_file _ _ _ _ _ _ _ _ _ hvis hfile]
        apply ih i_return _ r s1
        apply names_visible_emit _ _ (names_visible_after_open w a entry s hs)
        intro n hn
        by_cases hi : ignored exts entry = true
        · rw [if_pos hi] at hn
          simp [Event.itemName] at hn
        · rw [if_neg hi] at hn
          simp only [Event.itemName, Option.some.injEq] at hn
          rw [← hn]; exact hvis
      · obtain ⟨hc, subdir, hopen⟩ := not_file_opens w a entry hfile
        by_cases hn : a.i_mode = MODE_NONE
        · rw [ReadDir_loop_dir_none _ _ _ _ _ _ _ _ _ subdir hvis hn hopen]
          apply ih i_return _ r s1
          apply names_visible_append _ _ hs
          intro e he n hn
          simp only [List.mem_cons, List.mem_singleton, List.not_mem_nil, or_false] at he
          rcases he with rfl | rfl | rfl | rfl <;> simp [Event.itemName] at hn
        · rw [ReadDir_loop_dir_expand _ _ _ _ _ _ _ _ _ subdir hvis hc hn hopen]
          have hstart : names_visible (sub_start a entry s).log := by
            apply names_visible_append _ _ hs
            intro e he n hn
            simp only [List.mem_cons, List.mem_singleton, List.not_mem_nil, or_false] at he
            rcases he with rfl | rfl | rfl | rfl
            · simp [Event.itemName] at hn
            · simp [Event.itemName] at hn
            · simp [Event.itemName] at hn
            · simp only [Event.itemName, Option.some.injEq] at hn
              rw [← hn]; exact hvis
          cases hcall : callee (sub_args a stself entry subdir (playlist_item_t.created s.i_nodes))
              (sub_start a entry s) with
          | none => simp
          | some q =>
            obtain ⟨r1, s2⟩ := q
            have h2 := hcallee _ _ _ _ hstart hcall
            have h3 : names_visible (s2.emit (Event.closedir subdir)).log :=
              names_visible_emit _ _ h2 (by simp [Event.itemName])
            by_cases hr : r1 ≠ 0
            · simp only [if_pos hr, Option.some.injEq, Prod.mk.injEq]
              rintro ⟨_, rfl⟩
              exact h3
            · simp only [if_neg hr]
              exact ih r1 _ r s1 h3

/-- No call of `ReadDir` gives a node or a leaf a name that begins with a dot. -/
theorem ReadDir_names (w : World) (fuel : Nat) :
    ∀ (a : Args) (s : Sys) (r : Int) (s1 : Sys), names_visible s.log →
      ReadDir w fuel a s = some (r, s1) → names_visible s1.log := by
  induction fuel with
  | zero => intro a s r s1 _ h; simp [ReadDir] at h
  | succ fuel ih =>
    intro a s r s1 hs h
    have hs2 : names_visible (s.emit (Event.loaddir a.handle)).log :=
      names_visible_emit _ _ hs (by simp [Event.itemName])
    rcases ReadDir_succ_cases w fuel a s with ⟨_, hR⟩ | ⟨st, _, _, hR⟩
    · rw [hR] at h
      simp only [Option.some.injEq, Prod.mk.injEq] at h
      rw [← h.2]; exact names_visible_emit _ _ hs (by simp [Event.itemName])
    · rcases hR with ⟨_, hR⟩ | ⟨_, _, hR⟩ | ⟨_, _, hR⟩ | ⟨_, e, es, exts, _, _, hR⟩
      · rw [hR] at h
        simp only [Option.some.injEq, Prod.mk.injEq] at h
        rw [← h.2]; exact names_visible_emit _ _ hs (by simp [Event.itemName])
      · rw [hR] at h
        simp only [Option.some.injEq, Prod.mk.injEq] at h
        rw [← h.2]; exact names_visible_emit _ _ hs2 (by simp [Event.itemName])
      · rw [hR] at h
        simp only [Option.some.injEq, Prod.mk.injEq] at h
        rw [← h.2]; exact names_visible_emit _ _ hs2 (by simp [Event.itemName])
      · rw [hR] at h
        exact ReadDir_loop_names w (ReadDir w fuel) ih a st exts (e :: es) _ _ r s1 hs2 h

/-- C4: for every listing, mode and ignore array, the iteration of the entry
loop on an entry whose name begins with a dot (`.` and `..` included) leaves
the state as it is, whatever the callee is: no open attempt, no node, no leaf
and no recursive call; and after any call of `ReadDir`, at any depth, no node
and no leaf it created has a name beginning with a dot. -/
theorem C4_hidden_entries (w : World) :
    (∀ (callee : Args → Sys → Option (Int × Sys)) (a : Args) (stself : stat)
      (exts : List CStr) (i_return : Int) (entry : CStr) (rest : List CStr) (s : Sys),
      entry.head? = some '.' →
      ReadDir_loop w callee a stself exts i_return (entry :: rest) s =
        ReadDir_loop w callee a stself exts i_return rest s) ∧
    (∀ (fuel : Nat) (a : Args) (s : Sys) (r : Int) (s1 : Sys), names_visible s.log →
      ReadDir w fuel a s = some (r, s1) → names_visible s1.log) :=
  ⟨fun callee a stself exts i_return entry rest s h =>
    ReadDir_loop_hidden w callee a stself exts i_return entry rest s h,
   fun fuel a s r s1 hs h => ReadDir_names w fuel a s r s1 hs h⟩

/-- C4 (witness): in `world_hidden` the expansion of `/m` opens only
`/m/a.mp3`, although `.`, `..` and `.git` would open as directories, and the
names it gives are visible. -/
theorem C4_hidden_entries_witness :
    ∃ s : Sys, ReadDir world_hidden 2 (args_m MODE_EXPAND) Sys.init = some (VLC_SUCCESS, s) ∧
      s.log.filter Event.isOpen = [Event.opendir "/m/a.mp3".toList] ∧
      s.log.filter Event.isNode = [] ∧ names_visible s.log :=
  ⟨_, rfl, by decide, by decide,
    (C4_hidden_entries world_hidden).2 2 (args_m MODE_EXPAND) Sys.init VLC_SUCCESS _
      (by intro e he; simp [Sys.init] at he) rfl⟩

/-! ## The infinite-recursion exit -/

/-- What the entry loop returns has the log of its start as a prefix. -/
theorem ReadDir_loop_log_prefix (w : World) (callee : Args → Sys → Option (Int × Sys))
    (hcallee : Framed callee) (a : Args) (stself : stat) (exts : List CStr)
    (entries : List CStr) (i_return : Int) (s : Sys) (r : Int) (s1 : Sys)
    (h : ReadDir_loop w callee a stself exts i_return entries s = some (r, s1)) :
    ∃ D, s1.log = s.log ++ D := by
  have hs : s = Sys.shift s.log { log := [], i_nodes := s.i_nodes } := by
    simp [Sys.shift]
  rw [hs, ReadDir_loop_shift w callee hcallee] at h
  cases h0 : ReadDir_loop w callee a stself exts i_return entries
      { log := [], i_nodes := s.i_nodes } with
  | none => simp [shift_result, h0] at h
  | some p =>
    simp only [shift_result, h0, Option.map_some', Option.some.injEq, Prod.mk.injEq] at h
    exact ⟨p.2.log, by rw [← h.2]; simp [Sys.shift]⟩

/-- What `ReadDir` returns has the log of its start as a prefix. -/
theorem ReadDir_log_prefix (w : World) (fuel : Nat) (a : Args) (s : Sys) (r : Int) (s1 : Sys)
    (h : ReadDir w fuel a s = some (r, s1)) : ∃ D, s1.log = s.log ++ D := by
  have hs : s = Sys.shift s.log { log := [], i_nodes := s.i_nodes } := by
    simp [Sys.shift]
  rw [hs, ReadDir_shift w fuel] at h
  cases h0 : ReadDir w fuel a { log := [], i_nodes := s.i_nodes } with
  | none => simp [shift_result, h0] at h
  | some p =>
    simp only [shift_result, h0, Option.map_some', Option.some.injEq, Prod.mk.injEq] at h
    exact ⟨p.2.log, by rw [← h.2]; simp [Sys.shift]⟩

/-- When the guard does not fire, `ReadDir` does not return the state of the
infinite-recursion exit. -/
theorem ReadDir_miss_ne_exit (w : World) (fuel : Nat) (a : Args) (s : Sys) (st : stat)
    (hfd : w.dirfd a.handle ≠ -1) (hst : w.fstat (w.dirfd a.handle) = some st)
    (hmiss : stat_list_hit st a.stparent = false) :
    ReadDir w (fuel + 1) a s ≠ some (VLC_SUCCESS, s.emit (Event.warn_recursive a.psz_name)) := by
  intro h
  rcases ReadDir_succ_cases w fuel a s with ⟨hbad, _⟩ | ⟨st2, _, hst2, hR⟩
  · rcases hbad with hbad | hbad
    · exact hfd hbad
    · rw [hst] at hbad; simp at hbad
  · rw [hst] at hst2
    simp only [Option.some.injEq] at hst2
    subst hst2
    rcases hR with ⟨hhit, _⟩ | ⟨_, _, hR⟩ | ⟨_, _, hR⟩ | ⟨_, e, es, exts, _, _, hR⟩
    · rw [hmiss] at hhit; simp at hhit
    · rw [hR] at h
      simp [Sys.emit] at h
    · rw [hR] at h
      simp [Sys.emit] at h
    · rw [hR] at h
      obtain ⟨D, hD⟩ := ReadDir_loop_log_prefix w (ReadDir w fuel) (ReadDir_shift w fuel) a st
        exts (e :: es) _ _ _ _ h
      simp [Sys.emit] at hD

/-- C5: when the identity `st` of the directory is available, `ReadDir` takes
the infinite-recursion exit (it returns `VLC_SUCCESS` in the state of its start
extended by the warning alone: no listing, no node, no leaf) if and only if
some link of the ancestry chain has both the inode and the device of `st`; in
particular it does not with an empty chain. -/
theorem C5_cycle_guard (w : World) (fuel : Nat) (a : Args) (s : Sys) (st : stat)
    (hfd : w.dirfd a.handle ≠ -1) (hst : w.fstat (w.dirfd a.handle) = some st) :
    (ReadDir w (fuel + 1) a s = some (VLC_SUCCESS, s.emit (Event.warn_recursive a.psz_name)) ↔
      ∃ stats ∈ a.stparent, stats.st_ino = st.st_ino ∧ stats.st_dev = st.st_dev) ∧
    (a.stparent = [] →
      ReadDir w (fuel + 1) a s ≠ some (VLC_SUCCESS, s.emit (Event.warn_recursive a.psz_name))) := by
  have hiff : stat_list_hit st a.stparent = true ↔
      ∃ stats ∈ a.stparent, stats.st_ino = st.st_ino ∧ stats.st_dev = st.st_dev := by
    rw [stat_list_hit_iff]
    constructor
    · rintro ⟨x, hx, h1, h2⟩; exact ⟨x, hx, h1.symm, h2.symm⟩
    · rintro ⟨x, hx, h1, h2⟩; exact ⟨x, hx, h1.symm, h2.symm⟩
  have hexit : stat_list_hit st a.stparent = true →
      ReadDir w (fuel + 1) a s = some (VLC_SUCCESS, s.emit (Event.warn_recursive a.psz_name)) := by
    intro hhit
    simp [ReadDir, hfd, hst, hhit]
  refine ⟨⟨fun h => ?_, fun h => hexit (hiff.mpr h)⟩, fun hnil => ?_⟩
  · by_cases hhit : stat_list_hit st a.stparent = true
    · exact hiff.mp hhit
    · exact absurd h (ReadDir_miss_ne_exit w fuel a s st hfd hst (by simpa using hhit))
  · apply ReadDir_miss_ne_exit w fuel a s st hfd hst
    rw [hnil]; rfl

/-- C5 (witness): in `world_loop`, the call for `/m/loop` below `/m` takes the
exit, and the call for `/m/other` (same inode, other device) does not. -/
theorem C5_cycle_guard_witness :
    ReadDir world_loop 1
        (sub_args (args_m MODE_EXPAND) { st_ino := 100, st_dev := 1 } "loop".toList 1
          (playlist_item_t.created 0)) Sys.init =
      some (VLC_SUCCESS, Sys.init.emit (Event.warn_recursive "/m/loop".toList)) ∧
    ReadDir world_loop 1
        (sub_args (args_m MODE_EXPAND) { st_ino := 100, st_dev := 1 } "other".toList 2
          (playlist_item_t.created 0)) Sys.init ≠
      some (VLC_SUCCESS, Sys.init.emit (Event.warn_recursive "/m/other".toList)) :=
  ⟨(C5_cycle_guard world_loop 0
      (sub_args (args_m MODE_EXPAND) { st_ino := 100, st_dev := 1 } "loop".toList 1
        (playlist_item_t.created 0)) Sys.init { st_ino := 100, st_dev := 1 }
      (by decide) (by rfl)).1.mpr ⟨{ st_ino := 100, st_dev := 1 }, by decide, rfl, rfl⟩,
   fun h => absurd ((C5_cycle_guard world_loop 0
      (sub_args (args_m MODE_EXPAND) { st_ino := 100, st_dev := 1 } "other".toList 2
        (playlist_item_t.created 0)) Sys.init { st_ino := 100, st_dev := 2 }
      (by decide) (by rfl)).1.mp h) (by decide)⟩

/-! ## Termination of the expansion -/

/-- The iteration of the entry loop on a subdirectory whose identity is that of
the directory being read or of one of its ancestors: the node is created, the
recursive call only logs the warning, the handle is closed and the loop goes
on. -/
theorem ReadDir_loop_reenter (w : World) (fuel : Nat) (a : Args) (stself : stat)
    (exts : List CStr) (i_return : Int) (entry : CStr) (rest : List CStr) (s : Sys)
    (subdir : DIR) (st : stat) (hvis : entry.head? ≠ some '.')
    (hc : a.i_mode ≠ MODE_COLLAPSE) (hn : a.i_mode ≠ MODE_NONE)
    (hopen : w.utf8_opendir (mk_uri a.psz_name entry) = Except.ok subdir)
    (hfd : w.dirfd subdir ≠ -1) (hst : w.fstat (w.dirfd subdir) = some st)
    (hre : st ∈ stself :: a.stparent) :
    ReadDir_loop w (ReadDir w (fuel + 1)) a stself exts i_return (entry :: rest) s =
      ReadDir_loop w (ReadDir w (fuel + 1)) a stself exts VLC_SUCCESS rest
        { log := s.log ++ [Event.dbg_opening (mk_uri a.psz_name entry),
            Event.opendir (mk_uri a.psz_name entry), Event.dbg_creating (mk_uri a.psz_name entry),
            Event.NodeCreate entry a.p_parent_category (playlist_item_t.created s.i_nodes),
            Event.warn_recursive (mk_uri a.psz_name entry), Event.closedir subdir]
          i_nodes := s.i_nodes + 1 } := by
  rw [ReadDir_loop_dir_expand _ _ _ _ _ _ _ _ _ subdir hvis hc hn hopen]
  have hhit : stat_list_hit st (stself :: a.stparent) = true :=
    (stat_list_hit_iff st _).mpr ⟨st, hre, rfl, rfl⟩
  have hcall : ReadDir w (fuel + 1)
      (sub_args a stself entry subdir (playlist_item_t.created s.i_nodes)) (sub_start a entry s) =
      some (VLC_SUCCESS, (sub_start a entry s).emit
        (Event.warn_recursive (mk_uri a.psz_name entry))) := by
    simp only [ReadDir, sub_args]
    simp [hfd, hst, hhit]
  rw [hcall]
  simp [VLC_SUCCESS, sub_start, Sys.emit]

/-- C6: in a filesystem with finitely many directory identities (every
identity `fstat` reports is in the list `idents`; listings are finite lists),
cyclic or not, the top-level expansion (empty ancestry; mode `MODE_EXPAND` or
any other) returns as soon as the fuel exceeds the number of identities, with a
result that no longer depends on the fuel; and an entry that re-enters the
directory being read or one of its ancestors gets its node and nothing below
it: the recursive call logs the warning only, the handle is closed and the loop
goes on with the next entry. -/
theorem C6_expansion_terminates (w : World) (idents : List stat)
    (hid : ∀ fd st, w.fstat fd = some st → st ∈ idents) :
    (∀ (a : Args) (s : Sys) (fuel : Nat), a.stparent = [] → idents.length < fuel →
      ∃ p, ReadDir w fuel a s = some p ∧ ReadDir w (idents.length + 1) a s = some p) ∧
    (∀ (fuel : Nat) (a : Args) (stself : stat) (exts : List CStr) (i_return : Int)
      (entry : CStr) (rest : List CStr) (s : Sys) (subdir : DIR) (st : stat),
      entry.head? ≠ some '.' → a.i_mode = MODE_EXPAND →
      w.utf8_opendir (mk_uri a.psz_name entry) = Except.ok subdir →
      w.dirfd subdir ≠ -1 → w.fstat (w.dirfd subdir) = some st → st ∈ stself :: a.stparent →
      ReadDir_loop w (ReadDir w (fuel + 1)) a stself exts i_return (entry :: rest) s =
        ReadDir_loop w (ReadDir w (fuel + 1)) a stself exts VLC_SUCCESS rest
          { log := s.log ++ [Event.dbg_opening (mk_uri a.psz_name entry),
              Event.opendir (mk_uri a.psz_name entry),
              Event.dbg_creating (mk_uri a.psz_name entry),
              Event.NodeCreate entry a.p_parent_category (playlist_item_t.created s.i_nodes),
              Event.warn_recursive (mk_uri a.psz_name entry), Event.closedir subdir]
            i_nodes := s.i_nodes + 1 }) := by
  refine ⟨fun a s fuel hnil hlen => ?_, ?_⟩
  · obtain ⟨p, hp⟩ := ReadDir_total w idents hid (idents.length + 1) a s
      (by rw [hnil]; exact List.nodup_nil) (by rw [hnil]; exact List.nil_subset _)
      (by omega)
    refine ⟨p, ?_, hp⟩
    have := ReadDir_fuel_mono w (idents.length + 1) (fuel - (idents.length + 1)) a s p hp
    rwa [show idents.length + 1 + (fuel - (idents.length + 1)) = fuel by omega] at this
  · intro fuel a stself exts i_return entry rest s subdir st hvis hm hopen hfd hst hre
    exact ReadDir_loop_reenter w fuel a stself exts i_return entry rest s subdir st hvis
      (by rw [hm]; decide) (by rw [hm]; decide) hopen hfd hst hre

/-- C6 (witness): `world_loop`, in which `/m` is reachable from itself through
`loop`, has two identities; its expansion returns with fuel 3, with the leaf
`a.mp3` and the childless nodes `loop` and `other`. -/
theorem C6_expansion_terminates_witness :
    (∀ fd st, world_loop.fstat fd = some st → st ∈ idents_loop) ∧
    ∃ p, ReadDir world_loop 3 (args_m MODE_EXPAND) Sys.init = some p ∧
      ReadDir world_loop (idents_loop.length + 1) (args_m MODE_EXPAND) Sys.init = some p ∧
      p.1 = VLC_SUCCESS ∧
      p.2.log.filter (fun e => e.isNode || e.isLeaf) =
        [Event.BothAddInput "file:///m/a.mp3".toList "a.mp3".toList (some 0)
           (some (playlist_item_t.host 1)),
         Event.NodeCreate "loop".toList (some (playlist_item_t.host 1))
           (playlist_item_t.created 0),
         Event.NodeCreate "other".toList (some (playlist_item_t.host 1))
           (playlist_item_t.created 1)] := by
  have hid : ∀ fd st, world_loop.fstat fd = some st → st ∈ idents_loop := by
    intro fd st h
    simp only [world_loop] at h
    split at h
    · simp only [Option.some.injEq] at h; subst h; decide
    · split at h
      · simp only [Option.some.injEq] at h; subst h; decide
      · simp at h
  obtain ⟨p, h1, h2⟩ := (C6_expansion_terminates world_loop idents_loop hid).1
    (args_m MODE_EXPAND) Sys.init 3 rfl (by decide)
  refine ⟨hid, p, h1, h2, ?_⟩
  have h3 : (ReadDir world_loop 3 (args_m MODE_EXPAND) Sys.init).map
      (fun p => (p.1, p.2.log.filter (fun e => e.isNode || e.isLeaf))) =
      some (VLC_SUCCESS,
        [Event.BothAddInput "file:///m/a.mp3".toList "a.mp3".toList (some 0)
           (some (playlist_item_t.host 1)),
         Event.NodeCreate "loop".toList (some (playlist_item_t.host 1))
           (playlist_item_t.created 0),
         Event.NodeCreate "other".toList (some (playlist_item_t.host 1))
           (playlist_item_t.created 1)]) := by decide
  rw [h1] at h3
  simp only [Option.map_some', Option.some.injEq, Prod.mk.injEq] at h3
  exact h3

/-! ## The modes without recursion -/

theorem opens_as_of_ok (w : World) (a : Args) (entry : CStr) (subdir : DIR)
    (h : w.utf8_opendir (mk_uri a.psz_name entry) = Except.ok subdir) :
    opens_as w a entry = some subdir := by
  simp [opens_as, h]

theorem opens_as_of_error (w : World) (a : Args) (entry : CStr) (err : Nat)
    (h : w.utf8_opendir (mk_uri a.psz_name entry) = Except.error err) :
    opens_as w a entry = none := by
  simp [opens_as, h]

/-- The three outcomes of `OpenDir`. -/
theorem OpenDir_state (w : World) (path : CStr) (s : Sys) :
    (OpenDir w path s).2 =
        { log := s.log ++ [Event.dbg_opening path, Event.opendir path], i_nodes := s.i_nodes } ∨
    (∃ err, (OpenDir w path s).2 =
        { log := s.log ++ [Event.dbg_opening path, Event.opendir path, Event.err_open path err],
          i_nodes := s.i_nodes }) ∨
    (OpenDir w path s).2 =
        { log := s.log ++ [Event.dbg_opening path, Event.opendir path, Event.dbg_nondir path],
          i_nodes := s.i_nodes } := by
  unfold OpenDir
  cases w.utf8_opendir path with
  | error err =>
    by_cases he : err ≠ ENOTDIR
    · right; left; exact ⟨err, by simp [he, Sys.emit]⟩
    · right; right; simp [he, Sys.emit]
  | ok handle => left; simp [Sys.emit]

/-- The open attempt as an extension of the log. -/
theorem after_open_delta (w : World) (a : Args) (entry : CStr) (s : Sys) :
    ∃ O, after_open w a entry s = { log := s.log ++ O, i_nodes := s.i_nodes } ∧
      O.filter Event.isNode = [] ∧ O.filter Event.isLeaf = [] ∧
      O.filterMap Event.closed = [] ∧ (a.i_mode = MODE_COLLAPSE → O = []) := by
  unfold after_open
  by_cases hm : a.i_mode ≠ MODE_COLLAPSE
  · rw [if_pos hm]
    rcases OpenDir_state w (mk_uri a.psz_name entry) s with h | ⟨err, h⟩ | h
    · exact ⟨_, h, by simp [Event.isNode], by simp [Event.isLeaf], by simp [Event.closed],
        fun h => absurd h hm⟩
    · exact ⟨_, h, by simp [Event.isNode], by simp [Event.isLeaf], by simp [Event.closed],
        fun h => absurd h hm⟩
    · exact ⟨_, h, by simp [Event.isNode], by simp [Event.isLeaf], by simp [Event.closed],
        fun h => absurd h hm⟩
  · rw [if_neg hm]
    exact ⟨[], by simp, rfl, rfl, rfl, fun _ => rfl⟩

/-- In the modes `MODE_NONE` and `MODE_COLLAPSE` the entry loop returns for
every callee; it creates no node, adds the leaves of the accepted files of the
listing in listing order, closes the handles of the entries that opened, in
listing order, and in mode `MODE_COLLAPSE` makes no open attempt. -/
theorem ReadDir_loop_flat (w : World) (callee : Args → Sys → Option (Int × Sys)) (a : Args)
    (stself : stat) (exts : List CStr) (hm : a.i_mode ≠ MODE_EXPAND) (entries : List CStr) :
    ∀ (i_return : Int) (s : Sys), ∃ D,
      ReadDir_loop w callee a stself exts i_return entries s =
        some (i_return, { log := s.log ++ D, i_nodes := s.i_nodes }) ∧
      D.filter Event.isNode = [] ∧
      D.filter Event.isLeaf = (entries.filter (is_added_file w a exts)).map (leaf_of a) ∧
      (a.i_mode = MODE_NONE →
        D.filterMap Event.closed = (entries.filter (is_subdir w a)).filterMap (opens_as w a)) ∧
      (a.i_mode = MODE_COLLAPSE → D.filter Event.isOpen = []) := by
  induction entries with
  | nil =>
    intro i_return s
    exact ⟨[], by simp [ReadDir_loop], rfl, rfl, fun _ => rfl, fun _ => rfl⟩
  | cons entry rest ih =>
    intro i_return s
    by_cases hvis : entry.head? = some '.'
    · rw [ReadDir_loop_hidden _ _ _ _ _ _ _ _ _ hvis]
      obtain ⟨D, h1, h2, h3, h4, h5⟩ := ih i_return s
      refine ⟨D, h1, h2, ?_, ?_, h5⟩
      · rw [h3]; simp [List.filter_cons, is_added_file, hvis]
      · intro hn; rw [h4 hn]; simp [List.filter_cons, is_subdir, hvis]
    · by_cases hfile : a.i_mode = MODE_COLLAPSE ∨
          ∃ err, w.utf8_opendir (mk_uri a.psz_name entry) = Except.error err
      · rw [ReadDir_loop_file _ _ _ _ _ _ _ _ _ hvis hfile]
        obtain ⟨O, hO, hO1, hO2, hO3, hO4⟩ := after_open_delta w a entry s
        rw [hO]
        have hfile2 : a.i_mode = MODE_COLLAPSE ∨ (opens_as w a entry).isNone = true := by
          rcases hfile with h | ⟨err, h⟩
          · exact Or.inl h
          · exact Or.inr (by rw [opens_as_of_error w a entry err h]; rfl)
        have hsub : a.i_mode = MODE_NONE → is_subdir w a entry = false := by
          intro hn
          rcases hfile with h | ⟨err, h⟩
          · rw [hn] at h; exact absurd h (by decide)
          · simp [is_subdir, opens_as_of_error w a entry err h]
        by_cases hi : ignored exts entry = true
        · rw [if_pos hi]
          obtain ⟨D, h1, h2, h3, h4, h5⟩ := ih i_return
            (Sys.emit { log := s.log ++ O, i_nodes := s.i_nodes }
              (Event.dbg_ignoring (mk_uri a.psz_name entry)))
          refine ⟨O ++ Event.dbg_ignoring (mk_uri a.psz_name entry) :: D, ?_, ?_, ?_, ?_, ?_⟩
          · rw [h1]; simp [Sys.emit]
          · simp [List.filter_append, List.filter_cons, hO1, h2, Event.isNode]
          · simp [List.filter_append, List.filter_cons, hO2, h3, Event.isLeaf, is_added_file, hi]
          · intro hn
            simp [List.filterMap_append, List.filterMap_cons, hO3, h4 hn, Event.closed,
              List.filter_cons, hsub hn]
          · intro hc
            simp [hO4 hc, List.filter_cons, h5 hc, Event.isOpen]
        · rw [if_neg hi]
          have hleaf : Event.BothAddInput (file_scheme ++ mk_uri a.psz_name entry) entry
              a.p_current_input a.p_parent_category = leaf_of a entry := rfl
          rw [hleaf]
          obtain ⟨D, h1, h2, h3, h4, h5⟩ := ih i_return
            (Sys.emit { log := s.log ++ O, i_nodes := s.i_nodes } (leaf_of a entry))
          have hi2 : ignored exts entry = false := by simpa using hi
          refine ⟨O ++ leaf_of a entry :: D, ?_, ?_, ?_, ?_, ?_⟩
          · rw [h1]; simp [Sys.emit]
          · simp [List.filter_append, List.filter_cons, hO1, h2, Event.isNode, leaf_of]
          · have hadd : is_added_file w a exts entry = true := by
              simp only [is_added_file, hi2, and_true, decide_eq_true_eq]
              exact ⟨hvis, hfile2⟩
            simp [List.filter_append, List.filter_cons, hO2, h3, Event.isLeaf, leaf_of, hadd]
          · intro hn
            simp [List.filterMap_append, List.filterMap_cons, hO3, h4 hn, Event.closed,
              List.filter_cons, hsub hn, leaf_of]
          · intro hc
            simp [hO4 hc, List.filter_cons, h5 hc, Event.isOpen, leaf_of]
      · obtain ⟨hc, subdir, hopen⟩ := not_file_opens w a entry hfile
        have hn : a.i_mode = MODE_NONE := by
          cases hmode : a.i_mode with
          | MODE_EXPAND => exact absurd hmode hm
          | MODE_COLLAPSE => exact absurd hmode hc
          | MODE_NONE => rfl
        rw [ReadDir_loop_dir_none _ _ _ _ _ _ _ _ _ subdir hvis hn hopen]
        obtain ⟨D, h1, h2, h3, h4, h5⟩ := ih i_return
          { log := s.log ++ [Event.dbg_opening (mk_uri a.psz_name entry),
              Event.opendir (mk_uri a.psz_name entry),
              Event.dbg_skipping (mk_uri a.psz_name entry), Event.closedir subdir]
            i_nodes := s.i_nodes }
        have ho := opens_as_of_ok w a entry subdir hopen
        refine ⟨[Event.dbg_opening (mk_uri a.psz_name entry),
            Event.opendir (mk_uri a.psz_name entry),
            Event.dbg_skipping (mk_uri a.psz_name entry), Event.closedir subdir] ++ D,
          ?_, ?_, ?_, ?_, fun h => absurd h hc⟩
        · rw [h1]; simp
        · simp [List.filter_cons, h2, Event.isNode]
        · have hadd : is_added_file w a exts entry = false := by
            simp [is_added_file, ho, hc]
          simp [List.filter_cons, h3, Event.isLeaf, hadd]
        · intro _
          have hsub : is_subdir w a entry = true := by
            simp [is_subdir, ho, hvis]
          simp [List.filterMap_cons, h4 hn, Event.closed, List.filter_cons, hsub, ho]

/-- A call of `ReadDir` in mode `MODE_NONE` or `MODE_COLLAPSE` that reaches the
listing returns `VLC_SUCCESS` with any fuel, creates no node, adds the leaves
of the accepted files in listing order, closes what it opened and, in mode
`MODE_COLLAPSE`, makes no open attempt. -/
theorem ReadDir_flat (w : World) (a : Args) (hm : a.i_mode ≠ MODE_EXPAND) (fuel : Nat)
    (s : Sys) (st : stat) (entries exts : List CStr) (hfd : w.dirfd a.handle ≠ -1)
    (hst : w.fstat (w.dirfd a.handle) = some st) (hmiss : stat_list_hit st a.stparent = false)
    (hld : w.utf8_loaddir a.handle = some entries)
    (hb : build_ignores w.ignore_filetypes = some exts) :
    ∃ D, ReadDir w (fuel + 1) a s = some (VLC_SUCCESS, { log := s.log ++ D, i_nodes := s.i_nodes }) ∧
      D.filter Event.isNode = [] ∧
      D.filter Event.isLeaf = (entries.filter (is_added_file w a exts)).map (leaf_of a) ∧
      (a.i_mode = MODE_NONE →
        D.filterMap Event.closed = (entries.filter (is_subdir w a)).filterMap (opens_as w a)) ∧
      (a.i_mode = MODE_COLLAPSE → D.filter Event.isOpen = []) := by
  cases entries with
  | nil =>
    refine ⟨[Event.loaddir a.handle, Event.dbg_empty a.psz_name], ?_, ?_, ?_, ?_, ?_⟩
    · simp [ReadDir, hfd, hst, hmiss, hld, Sys.emit]
    · simp [Event.isNode]
    · simp [Event.isLeaf]
    · intro _; simp [Event.closed]
    · intro _; simp [Event.isOpen]
  | cons e es =>
    obtain ⟨D, h1, h2, h3, h4, h5⟩ := ReadDir_loop_flat w (ReadDir w fuel) a st exts hm (e :: es)
      VLC_SUCCESS (s.emit (Event.loaddir a.handle))
    refine ⟨Event.loaddir a.handle :: D, ?_, ?_, ?_, ?_, ?_⟩
    · simp only [ReadDir, hfd, hst, hmiss, hld, hb, if_false]
      rw [h1]
      simp [Sys.emit]
    · simp [List.filter_cons, Event.isNode, h2]
    · simp only [List.filter_cons, Event.isLeaf, h3]
      simp
    · intro hn
      simp only [List.filterMap_cons, Event.closed, h4 hn]
    · intro hc
      simp [List.filter_cons, Event.isOpen, h5 hc]

/-- C9 (amended): in mode `MODE_COLLAPSE` a call of `ReadDir` that reaches the
listing returns `VLC_SUCCESS` with any fuel (no directory is descended into),
makes no open attempt, creates no container node, and adds as leaves, in
listing order, exactly the non-hidden entries that the extension filter does
not drop: a subdirectory appears as such a leaf, with the URI
`file://<psz_name>/<entry>`, under the category node. -/
theorem C9_mode_collapse (w : World) (a : Args) (hm : a.i_mode = MODE_COLLAPSE) (fuel : Nat)
    (s : Sys) (st : stat) (entries exts : List CStr) (hfd : w.dirfd a.handle ≠ -1)
    (hst : w.fstat (w.dirfd a.handle) = some st) (hmiss : stat_list_hit st a.stparent = false)
    (hld : w.utf8_loaddir a.handle = some entries)
    (hb : build_ignores w.ignore_filetypes = some exts) :
    ∃ D, ReadDir w (fuel + 1) a s = some (VLC_SUCCESS, { log := s.log ++ D, i_nodes := s.i_nodes }) ∧
      D.filter Event.isOpen = [] ∧ D.filter Event.isNode = [] ∧
      D.filter Event.isLeaf =
        (entries.filter (fun e => decide (e.head? ≠ some '.') && !ignored exts e)).map
          (fun e => Event.BothAddInput (file_scheme ++ (a.psz_name ++ '/' :: e)) e
            a.p_current_input a.p_parent_category) := by
  obtain ⟨D, h1, h2, h3, _, h5⟩ := ReadDir_flat w a (by rw [hm]; decide) fuel s st entries exts
    hfd hst hmiss hld hb
  refine ⟨D, h1, h5 hm, h2, ?_⟩
  rw [h3]
  have hf : (fun e => Event.BothAddInput (file_scheme ++ (a.psz_name ++ '/' :: e)) e
      a.p_current_input a.p_parent_category) = leaf_of a := rfl
  rw [hf]
  congr 1
  apply List.filter_congr
  intro e _
  simp [is_added_file, hm]

/-- C9 (witness): `/m` of `world_loop` in mode `MODE_COLLAPSE`: the entries
`a.mp3`, `loop` and `other` are all added as leaves. -/
theorem C9_mode_collapse_witness :
    ∃ D, ReadDir world_loop 1 (args_m MODE_COLLAPSE) Sys.init =
        some (VLC_SUCCESS, { log := Sys.init.log ++ D, i_nodes := Sys.init.i_nodes }) ∧
      D.filter Event.isOpen = [] ∧ D.filter Event.isNode = [] ∧
      D.filter Event.isLeaf =
        [Event.BothAddInput "file:///m/a.mp3".toList "a.mp3".toList (some 0)
           (some (playlist_item_t.host 1)),
         Event.BothAddInput "file:///m/loop".toList "loop".toList (some 0)
           (some (playlist_item_t.host 1)),
         Event.BothAddInput "file:///m/other".toList "other".toList (some 0)
           (some (playlist_item_t.host 1))] := by
  obtain ⟨D, h1, h2, h3, h4⟩ := C9_mode_collapse world_loop (args_m MODE_COLLAPSE) rfl 0 Sys.init
    { st_ino := 100, st_dev := 1 } ["a.mp3".toList, "loop".toList, "other".toList]
    ["m3u".toList, "db".toList, "nfo".toList, "jpg".toList, "gif".toList,
      "sfv".toList, "txt".toList, "sub".toList, "idx".toList, "srt".toList]
    (by decide) (by rfl) (by rfl) (by rfl) (by decide)
  exact ⟨D, h1, h2, h3, h4.trans (by decide)⟩

/-- C9 (counterexample): in `world_loop` the entry `other` of `/m` is a
non-hidden subdirectory (it opens as a directory), yet the expansion of `/m` in
mode `MODE_COLLAPSE` creates no container node at all: `other` is added as the
leaf `file:///m/other`. -/
theorem C9_counterexample :
    world_loop.utf8_loaddir 0 = some ["a.mp3".toList, "loop".toList, "other".toList] ∧
    world_loop.utf8_opendir (mk_uri "/m".toList "other".toList) = Except.ok 2 ∧
    ∃ s : Sys, ReadDir world_loop 1 (args_m MODE_COLLAPSE) Sys.init = some (VLC_SUCCESS, s) ∧
      s.log.filter Event.isNode = [] ∧
      Event.BothAddInput "file:///m/other".toList "other".toList (some 0)
        (some (playlist_item_t.host 1)) ∈ s.log :=
  ⟨by rfl, by rfl, _, by rfl, by decide, by decide⟩

/-! ## Mode `MODE_EXPAND` -/

/-- C10: in mode `MODE_EXPAND`, the iteration of the entry loop on a non-hidden
entry that opens as a directory creates one node named after the entry under
the category node and calls the callee (the recursive `ReadDir`) once, with the
path `<psz_name>/<entry>`, the mode `MODE_EXPAND`, the new node as parent, the
new node as category node when a category node was supplied (NULL otherwise),
the handle just opened, and the ancestry chain made of the identity of the
current directory followed by the chain received; then it closes the handle and
either leaves the loop with the non-zero result or goes on. -/
theorem C10_expand_subdirectory (w : World) (callee : Args → Sys → Option (Int × Sys))
    (a : Args) (stself : stat) (exts : List CStr) (i_return : Int) (entry : CStr)
    (rest : List CStr) (s : Sys) (subdir : DIR) (hvis : entry.head? ≠ some '.')
    (hm : a.i_mode = MODE_EXPAND)
    (hopen : w.utf8_opendir (mk_uri a.psz_name entry) = Except.ok subdir) :
    ReadDir_loop w callee a stself exts i_return (entry :: rest) s =
      match callee
          { psz_name := a.psz_name ++ '/' :: entry
            i_mode := MODE_EXPAND
            p_parent := some (playlist_item_t.created s.i_nodes)
            p_parent_category :=
              if a.p_parent_category.isSome then some (playlist_item_t.created s.i_nodes)
              else none
            p_current_input := a.p_current_input
            handle := subdir
            stparent := stself :: a.stparent }
          { log := s.log ++ [Event.dbg_opening (a.psz_name ++ '/' :: entry),
              Event.opendir (a.psz_name ++ '/' :: entry),
              Event.dbg_creating (a.psz_name ++ '/' :: entry),
              Event.NodeCreate entry a.p_parent_category (playlist_item_t.created s.i_nodes)]
            i_nodes := s.i_nodes + 1 } with
      | none => none
      | some (r, s1) =>
        if r ≠ 0 then some (r, s1.emit (Event.closedir subdir))
        else ReadDir_loop w callee a stself exts r rest (s1.emit (Event.closedir subdir)) :=
  ReadDir_loop_dir_expand w callee a stself exts i_return entry rest s subdir hvis
    (by rw [hm]; decide) (by rw [hm]; decide) hopen

/-- C10 (witness): the entry `other` of `/m` in `world_loop`: one node `other`
under the category node, one call on `/m/other` with the chain holding the
identity of `/m`, which finds the directory empty, and the handle is closed. -/
theorem C10_expand_subdirectory_witness :
    ReadDir_loop world_loop (ReadDir world_loop 1) (args_m MODE_EXPAND)
        { st_ino := 100, st_dev := 1 } [] VLC_SUCCESS ["other".toList] Sys.init =
      some (VLC_SUCCESS,
        { log := [Event.dbg_opening "/m/other".toList, Event.opendir "/m/other".toList,
            Event.dbg_creating "/m/other".toList,
            Event.NodeCreate "other".toList (some (playlist_item_t.host 1))
              (playlist_item_t.created 0),
            Event.loaddir 2, Event.dbg_empty "/m/other".toList, Event.closedir 2]
          i_nodes := 1 }) :=
  (C10_expand_subdirectory world_loop (ReadDir world_loop 1) (args_m MODE_EXPAND)
    { st_ino := 100, st_dev := 1 } [] VLC_SUCCESS "other".toList [] Sys.init 2 (by decide) rfl
    (by rfl)).trans (by rfl)

/-! ## The tree built by an expansion -/

theorem grow_append (A B : List Event) (f : Option playlist_item_t → List PlTree) :
    grow (A ++ B) f = grow A (grow B f) := by
  simp [grow, List.foldr_append]

theorem grow_cons (e : Event) (A : List Event) (f : Option playlist_item_t → List PlTree) :
    grow (e :: A) f = attach e (grow A f) := rfl

theorem attach_other (e : Event) (hl : e.isLeaf = false) (hn : e.isNode = false)
    (f : Option playlist_item_t → List PlTree) : attach e f = f := by
  cases e <;> simp [Event.isLeaf, Event.isNode, attach] at hl hn ⊢

theorem grow_other (O : List Event) (hn : O.filter Event.isNode = [])
    (hl : O.filter Event.isLeaf = []) (f : Option playlist_item_t → List PlTree) :
    grow O f = f := by
  induction O with
  | nil => rfl
  | cons e es ih =>
    have hn1 : e.isNode = false := by
      by_contra h
      simp [List.filter_cons, h] at hn
    have hl1 : e.isLeaf = false := by
      by_contra h
      simp [List.filter_cons, h] at hl
    rw [grow_cons, ih (by simpa [List.filter_cons, hn1] using hn)
      (by simpa [List.filter_cons, hl1] using hl), attach_other e hl1 hn1]

theorem Grows_nil (k n : Nat) (c : playlist_item_t) : Grows [] k n c [] := by
  intro f0 _
  exact ⟨by simp [grow], fun q _ _ => rfl⟩

/-- Calls that create neither node nor leaf do not change what is built. -/
theorem Grows_other (O D : List Event) (k n : Nat) (c : playlist_item_t) (spec : List PlTree)
    (hn : O.filter Event.isNode = []) (hl : O.filter Event.isLeaf = [])
    (h : Grows D k n c spec) : Grows (O ++ D) k n c spec := by
  intro f0 hf0
  rw [grow_append, grow_other O hn hl]
  exact h f0 hf0

/-- A leaf added under `c` is the first child of what follows. -/
theorem Grows_leaf (D : List Event) (k n : Nat) (c : playlist_item_t) (spec : List PlTree)
    (psz_uri name : CStr) (i : Option Nat) (h : Grows D k n c spec) :
    Grows (Event.BothAddInput psz_uri name i (some c) :: D) k n c
      (PlTree.leaf psz_uri name :: spec) := by
  intro f0 hf0
  obtain ⟨h1, h2⟩ := h f0 hf0
  refine ⟨?_, fun q hq hj => ?_⟩
  · simp [grow_cons, attach, h1]
  · simp only [grow_cons, attach, hq, if_false]
    exact h2 q hq hj

/-- A node created under `c`, the calls of the recursive expansion, which
build `sub` under the new node, the `closedir`, and the calls for the later
entries, which build `rest` under `c`: the node with the children `sub`,
followed by `rest`. -/
theorem Grows_node (D1 D2 : List Event) (k n1 n2 : Nat) (c : playlist_item_t)
    (sub rest : List PlTree) (name : CStr) (handle : DIR)
    (hc : ∀ j, c = playlist_item_t.created j → j < k) (hk : k + 1 ≤ n1) (hn : n1 ≤ n2)
    (h1 : Grows D1 (k + 1) n1 (playlist_item_t.created k) sub) (h2 : Grows D2 n1 n2 c rest) :
    Grows (Event.NodeCreate name (some c) (playlist_item_t.created k) ::
        (D1 ++ Event.closedir handle :: D2)) k n2 c (PlTree.node name sub :: rest) := by
  intro f0 hf0
  have hck : (some c : Option playlist_item_t) ≠ some (playlist_item_t.created k) := by
    intro h
    have := hc k (Option.some.inj h)
    omega
  obtain ⟨h2a, h2b⟩ := h2 f0 (fun j hj1 hj2 => hf0 j (by omega) hj2)
  -- what follows the recursive expansion
  have hT : grow (Event.closedir handle :: D2) f0 = grow D2 f0 := by
    rw [grow_cons]; rfl
  have hsubT : ∀ j, k + 1 ≤ j → j < n1 →
      grow (Event.closedir handle :: D2) f0 (some (playlist_item_t.created j)) = [] := by
    intro j hj1 hj2
    rw [hT, h2b _ (fun h => by have := hc j (Option.some.inj h.symm); omega)
      (fun j2 hj => by
        have : j2 = j := by
          have := Option.some.inj hj
          injection this with h3
          exact h3.symm
        omega)]
    exact hf0 j (by omega) (by omega)
  obtain ⟨h1a, h1b⟩ := h1 (grow (Event.closedir handle :: D2) f0) hsubT
  have hnode : grow (Event.closedir handle :: D2) f0 (some (playlist_item_t.created k)) = [] := by
    rw [hT, h2b _ (Ne.symm hck) (fun j2 hj => by
        have : j2 = k := by
          have := Option.some.inj hj
          injection this with h3
          exact h3.symm
        omega)]
    exact hf0 k (le_refl _) (by omega)
  refine ⟨?_, fun q hq hj => ?_⟩
  · rw [grow_cons, grow_append]
    simp only [attach, if_true]
    rw [h1a, hnode, List.append_nil, h1b _ hck (fun j hj => by
      have := hc j (Option.some.inj hj); omega), hT, h2a]
    rfl
  · rw [grow_cons, grow_append]
    simp only [attach, hq, if_false]
    have hqk : q ≠ some (playlist_item_t.created k) := by
      intro h
      have := hj k h
      omega
    rw [h1b q hqk (fun j hjq => by have := hj j hjq; omega), hT]
    exact h2b q hq (fun j hjq => by have := hj j hjq; omega)

/-- The step of the induction on the recursion depth, for the entry loop: if
the recursive calls build the expected trees, the loop over entries that are
hidden, files or well-formed subdirectories returns `VLC_SUCCESS` and builds
under the category node what is expected for these entries. -/
theorem ReadDir_loop_tree (w : World) (fuel : Nat) (exts : List CStr)
    (ih : ∀ (a : Args) (s : Sys) (c : playlist_item_t), a.i_mode = MODE_EXPAND →
      a.p_parent_category = some c → (∀ j, c = playlist_item_t.created j → j < s.i_nodes) →
      well_tree w fuel a.stparent a.handle a.psz_name = true →
      ∃ D n, ReadDir w fuel a s = some (VLC_SUCCESS, { log := s.log ++ D, i_nodes := n }) ∧
        s.i_nodes ≤ n ∧ Grows D s.i_nodes n c (spec_tree w exts fuel a.psz_name a.handle))
    (a : Args) (st : stat) (c : playlist_item_t) (hm : a.i_mode = MODE_EXPAND)
    (hcat : a.p_parent_category = some c) (entries : List CStr) :
    ∀ s : Sys, (∀ j, c = playlist_item_t.created j → j < s.i_nodes) →
      entries.all (well_entry w (well_tree w fuel (st :: a.stparent)) a.psz_name) = true →
      ∃ D n, ReadDir_loop w (ReadDir w fuel) a st exts VLC_SUCCESS entries s =
          some (VLC_SUCCESS, { log := s.log ++ D, i_nodes := n }) ∧
        s.i_nodes ≤ n ∧
        Grows D s.i_nodes n c
          (entries.filterMap (spec_entry w exts (spec_tree w exts fuel) a.psz_name)) := by
  have hc : a.i_mode ≠ MODE_COLLAPSE := by rw [hm]; decide
  have hn : a.i_mode ≠ MODE_NONE := by rw [hm]; decide
  induction entries with
  | nil =>
    intro s _ _
    exact ⟨[], s.i_nodes, by simp [ReadDir_loop], le_refl _, Grows_nil _ _ _⟩
  | cons entry rest ihe =>
    intro s hold hwell
    rw [List.all_cons, Bool.and_eq_true] at hwell
    obtain ⟨hwe, hwrest⟩ := hwell
    by_cases hvis : entry.head? = some '.'
    · rw [ReadDir_loop_hidden _ _ _ _ _ _ _ _ _ hvis]
      obtain ⟨D, n, h1, h2, h3⟩ := ihe s hold hwrest
      refine ⟨D, n, h1, h2, ?_⟩
      simpa [List.filterMap_cons, spec_entry, hvis] using h3
    · cases hopen : w.utf8_opendir (mk_uri a.psz_name entry) with
      | error err =>
        rw [ReadDir_loop_file _ _ _ _ _ _ _ _ _ hvis (Or.inr ⟨err, hopen⟩)]
        obtain ⟨O, hO, hO1, hO2, _, _⟩ := after_open_delta w a entry s
        rw [hO]
        by_cases hi : ignored exts entry = true
        · rw [if_pos hi]
          obtain ⟨D, n, h1, h2, h3⟩ := ihe
            (Sys.emit { log := s.log ++ O, i_nodes := s.i_nodes }
              (Event.dbg_ignoring (mk_uri a.psz_name entry))) hold hwrest
          refine ⟨O ++ Event.dbg_ignoring (mk_uri a.psz_name entry) :: D, n, ?_, h2, ?_⟩
          · rw [h1]; simp [Sys.emit]
          · have h4 := Grows_other (O ++ [Event.dbg_ignoring (mk_uri a.psz_name entry)]) D
              s.i_nodes n c _ (by simp [List.filter_append, hO1, Event.isNode])
              (by simp [List.filter_append, hO2, Event.isLeaf]) h3
            simpa [List.filterMap_cons, spec_entry, hvis, hopen, hi] using h4
        · rw [if_neg hi]
          obtain ⟨D, n, h1, h2, h3⟩ := ihe
            (Sys.emit { log := s.log ++ O, i_nodes := s.i_nodes }
              (Event.BothAddInput (file_scheme ++ mk_uri a.psz_name entry) entry
                a.p_current_input a.p_parent_category)) hold hwrest
          refine ⟨O ++ Event.BothAddInput (file_scheme ++ mk_uri a.psz_name entry) entry
            a.p_current_input a.p_parent_category :: D, n, ?_, h2, ?_⟩
          · rw [h1]; simp [Sys.emit]
          · have h4 := Grows_other O _ s.i_nodes n c _ hO1 hO2
              (Grows_leaf D s.i_nodes n c _ (file_scheme ++ mk_uri a.psz_name entry) entry
                a.p_current_input h3)
            rw [hcat]
            simpa [List.filterMap_cons, spec_entry, hvis, hopen, hi] using h4
      | ok subdir =>
        rw [ReadDir_loop_dir_expand _ _ _ _ _ _ _ _ _ subdir hvis hc hn hopen]
        have hwsub : well_tree w fuel (st :: a.stparent) subdir (mk_uri a.psz_name entry) = true := by
          simpa [well_entry, hvis, hopen] using hwe
        have hsubcat : (sub_args a st entry subdir (playlist_item_t.created s.i_nodes)).p_parent_category
            = some (playlist_item_t.created s.i_nodes) := by
          simp [sub_args, hcat]
        obtain ⟨D1, n1, hr1, hn1, hg1⟩ := ih
          (sub_args a st entry subdir (playlist_item_t.created s.i_nodes)) (sub_start a entry s)
          (playlist_item_t.created s.i_nodes) rfl hsubcat
          (fun j hj => by
            injection hj with hj
            simp only [sub_start]
            omega)
          hwsub
        rw [hr1]
        have hz : ¬ (VLC_SUCCESS ≠ 0) := by simp [VLC_SUCCESS]
        simp only [if_neg hz]
        have hn1' : s.i_nodes + 1 ≤ n1 := hn1
        obtain ⟨D2, n2, hr2, hn2, hg2⟩ := ihe
          (Sys.emit { log := (sub_start a entry s).log ++ D1, i_nodes := n1 }
            (Event.closedir subdir))
          (fun j hj => by
            have := hold j hj
            simp only [Sys.emit]
            omega)
          hwrest
        simp only [Sys.emit] at hn2 hg2
        refine ⟨[Event.dbg_opening (mk_uri a.psz_name entry),
            Event.opendir (mk_uri a.psz_name entry),
            Event.dbg_creating (mk_uri a.psz_name entry)] ++
            (Event.NodeCreate entry (some c) (playlist_item_t.created s.i_nodes) ::
              (D1 ++ Event.closedir subdir :: D2)), n2, ?_, by omega, ?_⟩
        · rw [hr2]
          simp [Sys.emit, sub_start, hcat]
        · have h4 := Grows_other [Event.dbg_opening (mk_uri a.psz_name entry),
              Event.opendir (mk_uri a.psz_name entry),
              Event.dbg_creating (mk_uri a.psz_name entry)] _ s.i_nodes n2 c _
            (by simp [Event.isNode]) (by simp [Event.isLeaf])
            (Grows_node D1 D2 s.i_nodes n1 n2 c _ _ entry subdir hold hn1' hn2 hg1 hg2)
          simpa [List.filterMap_cons, spec_entry, hvis, hopen, sub_args] using h4

/-- The expansion of a directory tree without cycles, read without I/O failure,
in mode `MODE_EXPAND` with a category node that exists: `ReadDir` returns
`VLC_SUCCESS` and builds the expected tree under the category node. -/
theorem ReadDir_tree (w : World) (exts : List CStr)
    (hb : build_ignores w.ignore_filetypes = some exts) (fuel : Nat) :
    ∀ (a : Args) (s : Sys) (c : playlist_item_t), a.i_mode = MODE_EXPAND →
      a.p_parent_category = some c → (∀ j, c = playlist_item_t.created j → j < s.i_nodes) →
      well_tree w fuel a.stparent a.handle a.psz_name = true →
      ∃ D n, ReadDir w fuel a s = some (VLC_SUCCESS, { log := s.log ++ D, i_nodes := n }) ∧
        s.i_nodes ≤ n ∧ Grows D s.i_nodes n c (spec_tree w exts fuel a.psz_name a.handle) := by
  induction fuel with
  | zero => intro a s c _ _ _ h; simp [well_tree] at h
  | succ fuel ih =>
    intro a s c hm hcat hold hwell
    simp only [well_tree, Bool.and_eq_true, decide_eq_true_eq] at hwell
    obtain ⟨hfd, hwell⟩ := hwell
    cases hst : w.fstat (w.dirfd a.handle) with
    | none => simp [hst] at hwell
    | some st =>
      simp only [hst, Bool.and_eq_true, Bool.not_eq_true'] at hwell
      obtain ⟨hmiss, hwell⟩ := hwell
      cases hld : w.utf8_loaddir a.handle with
      | none => simp [hld] at hwell
      | some entries =>
        simp only [hld] at hwell
        cases entries with
        | nil =>
          refine ⟨[Event.loaddir a.handle, Event.dbg_empty a.psz_name], s.i_nodes, ?_,
            le_refl _, ?_⟩
          · simp [ReadDir, hfd, hst, hmiss, hld, Sys.emit]
          · have h4 := Grows_other [Event.loaddir a.handle, Event.dbg_empty a.psz_name] []
              s.i_nodes s.i_nodes c [] (by simp [Event.isNode]) (by simp [Event.isLeaf])
              (Grows_nil _ _ _)
            simpa [spec_tree, hld] using h4
        | cons e es =>
          obtain ⟨D, n, h1, h2, h3⟩ := ReadDir_loop_tree w fuel exts ih a st c hm hcat (e :: es)
            (s.emit (Event.loaddir a.handle)) hold hwell
          refine ⟨Event.loaddir a.handle :: D, n, ?_, h2, ?_⟩
          · simp only [ReadDir, hfd, hst, hmiss, hld, hb, if_false]
            rw [h1]
            simp [Sys.emit]
          · have h4 := Grows_other [Event.loaddir a.handle] D s.i_nodes n c _
              (by simp [Event.isNode]) (by simp [Event.isLeaf]) h3
            simpa [spec_tree, hld] using h4

/-- C7 (amended): for every directory tree without cycles (of depth at most
`fuel`) expanded in mode `MODE_EXPAND` without I/O failure, with a category
node supplied by the host, `ReadDir` returns `VLC_SUCCESS` and the tree it
builds under the category node is the expected one: the children of the node of
each directory reached through non-hidden names are, in the order of its sorted
listing, one leaf for each file whose name does not start with a dot and that
the extension filter does not drop, and one node for each non-hidden
subdirectory, holding the tree of that subdirectory; so each such file appears
once, attached to the node of its parent directory. -/
theorem C7_expand_tree (w : World) (exts : List CStr) (fuel : Nat) (a : Args) (s : Sys)
    (k : Nat) (hb : build_ignores w.ignore_filetypes = some exts)
    (hm : a.i_mode = MODE_EXPAND)
    (hcat : a.p_parent_category = some (playlist_item_t.host k))
    (hwell : well_tree w fuel a.stparent a.handle a.psz_name = true) :
    ∃ D n, ReadDir w fuel a s = some (VLC_SUCCESS, { log := s.log ++ D, i_nodes := n }) ∧
      children_of D (some (playlist_item_t.host k)) = spec_tree w exts fuel a.psz_name a.handle := by
  obtain ⟨D, n, h1, _, h3⟩ := ReadDir_tree w exts hb fuel a s (playlist_item_t.host k) hm hcat
    (fun j hj => by injection hj) hwell
  refine ⟨D, n, h1, ?_⟩
  have := (h3 (fun _ => []) (fun _ _ _ => rfl)).1
  simpa [children_of] using this

/-- C7 (witness): `/m` of `world_tree`, which holds `.hidden.mp3`, `a.mp3` and
`sub/b.mp3`: the tree under the category node is the leaf `a.mp3` followed by
the node `sub` holding the leaf `b.mp3`. -/
theorem C7_expand_tree_witness :
    ∃ D n, ReadDir world_tree 2 (args_m MODE_EXPAND) Sys.init =
        some (VLC_SUCCESS, { log := Sys.init.log ++ D, i_nodes := n }) ∧
      children_of D (some (playlist_item_t.host 1)) =
        [PlTree.leaf "file:///m/a.mp3".toList "a.mp3".toList,
         PlTree.node "sub".toList [PlTree.leaf "file:///m/sub/b.mp3".toList "b.mp3".toList]] := by
  obtain ⟨D, n, h1, h2⟩ := C7_expand_tree world_tree ["db".toList] 2 (args_m MODE_EXPAND)
    Sys.init 1 (by decide) rfl rfl (by decide)
  exact ⟨D, n, h1, h2.trans (by rfl)⟩

/-- C7 (counterexample): (i) `world_dotdir` is a directory tree without cycles,
read without I/O failure; the file `a.mp3` of its directory `/m/.d` has a name
that does not start with a dot and an extension outside the ignore array, yet
the expansion of `/m` in mode `MODE_EXPAND` adds no leaf: the directory `.d` is
hidden and never entered. (ii) In `world_tree`, when the host supplied no
category node, the leaf for `sub/b.mp3` is added with no parent and the node
created for `sub` has no child. -/
theorem C7_counterexample :
    (well_tree world_dotdir 2 [] 0 "/m".toList = true ∧
      world_dotdir.utf8_loaddir 0 = some [".d".toList] ∧
      world_dotdir.utf8_opendir (mk_uri "/m".toList ".d".toList) = Except.ok 1 ∧
      world_dotdir.utf8_loaddir 1 = some ["a.mp3".toList] ∧
      world_dotdir.utf8_opendir (mk_uri "/m/.d".toList "a.mp3".toList) = Except.error ENOTDIR ∧
      "a.mp3".toList.head? ≠ some '.' ∧
      build_ignores world_dotdir.ignore_filetypes = some ["db".toList] ∧
      "mp3".toList ∉ ["db".toList] ∧
      ∃ s : Sys, ReadDir world_dotdir 2 (args_m MODE_EXPAND) Sys.init = some (VLC_SUCCESS, s) ∧
        s.log.filter Event.isLeaf = []) ∧
    (well_tree world_tree 2 [] 0 "/m".toList = true ∧
      ∃ s : Sys, ReadDir world_tree 2 args_m_nocat Sys.init = some (VLC_SUCCESS, s) ∧
        Event.NodeCreate "sub".toList none (playlist_item_t.created 0) ∈ s.log ∧
        Event.BothAddInput "file:///m/sub/b.mp3".toList "b.mp3".toList (some 0) none ∈ s.log ∧
        children_of s.log (some (playlist_item_t.created 0)) = []) :=
  ⟨⟨by decide, by rfl, by rfl, by rfl, by rfl, by decide, by decide, by decide, _, by rfl,
      by decide⟩,
    by decide, _, by rfl, by decide, by decide, by rfl⟩

/-! ## Failures before the entry loop -/

/-- C13: if the identity of the directory cannot be obtained (`dirfd` answers
`-1` or `fstat` fails), `ReadDir` returns `VLC_EGENERIC` having only logged
"cannot stat"; if the listing is attempted and fails, it returns `VLC_EGENERIC`
having only called `utf8_loaddir` and logged "cannot read": no entry is opened,
no node and no leaf is created; and `VLC_EGENERIC` is not `VLC_SUCCESS`. -/
theorem C13_unreadable (w : World) (fuel : Nat) (a : Args) (s : Sys) :
    ((w.dirfd a.handle = -1 ∨ w.fstat (w.dirfd a.handle) = none) →
      ReadDir w (fuel + 1) a s =
        some (VLC_EGENERIC, { log := s.log ++ [Event.err_cannot_stat a.psz_name],
                              i_nodes := s.i_nodes })) ∧
    (∀ st, w.dirfd a.handle ≠ -1 → w.fstat (w.dirfd a.handle) = some st →
      stat_list_hit st a.stparent = false → w.utf8_loaddir a.handle = none →
      ReadDir w (fuel + 1) a s =
        some (VLC_EGENERIC, { log := s.log ++ [Event.loaddir a.handle,
                                Event.err_cannot_read a.psz_name],
                              i_nodes := s.i_nodes })) ∧
    VLC_EGENERIC ≠ VLC_SUCCESS := by
  refine ⟨fun h => ?_, fun st hfd hst hmiss hld => ?_, by decide⟩
  · rcases h with h | h
    · simp [ReadDir, h, Sys.emit]
    · by_cases hfd : w.dirfd a.handle = -1
      · simp [ReadDir, hfd, Sys.emit]
      · simp [ReadDir, hfd, h, Sys.emit]
  · simp [ReadDir, hfd, hst, hmiss, hld, Sys.emit]

/-- C13 (witness): the directory `d` of `world_failfast`, which cannot be
stat'ed, and the directory `/m` of `world_unreadable`, whose listing fails. -/
theorem C13_unreadable_witness :
    ReadDir world_failfast 1
        (sub_args (args_m MODE_EXPAND) { st_ino := 100, st_dev := 1 } "d".toList 1
          (playlist_item_t.created 0)) Sys.init =
      some (VLC_EGENERIC, { log := [Event.err_cannot_stat "/m/d".toList], i_nodes := 0 }) ∧
    ReadDir world_unreadable 1 (args_m MODE_EXPAND) Sys.init =
      some (VLC_EGENERIC, { log := [Event.loaddir 0, Event.err_cannot_read "/m".toList],
                            i_nodes := 0 }) :=
  ⟨(C13_unreadable world_failfast 0 _ Sys.init).1 (Or.inr (by rfl)),
   (C13_unreadable world_unreadable 0 (args_m MODE_EXPAND) Sys.init).2.1
     { st_ino := 100, st_dev := 1 } (by decide) (by rfl) (by rfl) (by rfl)⟩

/-- C15: if the listing of the directory is empty, then, its identity being
available, `ReadDir` returns `VLC_SUCCESS` without opening an entry and without
creating a node or a leaf; when the guard does not fire the call made is the
listing and the message is "directory is empty". -/
theorem C15_empty_listing (w : World) (fuel : Nat) (a : Args) (s : Sys) (st : stat)
    (hld : w.utf8_loaddir a.handle = some []) (hfd : w.dirfd a.handle ≠ -1)
    (hst : w.fstat (w.dirfd a.handle) = some st) :
    (∃ D, ReadDir w (fuel + 1) a s =
        some (VLC_SUCCESS, { log := s.log ++ D, i_nodes := s.i_nodes }) ∧
      D.filter Event.isNode = [] ∧ D.filter Event.isLeaf = [] ∧ D.filter Event.isOpen = []) ∧
    (stat_list_hit st a.stparent = false →
      ReadDir w (fuel + 1) a s =
        some (VLC_SUCCESS, { log := s.log ++ [Event.loaddir a.handle,
                               Event.dbg_empty a.psz_name],
                             i_nodes := s.i_nodes })) := by
  have hmiss : stat_list_hit st a.stparent = false →
      ReadDir w (fuel + 1) a s =
        some (VLC_SUCCESS, { log := s.log ++ [Event.loaddir a.handle,
                               Event.dbg_empty a.psz_name],
                             i_nodes := s.i_nodes }) := by
    intro hm
    simp [ReadDir, hfd, hst, hm, hld, Sys.emit]
  refine ⟨?_, hmiss⟩
  by_cases hhit : stat_list_hit st a.stparent = true
  · exact ⟨[Event.warn_recursive a.psz_name], by simp [ReadDir, hfd, hst, hhit, Sys.emit],
      by simp [Event.isNode], by simp [Event.isLeaf], by simp [Event.isOpen]⟩
  · exact ⟨_, hmiss (by simpa using hhit), by simp [Event.isNode], by simp [Event.isLeaf],
      by simp [Event.isOpen]⟩

/-- C15 (witness): the empty directory `/m` of `world_empty`. -/
theorem C15_empty_listing_witness :
    ReadDir world_empty 1 (args_m MODE_EXPAND) Sys.init =
      some (VLC_SUCCESS, { log := [Event.loaddir 0, Event.dbg_empty "/m".toList],
                           i_nodes := 0 }) :=
  (C15_empty_listing world_empty 0 (args_m MODE_EXPAND) Sys.init { st_ino := 100, st_dev := 1 }
    (by rfl) (by decide) (by rfl)).2 (by rfl)

/-! ## Open failures -/

/-- C12 (amended): when opening a non-hidden entry as a directory fails for a
reason other than not-a-directory, the iteration of the entry loop logs the
error, creates no node, and handles the entry as a file: it is dropped if the
extension filter matches and added as a leaf otherwise; the variable
`i_return` is left as it is and the loop goes on with the remaining entries. -/
theorem C12_open_failure (w : World) (callee : Args → Sys → Option (Int × Sys)) (a : Args)
    (stself : stat) (exts : List CStr) (i_return : Int) (entry : CStr) (rest : List CStr)
    (s : Sys) (err : Nat) (hvis : entry.head? ≠ some '.') (hm : a.i_mode ≠ MODE_COLLAPSE)
    (hopen : w.utf8_opendir (mk_uri a.psz_name entry) = Except.error err)
    (herr : err ≠ ENOTDIR) :
    ReadDir_loop w callee a stself exts i_return (entry :: rest) s =
      ReadDir_loop w callee a stself exts i_return rest
        { log := s.log ++ [Event.dbg_opening (mk_uri a.psz_name entry),
            Event.opendir (mk_uri a.psz_name entry),
            Event.err_open (mk_uri a.psz_name entry) err,
            if ignored exts entry then Event.dbg_ignoring (mk_uri a.psz_name entry)
            else Event.BothAddInput (file_scheme ++ mk_uri a.psz_name entry) entry
              a.p_current_input a.p_parent_category]
          i_nodes := s.i_nodes } := by
  rw [ReadDir_loop_file _ _ _ _ _ _ _ _ _ hvis (Or.inr ⟨err, hopen⟩)]
  congr 1
  simp [after_open, hm, OpenDir, hopen, herr, Sys.emit]

/-- C12 (witness): the entry `locked` of `/m` in `world_locked`, followed by
`z.mp3`: both are added as leaves and the result is `VLC_SUCCESS`. -/
theorem C12_open_failure_witness :
    ReadDir_loop world_locked (ReadDir world_locked 0) (args_m MODE_EXPAND)
        { st_ino := 100, st_dev := 1 } [] VLC_SUCCESS ["locked".toList, "z.mp3".toList]
        Sys.init =
      some (VLC_SUCCESS,
        { log := [Event.dbg_opening "/m/locked".toList, Event.opendir "/m/locked".toList,
            Event.err_open "/m/locked".toList 13,
            Event.BothAddInput "file:///m/locked".toList "locked".toList (some 0)
              (some (playlist_item_t.host 1)),
            Event.dbg_opening "/m/z.mp3".toList, Event.opendir "/m/z.mp3".toList,
            Event.dbg_nondir "/m/z.mp3".toList,
            Event.BothAddInput "file:///m/z.mp3".toList "z.mp3".toList (some 0)
              (some (playlist_item_t.host 1))]
          i_nodes := 0 }) :=
  (C12_open_failure world_locked (ReadDir world_locked 0) (args_m MODE_EXPAND)
    { st_ino := 100, st_dev := 1 } [] VLC_SUCCESS "locked".toList ["z.mp3".toList] Sys.init 13
    (by decide) (by decide) (by rfl) (by decide)).trans (by rfl)

/-- C12 (counterexample): in `world_locked` opening the non-hidden entry
`locked` fails with `errno` 13, which is not `ENOTDIR`; yet the expansion of
`/m` adds the leaf `file:///m/locked` for it. -/
theorem C12_counterexample :
    world_locked.utf8_loaddir 0 = some ["locked".toList, "z.mp3".toList] ∧
    "locked".toList.head? ≠ some '.' ∧
    world_locked.utf8_opendir (mk_uri "/m".toList "locked".toList) = Except.error 13 ∧
    (13 : Nat) ≠ ENOTDIR ∧
    ∃ s : Sys, ReadDir world_locked 1 (args_m MODE_EXPAND) Sys.init = some (VLC_SUCCESS, s) ∧
      Event.BothAddInput "file:///m/locked".toList "locked".toList (some 0)
        (some (playlist_item_t.host 1)) ∈ s.log :=
  ⟨by rfl, by decide, by rfl, by decide, _, by rfl, by decide⟩

/-! ## Fail-fast propagation -/

theorem Outcome_nil : Outcome VLC_SUCCESS [] :=
  Or.inl ⟨rfl, fun e he => by simp at he⟩

/-- Calls that report no failure, put before, do not change the outcome. -/
theorem Outcome_before (O D : List Event) (r : Int) (hO : ∀ e ∈ O, e.isFailure = false)
    (h : Outcome r D) : Outcome r (O ++ D) := by
  rcases h with ⟨hr, hD⟩ | ⟨hr, D0, e, C, hD, he, hD0, hC⟩
  · refine Or.inl ⟨hr, fun x hx => ?_⟩
    rcases List.mem_append.mp hx with hx | hx
    · exact hO x hx
    · exact hD x hx
  · refine Or.inr ⟨hr, O ++ D0, e, C, by simp [hD], he, fun x hx => ?_, hC⟩
    rcases List.mem_append.mp hx with hx | hx
    · exact hO x hx
    · exact hD0 x hx

/-- A `closedir` after a failed call keeps the outcome of the failure. -/
theorem Outcome_close (D : List Event) (r : Int) (handle : DIR) (hr : r ≠ 0)
    (h : Outcome r D) : Outcome r (D ++ [Event.closedir handle]) := by
  rcases h with ⟨hr0, _⟩ | ⟨hr1, D0, e, C, hD, he, hD0, hC⟩
  · exact absurd hr0 hr
  · refine Or.inr ⟨hr1, D0, e, C ++ [Event.closedir handle], by simp [hD], he, hD0,
      fun x hx => ?_⟩
    rcases List.mem_append.mp hx with hx | hx
    · exact hC x hx
    · simp only [List.mem_singleton] at hx
      subst hx; rfl

/-- The calls of a successful call report no failure. -/
theorem Outcome_success (D : List Event) (h : Outcome 0 D) : ∀ e ∈ D, e.isFailure = false := by
  rcases h with ⟨_, hD⟩ | ⟨hr, _⟩
  · exact hD
  · exact absurd rfl hr

/-- The entry loop started with `i_return` at `VLC_SUCCESS`: what it returns
and what it logs are related by `Outcome`, if this holds of the callee. -/
theorem ReadDir_loop_outcome (w : World) (callee : Args → Sys → Option (Int × Sys))
    (hcallee : ∀ a s r s1, callee a s = some (r, s1) → ∃ D, s1.log = s.log ++ D ∧ Outcome r D)
    (a : Args) (stself : stat) (exts : List CStr) (entries : List CStr) :
    ∀ (s : Sys) (r : Int) (s1 : Sys),
      ReadDir_loop w callee a stself exts VLC_SUCCESS entries s = some (r, s1) →
      ∃ D, s1.log = s.log ++ D ∧ Outcome r D := by
  induction entries with
  | nil =>
    intro s r s1 h
    simp only [ReadDir_loop, Option.some.injEq, Prod.mk.injEq] at h
    exact ⟨[], by rw [← h.2]; simp, by rw [← h.1]; exact Outcome_nil⟩
  | cons entry rest ih =>
    intro s r s1
    by_cases hvis : entry.head? = some '.'
    · rw [ReadDir_loop_hidden _ _ _ _ _ _ _ _ _ hvis]
      exact ih s r s1
    · by_cases hfile : a.i_mode = MODE_COLLAPSE ∨
          ∃ err, w.utf8_opendir (mk_uri a.psz_name entry) = Except.error err
      · rw [ReadDir_loop_file _ _ _ _ _ _ _ _ _ hvis hfile]
        intro h
        obtain ⟨D, hD, hout⟩ := ih _ r s1 h
        have hO : ∃ O, (∀ e ∈ O, e.isFailure = false) ∧
            ((after_open w a entry s).emit
              (if ignored exts entry then Event.dbg_ignoring (mk_uri a.psz_name entry)
               else Event.BothAddInput (file_scheme ++ mk_uri a.psz_name entry) entry
                 a.p_current_input a.p_parent_category)).log = s.log ++ O := by
          unfold after_open
          by_cases hm : a.i_mode ≠ MODE_COLLAPSE
          · rw [if_pos hm]
            rcases OpenDir_state w (mk_uri a.psz_name entry) s with h1 | ⟨err, h1⟩ | h1 <;>
              rw [h1] <;> by_cases hi : ignored exts entry = true <;>
              simp only [hi, if_true, if_false, Sys.emit, List.append_assoc] <;>
              exact ⟨_, by simp [Event.isFailure], rfl⟩
          · rw [if_neg hm]
            by_cases hi : ignored exts entry = true <;>
              simp only [hi, if_true, if_false, Sys.emit] <;>
              exact ⟨_, by simp [Event.isFailure], rfl⟩
        obtain ⟨O, hO1, hO2⟩ := hO
        exact ⟨O ++ D, by rw [hD, hO2, List.append_assoc], Outcome_before O D r hO1 hout⟩
      · obtain ⟨hc, subdir, hopen⟩ := not_file_opens w a entry hfile
        by_cases hn : a.i_mode = MODE_NONE
        · rw [ReadDir_loop_dir_none _ _ _ _ _ _ _ _ _ subdir hvis hn hopen]
          intro h
          obtain ⟨D, hD, hout⟩ := ih _ r s1 h
          exact ⟨[Event.dbg_opening (mk_uri a.psz_name entry),
              Event.opendir (mk_uri a.psz_name entry),
              Event.dbg_skipping (mk_uri a.psz_name entry), Event.closedir subdir] ++ D,
            by rw [hD, List.append_assoc],
            Outcome_before _ D r (by simp [Event.isFailure]) hout⟩
        · rw [ReadDir_loop_dir_expand _ _ _ _ _ _ _ _ _ subdir hvis hc hn hopen]
          cases hcall : callee (sub_args a stself entry subdir (playlist_item_t.created s.i_nodes))
              (sub_start a entry s) with
          | none => simp
          | some q =>
            obtain ⟨r1, s2⟩ := q
            obtain ⟨D1, hD1, hout1⟩ := hcallee _ _ _ _ hcall
            have hpre : ∀ e ∈ [Event.dbg_opening (mk_uri a.psz_name entry),
                Event.opendir (mk_uri a.psz_name entry),
                Event.dbg_creating (mk_uri a.psz_name entry),
                Event.NodeCreate entry a.p_parent_category (playlist_item_t.created s.i_nodes)],
                e.isFailure = false := by
              simp [Event.isFailure]
            by_cases hr : r1 ≠ 0
            · simp only [if_pos hr, Option.some.injEq, Prod.mk.injEq]
              rintro ⟨rfl, rfl⟩
              refine ⟨[Event.dbg_opening (mk_uri a.psz_name entry),
                  Event.opendir (mk_uri a.psz_name entry),
                  Event.dbg_creating (mk_uri a.psz_name entry),
                  Event.NodeCreate entry a.p_parent_category
                    (playlist_item_t.created s.i_nodes)] ++ (D1 ++ [Event.closedir subdir]), ?_,
                Outcome_before _ _ r1 hpre (Outcome_close D1 r1 subdir hr hout1)⟩
              simp [Sys.emit, hD1, sub_start]
            · simp only [if_neg hr]
              have hr0 : r1 = 0 := by simpa using hr
              subst hr0
              intro h
              obtain ⟨D2, hD2, hout2⟩ := ih _ r s1 h
              refine ⟨[Event.dbg_opening (mk_uri a.psz_name entry),
                  Event.opendir (mk_uri a.psz_name entry),
                  Event.dbg_creating (mk_uri a.psz_name entry),
                  Event.NodeCreate entry a.p_parent_category
                    (playlist_item_t.created s.i_nodes)] ++
                  (D1 ++ (Event.closedir subdir :: D2)), ?_,
                Outcome_before _ _ r hpre (Outcome_before D1 _ r (Outcome_success D1 hout1)
                  (Outcome_before [Event.closedir subdir] D2 r
                    (by simp [Event.isFailure]) hout2))⟩
              rw [hD2]
              simp [Sys.emit, hD1, sub_start]

/-- What a call of `ReadDir` returns and what it logs are related by
`Outcome`. -/
theorem ReadDir_outcome (w : World) (fuel : Nat) :
    ∀ (a : Args) (s : Sys) (r : Int) (s1 : Sys), ReadDir w fuel a s = some (r, s1) →
      ∃ D, s1.log = s.log ++ D ∧ Outcome r D := by
  induction fuel with
  | zero => intro a s r s1 h; simp [ReadDir] at h
  | succ fuel ih =>
    intro a s r s1 h
    have hfail : ∀ (O : List Event) (e : Event), (∀ x ∈ O, x.isFailure = false) →
        e.isFailure = true → Outcome VLC_EGENERIC (O ++ [e]) := by
      intro O e hO he
      exact Or.inr ⟨by decide, O, e, [], rfl, he, hO, fun x hx => by simp at hx⟩
    rcases ReadDir_succ_cases w fuel a s with ⟨_, hR⟩ | ⟨st, _, _, hR⟩
    · rw [hR] at h
      simp only [Option.some.injEq, Prod.mk.injEq] at h
      obtain ⟨rfl, rfl⟩ := h
      exact ⟨[Event.err_cannot_stat a.psz_name], rfl,
        hfail [] _ (fun x hx => by simp at hx) rfl⟩
    · rcases hR with ⟨_, hR⟩ | ⟨_, _, hR⟩ | ⟨_, _, hR⟩ | ⟨_, e, es, exts, _, _, hR⟩
      · rw [hR] at h
        simp only [Option.some.injEq, Prod.mk.injEq] at h
        obtain ⟨rfl, rfl⟩ := h
        exact ⟨[Event.warn_recursive a.psz_name], rfl,
          Or.inl ⟨rfl, by simp [Event.isFailure]⟩⟩
      · rw [hR] at h
        simp only [Option.some.injEq, Prod.mk.injEq] at h
        obtain ⟨rfl, rfl⟩ := h
        exact ⟨[Event.loaddir a.handle, Event.err_cannot_read a.psz_name],
          by simp [Sys.emit], hfail [Event.loaddir a.handle] _ (by simp [Event.isFailure]) rfl⟩
      · rw [hR] at h
        simp only [Option.some.injEq, Prod.mk.injEq] at h
        obtain ⟨rfl, rfl⟩ := h
        exact ⟨[Event.loaddir a.handle, Event.dbg_empty a.psz_name],
          by simp [Sys.emit], Or.inl ⟨rfl, by simp [Event.isFailure]⟩⟩
      · rw [hR] at h
        obtain ⟨D, hD, hout⟩ := ReadDir_loop_outcome w (ReadDir w fuel) ih a st exts (e :: es)
          _ r s1 h
        exact ⟨Event.loaddir a.handle :: D, by rw [hD]; simp [Sys.emit],
          Outcome_before [Event.loaddir a.handle] D r (by simp [Event.isFailure]) hout⟩

/-- C11: if the recursive call made for an entry returns a code `c` other than
`VLC_SUCCESS`, the entry loop closes the handle and returns `c` at once,
whatever entries remain (none of them is opened, no node or leaf is added for
them), keeping everything logged so far; and for every call of `ReadDir`, at
any depth: the log of its start is a prefix of the log it returns, it returns a
code other than `VLC_SUCCESS` exactly when a call at some depth reported a
failure, and after that report the only calls made are `closedir`s, so every
enclosing call returned without processing a further entry. -/
theorem C11_fail_fast (w : World) :
    (∀ (callee : Args → Sys → Option (Int × Sys)) (a : Args) (stself : stat)
      (exts : List CStr) (i_return : Int) (entry : CStr) (rest : List CStr) (s : Sys)
      (subdir : DIR) (c : Int) (s1 : Sys),
      entry.head? ≠ some '.' → a.i_mode = MODE_EXPAND →
      w.utf8_opendir (mk_uri a.psz_name entry) = Except.ok subdir →
      callee (sub_args a stself entry subdir (playlist_item_t.created s.i_nodes))
        (sub_start a entry s) = some (c, s1) →
      c ≠ VLC_SUCCESS →
      ReadDir_loop w callee a stself exts i_return (entry :: rest) s =
        some (c, { log := s1.log ++ [Event.closedir subdir], i_nodes := s1.i_nodes })) ∧
    (∀ (fuel : Nat) (a : Args) (s : Sys) (r : Int) (s1 : Sys),
      ReadDir w fuel a s = some (r, s1) →
      ∃ D, s1.log = s.log ++ D ∧
        ((r = VLC_SUCCESS ∧ ∀ e ∈ D, e.isFailure = false) ∨
         (r ≠ VLC_SUCCESS ∧ ∃ D0 e C, D = D0 ++ e :: C ∧ e.isFailure = true ∧
           (∀ x ∈ D0, x.isFailure = false) ∧ ∀ x ∈ C, x.isClose = true))) := by
  refine ⟨?_, fun fuel a s r s1 h => ReadDir_outcome w fuel a s r s1 h⟩
  intro callee a stself exts i_return entry rest s subdir c s1 hvis hm hopen hcall hc
  rw [ReadDir_loop_dir_expand _ _ _ _ _ _ _ _ _ subdir hvis (by rw [hm]; decide)
    (by rw [hm]; decide) hopen, hcall]
  have hc0 : c ≠ 0 := hc
  simp [hc0, Sys.emit]

/-- C11 (witness): in `world_failfast` the recursive call for `d` returns
`VLC_EGENERIC`; the loop returns it without touching `x.mp3`, and so does the
call of `ReadDir` for `/m`. -/
theorem C11_fail_fast_witness :
    ReadDir_loop world_failfast (ReadDir world_failfast 1) (args_m MODE_EXPAND)
        { st_ino := 100, st_dev := 1 } ["db".toList] VLC_SUCCESS
        ["d".toList, "x.mp3".toList] Sys.init =
      some (VLC_EGENERIC,
        { log := [Event.dbg_opening "/m/d".toList, Event.opendir "/m/d".toList,
            Event.dbg_creating "/m/d".toList,
            Event.NodeCreate "d".toList (some (playlist_item_t.host 1))
              (playlist_item_t.created 0),
            Event.err_cannot_stat "/m/d".toList] ++ [Event.closedir 1]
          i_nodes := 1 }) ∧
    ReadDir world_failfast 2 (args_m MODE_EXPAND) Sys.init =
      some (VLC_EGENERIC,
        { log := [Event.loaddir 0, Event.dbg_opening "/m/d".toList,
            Event.opendir "/m/d".toList, Event.dbg_creating "/m/d".toList,
            Event.NodeCreate "d".toList (some (playlist_item_t.host 1))
              (playlist_item_t.created 0),
            Event.err_cannot_stat "/m/d".toList, Event.closedir 1]
          i_nodes := 1 }) ∧
    ∃ D, [Event.loaddir 0, Event.dbg_opening "/m/d".toList, Event.opendir "/m/d".toList,
          Event.dbg_creating "/m/d".toList,
          Event.NodeCreate "d".toList (some (playlist_item_t.host 1))
            (playlist_item_t.created 0),
          Event.err_cannot_stat "/m/d".toList, Event.closedir 1] = Sys.init.log ++ D ∧
      ((VLC_EGENERIC = VLC_SUCCESS ∧ ∀ e ∈ D, e.isFailure = false) ∨
       (VLC_EGENERIC ≠ VLC_SUCCESS ∧ ∃ D0 e C, D = D0 ++ e :: C ∧ e.isFailure = true ∧
         (∀ x ∈ D0, x.isFailure = false) ∧ ∀ x ∈ C, x.isClose = true)) :=
  ⟨(C11_fail_fast world_failfast).1 (ReadDir world_failfast 1) (args_m MODE_EXPAND)
    { st_ino := 100, st_dev := 1 } ["db".toList] VLC_SUCCESS "d".toList ["x.mp3".toList]
    Sys.init 1 VLC_EGENERIC
    { log := [Event.dbg_opening "/m/d".toList, Event.opendir "/m/d".toList,
        Event.dbg_creating "/m/d".toList,
        Event.NodeCreate "d".toList (some (playlist_item_t.host 1)) (playlist_item_t.created 0),
        Event.err_cannot_stat "/m/d".toList]
      i_nodes := 1 }
    (by decide) rfl (by rfl) (by rfl) (by decide),
   by rfl,
   (C11_fail_fast world_failfast).2 2 (args_m MODE_EXPAND) Sys.init VLC_EGENERIC
    { log := [Event.loaddir 0, Event.dbg_opening "/m/d".toList, Event.opendir "/m/d".toList,
        Event.dbg_creating "/m/d".toList,
        Event.NodeCreate "d".toList (some (playlist_item_t.host 1)) (playlist_item_t.created 0),
        Event.err_cannot_stat "/m/d".toList, Event.closedir 1]
      i_nodes := 1 }
    (by rfl)⟩

/-! ## The URI of a leaf -/

theorem descend_snoc (root : CStr) (ds : List CStr) (d : CStr) :
    descend root (ds ++ [d]) = mk_uri (descend root ds) d := by
  simp [descend, List.foldl_append]

theorem handle_below_snoc (w : World) (ds : List CStr) :
    ∀ (root : CStr) (handle h : DIR) (d : CStr) (subdir : DIR),
      handle_below w root handle ds = some h → d.head? ≠ some '.' →
      w.utf8_opendir (mk_uri (descend root ds) d) = Except.ok subdir →
      handle_below w root handle (ds ++ [d]) = some subdir := by
  induction ds with
  | nil =>
    intro root handle h d subdir _ hvis hopen
    simp only [descend, List.foldl_nil] at hopen
    simp [handle_below, hvis, hopen]
  | cons x xs ih =>
    intro root handle h d subdir hch hvis hopen
    simp only [descend, List.foldl_cons] at hopen
    simp only [handle_below] at hch
    simp only [List.cons_append, handle_below]
    by_cases hx : x.head? = some '.'
    · simp [hx] at hch
    · simp only [hx, if_false] at hch ⊢
      cases hox : w.utf8_opendir (mk_uri root x) with
      | error err => simp [hox] at hch
      | ok sub =>
        simp only [hox] at hch ⊢
        exact ih (mk_uri root x) sub h d subdir hch hvis hopen

theorem found_below_emit (w : World) (exts : List CStr) (root : CStr) (handle : DIR) (s : Sys)
    (e : Event) (h : found_below w exts root handle s.log)
    (he : ∀ psz_uri name i parent, e = Event.BothAddInput psz_uri name i parent →
      ∃ ds h entries, handle_below w root handle ds = some h ∧
        w.utf8_loaddir h = some entries ∧ name ∈ entries ∧ name.head? ≠ some '.' ∧
        ignored exts name = false ∧
        psz_uri = file_scheme ++ (descend root ds ++ '/' :: name)) :
    found_below w exts root handle (s.emit e).log := by
  intro e1 hmem
  simp only [Sys.emit, List.mem_append, List.mem_singleton] at hmem
  rcases hmem with hmem | rfl
  · exact h e1 hmem
  · exact he

theorem found_below_append (w : World) (exts : List CStr) (root : CStr) (handle : DIR)
    (l O : List Event) (h : found_below w exts root handle l)
    (hO : O.filter Event.isLeaf = []) : found_below w exts root handle (l ++ O) := by
  intro e hmem psz_uri name i parent he
  rcases List.mem_append.mp hmem with hm | hm
  · exact h e hm psz_uri name i parent he
  · have : e ∈ O.filter Event.isLeaf := List.mem_filter.mpr ⟨hm, by rw [he]; rfl⟩
    rw [hO] at this
    simp at this

/-- The entry loop of the directory reached from `root` through the chain `ds`
adds only leaves found below `root`, if the callee does so for the directories
one level deeper. -/
theorem ReadDir_loop_found (w : World) (exts : List CStr) (root : CStr) (handle : DIR)
    (callee : Args → Sys → Option (Int × Sys))
    (hcallee : ∀ a s r s1,
      (∃ ds, handle_below w root handle ds = some a.handle ∧ a.psz_name = descend root ds) →
      found_below w exts root handle s.log → callee a s = some (r, s1) →
      found_below w exts root handle s1.log)
    (a : Args) (ds : List CStr) (hds : handle_below w root handle ds = some a.handle)
    (hname : a.psz_name = descend root ds) (stself : stat) (listing : List CStr)
    (hld : w.utf8_loaddir a.handle = some listing) (entries : List CStr) :
    (∀ x ∈ entries, x ∈ listing) →
    ∀ (i_return : Int) (s : Sys) (r : Int) (s1 : Sys), found_below w exts root handle s.log →
      ReadDir_loop w callee a stself exts i_return entries s = some (r, s1) →
      found_below w exts root handle s1.log := by
  induction entries with
  | nil =>
    intro _ i_return s r s1 hs h
    simp only [ReadDir_loop, Option.some.injEq, Prod.mk.injEq] at h
    rw [← h.2]; exact hs
  | cons entry rest ih =>
    intro hsub i_return s r s1 hs
    have hrest : ∀ x ∈ rest, x ∈ listing := fun x hx => hsub x (List.mem_cons_of_mem _ hx)
    have hentry : entry ∈ listing := hsub entry (List.mem_cons_self _ _)
    by_cases hvis : entry.head? = some '.'
    · rw [ReadDir_loop_hidden _ _ _ _ _ _ _ _ _ hvis]
      exact ih hrest i_return s r s1 hs
    · by_cases hfile : a.i_mode = MODE_COLLAPSE ∨
          ∃ err, w.utf8_opendir (mk_uri a.psz_name entry) = Except.error err
      · rw [ReadDir_loop_file _ _ _ _ _ _ _ _ _ hvis hfile]
        apply ih hrest i_return _ r s1
        obtain ⟨O, hO, _, hO2, _, _⟩ := after_open_delta w a entry s
        apply found_below_emit
        · rw [hO]
          exact found_below_append w exts root handle s.log O hs hO2
        · intro psz_uri name i parent he
          by_cases hi : ignored exts entry = true
          · rw [if_pos hi] at he
            simp at he
          · rw [if_neg hi] at he
            simp only [Event.BothAddInput.injEq] at he
            obtain ⟨h1, h2, _, _⟩ := he
            subst h2
            refine ⟨ds, a.handle, listing, hds, hld, hentry, hvis, by simpa using hi, ?_⟩
            rw [← h1, hname]
            rfl
      · obtain ⟨hc, subdir, hopen⟩ := not_file_opens w a entry hfile
        by_cases hn : a.i_mode = MODE_NONE
        · rw [ReadDir_loop_dir_none _ _ _ _ _ _ _ _ _ subdir hvis hn hopen]
          apply ih hrest i_return _ r s1
          exact found_below_append w exts root handle s.log _ hs (by simp [Event.isLeaf])
        · rw [ReadDir_loop_dir_expand _ _ _ _ _ _ _ _ _ subdir hvis hc hn hopen]
          have hstart : found_below w exts root handle (sub_start a entry s).log :=
            found_below_append w exts root handle s.log _ hs (by simp [Event.isLeaf])
          cases hcall : callee (sub_args a stself entry subdir (playlist_item_t.created s.i_nodes))
              (sub_start a entry s) with
          | none => simp
          | some q =>
            obtain ⟨r1, s2⟩ := q
            have hsubdir : ∃ ds2, handle_below w root handle ds2 =
                  some (sub_args a stself entry subdir
                    (playlist_item_t.created s.i_nodes)).handle ∧
                (sub_args a stself entry subdir (playlist_item_t.created s.i_nodes)).psz_name =
                  descend root ds2 := by
              refine ⟨ds ++ [entry],
                handle_below_snoc w ds root handle a.handle entry subdir hds hvis ?_, ?_⟩
              · rw [← hname]; exact hopen
              · simp [sub_args, descend_snoc, hname]
            have h2 := hcallee _ _ _ _ hsubdir hstart hcall
            have h3 : found_below w exts root handle (s2.emit (Event.closedir subdir)).log :=
              found_below_emit w exts root handle s2 _ h2 (by intro _ _ _ _ he; simp at he)
            by_cases hr : r1 ≠ 0
            · simp only [if_pos hr, Option.some.injEq, Prod.mk.injEq]
              rintro ⟨_, rfl⟩
              exact h3
            · simp only [if_neg hr]
              exact ih hrest r1 _ r s1 h3

/-- Every leaf that a call of `ReadDir` on a directory below `root` adds was
found below `root`. -/
theorem ReadDir_found (w : World) (exts : List CStr)
    (hb : build_ignores w.ignore_filetypes = some exts) (root : CStr) (handle : DIR)
    (fuel : Nat) :
    ∀ (a : Args) (s : Sys) (r : Int) (s1 : Sys),
      (∃ ds, handle_below w root handle ds = some a.handle ∧ a.psz_name = descend root ds) →
      found_below w exts root handle s.log → ReadDir w fuel a s = some (r, s1) →
      found_below w exts root handle s1.log := by
  induction fuel with
  | zero => intro a s r s1 _ _ h; simp [ReadDir] at h
  | succ fuel ih =>
    intro a s r s1 hds hs h
    obtain ⟨ds, hch, hname⟩ := hds
    have hmsg : ∀ e : Event, e.isLeaf = false →
        found_below w exts root handle (s.emit e).log := by
      intro e he
      exact found_below_append w exts root handle s.log [e] hs (by simp [List.filter_cons, he])
    have hmsg2 : ∀ e1 e2 : Event, e1.isLeaf = false → e2.isLeaf = false →
        found_below w exts root handle ((s.emit e1).emit e2).log := by
      intro e1 e2 he1 he2
      have := found_below_append w exts root handle s.log [e1, e2] hs
        (by simp [List.filter_cons, he1, he2])
      simpa [Sys.emit] using this
    rcases ReadDir_succ_cases w fuel a s with ⟨_, hR⟩ | ⟨st, _, _, hR⟩
    · rw [hR] at h
      simp only [Option.some.injEq, Prod.mk.injEq] at h
      rw [← h.2]; exact hmsg (Event.err_cannot_stat a.psz_name) rfl
    · rcases hR with ⟨_, hR⟩ | ⟨_, _, hR⟩ | ⟨_, _, hR⟩ | ⟨_, e, es, exts2, hld, hb2, hR⟩
      · rw [hR] at h
        simp only [Option.some.injEq, Prod.mk.injEq] at h
        rw [← h.2]; exact hmsg (Event.warn_recursive a.psz_name) rfl
      · rw [hR] at h
        simp only [Option.some.injEq, Prod.mk.injEq] at h
        rw [← h.2]
        exact hmsg2 (Event.loaddir a.handle) (Event.err_cannot_read a.psz_name) rfl rfl
      · rw [hR] at h
        simp only [Option.some.injEq, Prod.mk.injEq] at h
        rw [← h.2]
        exact hmsg2 (Event.loaddir a.handle) (Event.dbg_empty a.psz_name) rfl rfl
      · rw [hR] at h
        rw [hb] at hb2
        simp only [Option.some.injEq] at hb2
        subst hb2
        exact ReadDir_loop_found w exts root handle (ReadDir w fuel) ih a ds hch hname st
          (e :: es) hld (e :: es) (fun x hx => hx) _ _ r s1
          (hmsg (Event.loaddir a.handle) rfl) h

/-- C16: the iteration of the entry loop on an accepted file entry adds the
leaf whose URI is `file://` followed by the path of the directory, `/` and the
entry, and whose name is the entry. And every leaf that a call of `ReadDir` on
the directory `psz_name` (open as `handle`) adds, at any depth, was found in
the directory reached through a chain `d1`, ..., `dk` of non-hidden names, each
opened by `utf8_opendir` below the previous ones: its name is a non-hidden
entry of the listing of that directory which the ignore array does not drop,
and its URI is `file://psz_name/d1/.../dk/name` for that very chain, where
`psz_name/d1/.../dk` is built by appending `/` and the next name. -/
theorem C16_leaf_uri (w : World) :
    (∀ (callee : Args → Sys → Option (Int × Sys)) (a : Args) (stself : stat)
      (exts : List CStr) (i_return : Int) (entry : CStr) (rest : List CStr) (s : Sys),
      entry.head? ≠ some '.' →
      (a.i_mode = MODE_COLLAPSE ∨
        ∃ err, w.utf8_opendir (mk_uri a.psz_name entry) = Except.error err) →
      ignored exts entry = false →
      ReadDir_loop w callee a stself exts i_return (entry :: rest) s =
        ReadDir_loop w callee a stself exts i_return rest
          ((after_open w a entry s).emit
            (Event.BothAddInput (file_scheme ++ (a.psz_name ++ '/' :: entry)) entry
              a.p_current_input a.p_parent_category))) ∧
    (∀ (exts : List CStr) (fuel : Nat) (a : Args) (s : Sys) (r : Int) (s1 : Sys),
      build_ignores w.ignore_filetypes = some exts → ReadDir w fuel a s = some (r, s1) →
      ∃ D, s1.log = s.log ++ D ∧
        ∀ e ∈ D, ∀ psz_uri name i parent, e = Event.BothAddInput psz_uri name i parent →
          ∃ ds h entries, handle_below w a.psz_name a.handle ds = some h ∧
            w.utf8_loaddir h = some entries ∧ name ∈ entries ∧ name.head? ≠ some '.' ∧
            ignored exts name = false ∧
            psz_uri = file_scheme ++ (descend a.psz_name ds ++ '/' :: name)) ∧
    (∀ root : CStr, descend root [] = root) ∧
    (∀ (root : CStr) (ds : List CStr) (d : CStr),
      descend root (ds ++ [d]) = descend root ds ++ '/' :: d) ∧
    (∀ (root : CStr) (handle : DIR), handle_below w root handle [] = some handle) ∧
    (∀ (root : CStr) (handle h : DIR) (ds : List CStr) (d : CStr) (subdir : DIR),
      handle_below w root handle ds = some h → d.head? ≠ some '.' →
      w.utf8_opendir (descend root ds ++ '/' :: d) = Except.ok subdir →
      handle_below w root handle (ds ++ [d]) = some subdir) := by
  refine ⟨?_, ?_, fun _ => rfl, fun root ds d => descend_snoc root ds d, fun _ _ => rfl,
    fun root handle h ds d subdir hh hvis hopen =>
      handle_below_snoc w ds root handle h d subdir hh hvis hopen⟩
  · intro callee a stself exts i_return entry rest s hvis hfile hi
    rw [ReadDir_loop_file _ _ _ _ _ _ _ _ _ hvis hfile, hi]
    rfl
  · intro exts fuel a s r s1 hb h
    have hs : s = Sys.shift s.log { log := [], i_nodes := s.i_nodes } := by
      simp [Sys.shift]
    rw [hs, ReadDir_shift w fuel] at h
    cases h0 : ReadDir w fuel a { log := [], i_nodes := s.i_nodes } with
    | none => simp [shift_result, h0] at h
    | some p =>
      obtain ⟨r0, s0⟩ := p
      simp only [h0, shift_result, Option.map_some', Option.some.injEq, Prod.mk.injEq] at h
      obtain ⟨_, rfl⟩ := h
      refine ⟨s0.log, by simp [Sys.shift], ?_⟩
      exact ReadDir_found w exts hb a.psz_name a.handle fuel a _ r0 s0 ⟨[], rfl, rfl⟩
        (by intro e he; simp at he) h0

/-- C16 (witness): in `world_tree`, with the ignore array `db`: the leaf of
`b.mp3`, one level below `/m` through `sub`, has the URI
`file:///m/sub/b.mp3`, and `sub` opens as the handle `1`, whose listing holds
`b.mp3`. -/
theorem C16_leaf_uri_witness :
    build_ignores world_tree.ignore_filetypes = some ["db".toList] ∧
    handle_below world_tree "/m".toList 0 ["sub".toList] = some 1 ∧
    world_tree.utf8_loaddir 1 = some ["b.mp3".toList] ∧
    ∃ D, ({ log := [Event.loaddir 0, Event.dbg_opening "/m/a.mp3".toList,
            Event.opendir "/m/a.mp3".toList, Event.dbg_nondir "/m/a.mp3".toList,
            Event.BothAddInput "file:///m/a.mp3".toList "a.mp3".toList (some 0)
              (some (playlist_item_t.host 1)),
            Event.dbg_opening "/m/sub".toList, Event.opendir "/m/sub".toList,
            Event.dbg_creating "/m/sub".toList,
            Event.NodeCreate "sub".toList (some (playlist_item_t.host 1))
              (playlist_item_t.created 0),
            Event.loaddir 1, Event.dbg_opening "/m/sub/b.mp3".toList,
            Event.opendir "/m/sub/b.mp3".toList, Event.dbg_nondir "/m/sub/b.mp3".toList,
            Event.BothAddInput "file:///m/sub/b.mp3".toList "b.mp3".toList (some 0)
              (some (playlist_item_t.created 0)),
            Event.closedir 1],
              i_nodes := 1 } : Sys).log = Sys.init.log ++ D ∧
      ∀ e ∈ D, ∀ psz_uri name i parent, e = Event.BothAddInput psz_uri name i parent →
        ∃ ds h entries,
          handle_below world_tree (args_m MODE_EXPAND).psz_name (args_m MODE_EXPAND).handle ds =
            some h ∧
          world_tree.utf8_loaddir h = some entries ∧ name ∈ entries ∧
          name.head? ≠ some '.' ∧ ignored ["db".toList] name = false ∧
          psz_uri = file_scheme ++ (descend (args_m MODE_EXPAND).psz_name ds ++ '/' :: name) :=
  ⟨by decide, rfl, rfl,
    (C16_leaf_uri world_tree).2.1 ["db".toList] 2 (args_m MODE_EXPAND) Sys.init VLC_SUCCESS _
      (by decide) (by decide)⟩

/-! ## The scenarios -/

/-- C17: root `/m` holding `a.mp3`, `.hidden.mp3` and the directory `sub` with
`b.mp3`, `ignore-filetypes` configured as `db`, mode `MODE_EXPAND`, for each of
the positions the collation may give `.hidden.mp3` in the listing and any fuel
from 2 on: `ReadDir` returns `VLC_SUCCESS`; the children of the node of `/m`
are the leaf `a.mp3` followed by the node `sub`, whose only child is the leaf
`b.mp3`; and these are all the nodes and leaves created, so `.hidden.mp3` is
absent. -/
theorem C17_scenario_expand (listing : List CStr)
    (hl : listing ∈ [[".hidden.mp3".toList, "a.mp3".toList, "sub".toList],
      ["a.mp3".toList, ".hidden.mp3".toList, "sub".toList],
      ["a.mp3".toList, "sub".toList, ".hidden.mp3".toList]]) (k : Nat) :
    ∃ s : Sys, ReadDir (world_scenario listing ["b.mp3".toList] "db".toList) (2 + k)
        (args_m MODE_EXPAND) Sys.init = some (VLC_SUCCESS, s) ∧
      children_of s.log (some (playlist_item_t.host 1)) =
        [PlTree.leaf "file:///m/a.mp3".toList "a.mp3".toList,
         PlTree.node "sub".toList [PlTree.leaf "file:///m/sub/b.mp3".toList "b.mp3".toList]] ∧
      s.log.filter (fun e => e.isNode || e.isLeaf) =
        [Event.BothAddInput "file:///m/a.mp3".toList "a.mp3".toList (some 0)
           (some (playlist_item_t.host 1)),
         Event.NodeCreate "sub".toList (some (playlist_item_t.host 1))
           (playlist_item_t.created 0),
         Event.BothAddInput "file:///m/sub/b.mp3".toList "b.mp3".toList (some 0)
           (some (playlist_item_t.created 0))] := by
  have key : ∀ l : List CStr,
      (ReadDir (world_scenario l ["b.mp3".toList] "db".toList) 2 (args_m MODE_EXPAND)
        Sys.init).map (fun p => (p.1, children_of p.2.log (some (playlist_item_t.host 1)),
          p.2.log.filter (fun e => e.isNode || e.isLeaf))) =
        some (VLC_SUCCESS,
          [PlTree.leaf "file:///m/a.mp3".toList "a.mp3".toList,
           PlTree.node "sub".toList
             [PlTree.leaf "file:///m/sub/b.mp3".toList "b.mp3".toList]],
          [Event.BothAddInput "file:///m/a.mp3".toList "a.mp3".toList (some 0)
             (some (playlist_item_t.host 1)),
           Event.NodeCreate "sub".toList (some (playlist_item_t.host 1))
             (playlist_item_t.created 0),
           Event.BothAddInput "file:///m/sub/b.mp3".toList "b.mp3".toList (some 0)
             (some (playlist_item_t.created 0))]) →
      ∃ s : Sys, ReadDir (world_scenario l ["b.mp3".toList] "db".toList) (2 + k)
          (args_m MODE_EXPAND) Sys.init = some (VLC_SUCCESS, s) ∧
        children_of s.log (some (playlist_item_t.host 1)) =
          [PlTree.leaf "file:///m/a.mp3".toList "a.mp3".toList,
           PlTree.node "sub".toList
             [PlTree.leaf "file:///m/sub/b.mp3".toList "b.mp3".toList]] ∧
        s.log.filter (fun e => e.isNode || e.isLeaf) =
          [Event.BothAddInput "file:///m/a.mp3".toList "a.mp3".toList (some 0)
             (some (playlist_item_t.host 1)),
           Event.NodeCreate "sub".toList (some (playlist_item_t.host 1))
             (playlist_item_t.created 0),
           Event.BothAddInput "file:///m/sub/b.mp3".toList "b.mp3".toList (some 0)
             (some (playlist_item_t.created 0))] := by
    intro l hmap
    cases h2 : ReadDir (world_scenario l ["b.mp3".toList] "db".toList) 2 (args_m MODE_EXPAND)
        Sys.init with
    | none => rw [h2] at hmap; simp at hmap
    | some p =>
      rw [h2] at hmap
      simp only [Option.map_some', Option.some.injEq, Prod.mk.injEq] at hmap
      obtain ⟨r, s⟩ := p
      obtain ⟨h1, h3, h4⟩ := hmap
      simp only at h1 h3 h4
      subst h1
      exact ⟨s, ReadDir_fuel_mono _ 2 k _ _ _ h2, h3, h4⟩
  simp only [List.mem_cons, List.mem_singleton, List.not_mem_nil, or_false] at hl
  rcases hl with rfl | rfl | rfl
  · exact key _ (by rfl)
  · exact key _ (by rfl)
  · exact key _ (by rfl)

/-- C17 (witness): the scenario with `.hidden.mp3` first in the listing and
fuel 2. -/
theorem C17_scenario_expand_witness :
    ∃ s : Sys, ReadDir (world_scenario [".hidden.mp3".toList, "a.mp3".toList, "sub".toList]
          ["b.mp3".toList] "db".toList) (2 + 0) (args_m MODE_EXPAND) Sys.init =
        some (VLC_SUCCESS, s) ∧
      children_of s.log (some (playlist_item_t.host 1)) =
        [PlTree.leaf "file:///m/a.mp3".toList "a.mp3".toList,
         PlTree.node "sub".toList [PlTree.leaf "file:///m/sub/b.mp3".toList "b.mp3".toList]] ∧
      s.log.filter (fun e => e.isNode || e.isLeaf) =
        [Event.BothAddInput "file:///m/a.mp3".toList "a.mp3".toList (some 0)
           (some (playlist_item_t.host 1)),
         Event.NodeCreate "sub".toList (some (playlist_item_t.host 1))
           (playlist_item_t.created 0),
         Event.BothAddInput "file:///m/sub/b.mp3".toList "b.mp3".toList (some 0)
           (some (playlist_item_t.created 0))] :=
  C17_scenario_expand _ (by decide) 0

/-- C18 (code at the failing input): root `/m` holding only `x.db`, with
`ignore-filetypes` configured as `db`: the ignore array built is empty and, in
every mode, `ReadDir` adds the leaf `x.db` under the node of `/m`, which
therefore has one child; with the configuration `db,` the array holds `db` and
the node of `/m` has no child. -/
theorem C18_x_db_is_added :
    build_ignores (some "db".toList) = some [] ∧
    (∀ i_mode : Mode, ∃ s : Sys,
      ReadDir (world_scenario ["x.db".toList] [] "db".toList) 1 (args_m i_mode) Sys.init =
        some (VLC_SUCCESS, s) ∧
      children_of s.log (some (playlist_item_t.host 1)) =
        [PlTree.leaf "file:///m/x.db".toList "x.db".toList]) ∧
    (∀ i_mode : Mode, ∃ s : Sys,
      ReadDir (world_scenario ["x.db".toList] [] "db,".toList) 1 (args_m i_mode) Sys.init =
        some (VLC_SUCCESS, s) ∧
      children_of s.log (some (playlist_item_t.host 1)) = []) := by
  refine ⟨by decide, fun i_mode => ?_, fun i_mode => ?_⟩
  · cases i_mode
    · exact ⟨_, by rfl, by rfl⟩
    · exact ⟨_, by rfl, by rfl⟩
    · exact ⟨_, by rfl, by rfl⟩
  · cases i_mode
    · exact ⟨_, by rfl, by rfl⟩
    · exact ⟨_, by rfl, by rfl⟩
    · exact ⟨_, by rfl, by rfl⟩

/-! ## Directory handles -/

theorem handle_stack_append (w : World) (A B : List Event) :
    ∀ st, handle_stack w (A ++ B) st = (handle_stack w A st).bind (handle_stack w B) := by
  induction A with
  | nil => intro st; simp [handle_stack]
  | cons e A ih =>
    intro st
    rw [List.cons_append]
    cases e
    case opendir path =>
      simp only [handle_stack]
      cases w.utf8_opendir path
      · exact ih st
      · exact ih _
    case closedir handle =>
      cases st with
      | nil => simp [handle_stack]
      | cons top below =>
        simp only [handle_stack]
        by_cases ht : top = handle
        · rw [if_pos ht, if_pos ht]; exact ih below
        · rw [if_neg ht, if_neg ht]; rfl
    all_goals (simp only [handle_stack]; exact ih st)

theorem Balanced_nil (w : World) : Balanced w [] := fun _ => rfl

theorem Balanced_append (w : World) (A B : List Event) (hA : Balanced w A)
    (hB : Balanced w B) : Balanced w (A ++ B) := by
  intro st
  rw [handle_stack_append, hA st]
  exact hB st

/-- An opened handle, balanced calls, and the `closedir` of the handle. -/
theorem Balanced_bracket (w : World) (path : CStr) (handle : DIR) (M : List Event)
    (hopen : w.utf8_opendir path = Except.ok handle) (hM : Balanced w M) :
    Balanced w (Event.opendir path :: (M ++ [Event.closedir handle])) := by
  intro st
  simp only [handle_stack, hopen]
  rw [handle_stack_append, hM (handle :: st)]
  simp [handle_stack]

/-- The open attempt on an entry handled as a file opens nothing. -/
theorem after_open_balanced (w : World) (a : Args) (entry : CStr) (s : Sys)
    (hfile : a.i_mode = MODE_COLLAPSE ∨
      ∃ err, w.utf8_opendir (mk_uri a.psz_name entry) = Except.error err) :
    ∃ O, after_open w a entry s = { log := s.log ++ O, i_nodes := s.i_nodes } ∧
      Balanced w O ∧ stack_within w 1 O [] = true := by
  unfold after_open
  by_cases hm : a.i_mode ≠ MODE_COLLAPSE
  · rw [if_pos hm]
    rcases hfile with h | ⟨err, herr⟩
    · exact absurd h hm
    · rcases OpenDir_state w (mk_uri a.psz_name entry) s with h | ⟨e2, h⟩ | h
      · exact ⟨_, h, by intro st; simp [handle_stack, herr], by simp [stack_within, herr]⟩
      · exact ⟨_, h, by intro st; simp [handle_stack, herr], by simp [stack_within, herr]⟩
      · exact ⟨_, h, by intro st; simp [handle_stack, herr], by simp [stack_within, herr]⟩
  · rw [if_neg hm]
    exact ⟨[], by simp, Balanced_nil w, by simp [stack_within]⟩

/-- The entry loop closes every handle it opens, if the callee does. -/
theorem ReadDir_loop_balanced (w : World) (callee : Args → Sys → Option (Int × Sys))
    (hcallee : ∀ a s r s1, callee a s = some (r, s1) → ∃ D, s1.log = s.log ++ D ∧ Balanced w D)
    (a : Args) (stself : stat) (exts : List CStr) (entries : List CStr) :
    ∀ (i_return : Int) (s : Sys) (r : Int) (s1 : Sys),
      ReadDir_loop w callee a stself exts i_return entries s = some (r, s1) →
      ∃ D, s1.log = s.log ++ D ∧ Balanced w D := by
  induction entries with
  | nil =>
    intro i_return s r s1 h
    simp only [ReadDir_loop, Option.some.injEq, Prod.mk.injEq] at h
    exact ⟨[], by rw [← h.2]; simp, Balanced_nil w⟩
  | cons entry rest ih =>
    intro i_return s r s1
    by_cases hvis : entry.head? = some '.'
    · rw [ReadDir_loop_hidden _ _ _ _ _ _ _ _ _ hvis]
      exact ih i_return s r s1
    · by_cases hfile : a.i_mode = MODE_COLLAPSE ∨
          ∃ err, w.utf8_opendir (mk_uri a.psz_name entry) = Except.error err
      · rw [ReadDir_loop_file _ _ _ _ _ _ _ _ _ hvis hfile]
        obtain ⟨O, hO, hOb, _⟩ := after_open_balanced w a entry s hfile
        rw [hO]
        intro h
        obtain ⟨D, hD, hDb⟩ := ih _ _ r s1 h
        have hX : Balanced w [if ignored exts entry = true then
            Event.dbg_ignoring (mk_uri a.psz_name entry)
            else Event.BothAddInput (file_scheme ++ mk_uri a.psz_name entry) entry
              a.p_current_input a.p_parent_category] := by
          intro st
          by_cases hi : ignored exts entry = true <;> simp [hi, handle_stack]
        refine ⟨O ++ ([_] ++ D), ?_, Balanced_append w O _ hOb (Balanced_append w _ D hX hDb)⟩
        rw [hD]
        simp [Sys.emit]
      · obtain ⟨hc, subdir, hopen⟩ := not_file_opens w a entry hfile
        by_cases hn : a.i_mode = MODE_NONE
        · rw [ReadDir_loop_dir_none _ _ _ _ _ _ _ _ _ subdir hvis hn hopen]
          intro h
          obtain ⟨D, hD, hDb⟩ := ih _ _ r s1 h
          refine ⟨[Event.dbg_opening (mk_uri a.psz_name entry),
              Event.opendir (mk_uri a.psz_name entry),
              Event.dbg_skipping (mk_uri a.psz_name entry), Event.closedir subdir] ++ D,
            by rw [hD, List.append_assoc], Balanced_append w _ D ?_ hDb⟩
          intro st
          simp [handle_stack, hopen]
        · rw [ReadDir_loop_dir_expand _ _ _ _ _ _ _ _ _ subdir hvis hc hn hopen]
          cases hcall : callee (sub_args a stself entry subdir (playlist_item_t.created s.i_nodes))
              (sub_start a entry s) with
          | none => simp
          | some q =>
            obtain ⟨r1, s2⟩ := q
            obtain ⟨D1, hD1, hD1b⟩ := hcallee _ _ _ _ hcall
            have hblock : Balanced w ([Event.dbg_opening (mk_uri a.psz_name entry)] ++
                Event.opendir (mk_uri a.psz_name entry) ::
                  (([Event.dbg_creating (mk_uri a.psz_name entry),
                    Event.NodeCreate entry a.p_parent_category
                      (playlist_item_t.created s.i_nodes)] ++ D1) ++
                    [Event.closedir subdir])) := by
              apply Balanced_append w _ _ (by intro st; simp [handle_stack])
              apply Balanced_bracket w _ subdir _ hopen
              exact Balanced_append w _ D1 (by intro st; simp [handle_stack]) hD1b
            by_cases hr : r1 ≠ 0
            · simp only [if_pos hr, Option.some.injEq, Prod.mk.injEq]
              rintro ⟨_, rfl⟩
              refine ⟨_, ?_, hblock⟩
              simp [Sys.emit, hD1, sub_start]
            · simp only [if_neg hr]
              intro h
              obtain ⟨D2, hD2, hD2b⟩ := ih _ _ r s1 h
              refine ⟨_, ?_, Balanced_append w _ D2 hblock hD2b⟩
              rw [hD2]
              simp [Sys.emit, hD1, sub_start]

/-- Every call of `ReadDir` closes every handle it opens. -/
theorem ReadDir_balanced (w : World) (fuel : Nat) :
    ∀ (a : Args) (s : Sys) (r : Int) (s1 : Sys), ReadDir w fuel a s = some (r, s1) →
      ∃ D, s1.log = s.log ++ D ∧ Balanced w D := by
  induction fuel with
  | zero => intro a s r s1 h; simp [ReadDir] at h
  | succ fuel ih =>
    intro a s r s1 h
    rcases ReadDir_succ_cases w fuel a s with ⟨_, hR⟩ | ⟨st, _, _, hR⟩
    · rw [hR] at h
      simp only [Option.some.injEq, Prod.mk.injEq] at h
      exact ⟨[Event.err_cannot_stat a.psz_name], by rw [← h.2]; rfl,
        by intro st; simp [handle_stack]⟩
    · rcases hR with ⟨_, hR⟩ | ⟨_, _, hR⟩ | ⟨_, _, hR⟩ | ⟨_, e, es, exts, _, _, hR⟩
      · rw [hR] at h
        simp only [Option.some.injEq, Prod.mk.injEq] at h
        exact ⟨[Event.warn_recursive a.psz_name], by rw [← h.2]; rfl,
          by intro st; simp [handle_stack]⟩
      · rw [hR] at h
        simp only [Option.some.injEq, Prod.mk.injEq] at h
        exact ⟨[Event.loaddir a.handle, Event.err_cannot_read a.psz_name],
          by rw [← h.2]; simp [Sys.emit], by intro st; simp [handle_stack]⟩
      · rw [hR] at h
        simp only [Option.some.injEq, Prod.mk.injEq] at h
        exact ⟨[Event.loaddir a.handle, Event.dbg_empty a.psz_name],
          by rw [← h.2]; simp [Sys.emit], by intro st; simp [handle_stack]⟩
      · rw [hR] at h
        obtain ⟨D, hD, hDb⟩ := ReadDir_loop_balanced w (ReadDir w fuel) ih a st exts (e :: es)
          _ _ r s1 h
        exact ⟨[Event.loaddir a.handle] ++ D, by rw [hD]; simp [Sys.emit],
          Balanced_append w _ D (by intro st; simp [handle_stack]) hDb⟩

theorem stack_within_append (w : World) (n : Nat) (A B : List Event) :
    ∀ st st1, stack_within w n A st = true → handle_stack w A st = some st1 →
      stack_within w n B st1 = true → stack_within w n (A ++ B) st = true := by
  induction A with
  | nil =>
    intro st st1 _ h hB
    simp only [handle_stack, Option.some.injEq] at h
    subst h
    simpa using hB
  | cons e A ih =>
    intro st st1 hA h hB
    rw [List.cons_append]
    cases e
    case opendir path =>
      simp only [stack_within, handle_stack, Bool.and_eq_true] at hA h ⊢
      refine ⟨hA.1, ?_⟩
      cases ho : w.utf8_opendir path with
      | error err =>
        rw [ho] at hA h
        exact ih _ _ hA.2 h hB
      | ok handle =>
        rw [ho] at hA h
        exact ih _ _ hA.2 h hB
    case closedir handle =>
      cases st with
      | nil => simp [stack_within] at hA
      | cons top below =>
        simp only [stack_within, handle_stack, Bool.and_eq_true, decide_eq_true_eq] at hA h ⊢
        obtain ⟨hlen, htop, hA2⟩ := hA
        rw [if_pos htop] at h
        exact ⟨hlen, htop, ih _ _ hA2 h hB⟩
    all_goals
      simp only [stack_within, handle_stack, Bool.and_eq_true] at hA h ⊢
      exact ⟨hA.1, ih _ _ hA.2 h hB⟩

/-- The calls of one frame: with a callee that makes no call of its own, the
entry loop returns, and at no moment more than one handle is open. -/
theorem ReadDir_loop_frame (w : World) (ret : Args → Int) (a : Args) (stself : stat)
    (exts : List CStr) (entries : List CStr) :
    ∀ (i_return : Int) (s : Sys), ∃ r s1 D,
      ReadDir_loop w (silent_callee ret) a stself exts i_return entries s = some (r, s1) ∧
      s1.log = s.log ++ D ∧ stack_within w 1 D [] = true ∧ handle_stack w D [] = some [] := by
  induction entries with
  | nil =>
    intro i_return s
    exact ⟨i_return, s, [], by simp [ReadDir_loop], by simp, by simp [stack_within], rfl⟩
  | cons entry rest ih =>
    intro i_return s
    by_cases hvis : entry.head? = some '.'
    · rw [ReadDir_loop_hidden _ _ _ _ _ _ _ _ _ hvis]
      exact ih i_return s
    · by_cases hfile : a.i_mode = MODE_COLLAPSE ∨
          ∃ err, w.utf8_opendir (mk_uri a.psz_name entry) = Except.error err
      · rw [ReadDir_loop_file _ _ _ _ _ _ _ _ _ hvis hfile]
        obtain ⟨O, hO, hOb, hOw⟩ := after_open_balanced w a entry s hfile
        rw [hO]
        obtain ⟨r, s1, D, h, hD, hDw, hDb⟩ := ih i_return
          (Sys.emit { log := s.log ++ O, i_nodes := s.i_nodes }
            (if ignored exts entry = true then Event.dbg_ignoring (mk_uri a.psz_name entry)
             else Event.BothAddInput (file_scheme ++ mk_uri a.psz_name entry) entry
               a.p_current_input a.p_parent_category))
        have hXw : stack_within w 1 ([if ignored exts entry = true then
            Event.dbg_ignoring (mk_uri a.psz_name entry)
            else Event.BothAddInput (file_scheme ++ mk_uri a.psz_name entry) entry
              a.p_current_input a.p_parent_category] ++ D) [] = true := by
          apply stack_within_append w 1 _ D [] [] _ _ hDw
          · by_cases hi : ignored exts entry = true <;> simp [hi, stack_within]
          · by_cases hi : ignored exts entry = true <;> simp [hi, handle_stack]
        have hXb : handle_stack w ([if ignored exts entry = true then
            Event.dbg_ignoring (mk_uri a.psz_name entry)
            else Event.BothAddInput (file_scheme ++ mk_uri a.psz_name entry) entry
              a.p_current_input a.p_parent_category] ++ D) [] = some [] := by
          rw [handle_stack_append]
          by_cases hi : ignored exts entry = true <;> simp [hi, handle_stack, hDb]
        refine ⟨r, s1, O ++ ([_] ++ D), h, ?_,
          stack_within_append w 1 O _ [] [] hOw (hOb []) hXw, ?_⟩
        · rw [hD]; simp [Sys.emit]
        · rw [handle_stack_append, hOb []]
          exact hXb
      · obtain ⟨hc, subdir, hopen⟩ := not_file_opens w a entry hfile
        by_cases hn : a.i_mode = MODE_NONE
        · rw [ReadDir_loop_dir_none _ _ _ _ _ _ _ _ _ subdir hvis hn hopen]
          obtain ⟨r, s1, D, h, hD, hDw, hDb⟩ := ih i_return
            { log := s.log ++ [Event.dbg_opening (mk_uri a.psz_name entry),
                Event.opendir (mk_uri a.psz_name entry),
                Event.dbg_skipping (mk_uri a.psz_name entry), Event.closedir subdir]
              i_nodes := s.i_nodes }
          refine ⟨r, s1, [Event.dbg_opening (mk_uri a.psz_name entry),
              Event.opendir (mk_uri a.psz_name entry),
              Event.dbg_skipping (mk_uri a.psz_name entry), Event.closedir subdir] ++ D,
            h, by rw [hD, List.append_assoc], ?_, ?_⟩
          · exact stack_within_append w 1 _ D [] [] (by simp [stack_within, hopen])
              (by simp [handle_stack, hopen]) hDw
          · rw [handle_stack_append]
            simp [handle_stack, hopen, hDb]
        · rw [ReadDir_loop_dir_expand _ _ _ _ _ _ _ _ _ subdir hvis hc hn hopen]
          simp only [silent_callee]
          have hblockw : stack_within w 1 [Event.dbg_opening (mk_uri a.psz_name entry),
              Event.opendir (mk_uri a.psz_name entry),
              Event.dbg_creating (mk_uri a.psz_name entry),
              Event.NodeCreate entry a.p_parent_category (playlist_item_t.created s.i_nodes),
              Event.closedir subdir] [] = true := by
            simp [stack_within, hopen]
          have hblockb : handle_stack w [Event.dbg_opening (mk_uri a.psz_name entry),
              Event.opendir (mk_uri a.psz_name entry),
              Event.dbg_creating (mk_uri a.psz_name entry),
              Event.NodeCreate entry a.p_parent_category (playlist_item_t.created s.i_nodes),
              Event.closedir subdir] [] = some [] := by
            simp [handle_stack, hopen]
          by_cases hr : ret (sub_args a stself entry subdir
              (playlist_item_t.created s.i_nodes)) ≠ 0
          · rw [if_pos hr]
            exact ⟨_, _, _, rfl, by simp [Sys.emit, sub_start], hblockw, hblockb⟩
          · rw [if_neg hr]
            obtain ⟨r, s1, D, h, hD, hDw, hDb⟩ := ih
              (ret (sub_args a stself entry subdir (playlist_item_t.created s.i_nodes)))
              ((sub_start a entry s).emit (Event.closedir subdir))
            refine ⟨r, s1, [Event.dbg_opening (mk_uri a.psz_name entry),
                Event.opendir (mk_uri a.psz_name entry),
                Event.dbg_creating (mk_uri a.psz_name entry),
                Event.NodeCreate entry a.p_parent_category (playlist_item_t.created s.i_nodes),
                Event.closedir subdir] ++ D, h, ?_,
              stack_within_append w 1 _ D [] [] hblockw hblockb hDw, ?_⟩
            · rw [hD]; simp [Sys.emit, sub_start]
            · rw [handle_stack_append, hblockb]
              exact hDb

/-- C19: in every execution of `ReadDir`, whatever code it returns, the calls
it logged close every handle that `utf8_opendir` returned, each once, the one
opened last first, and close no other handle (in particular not the one
received as argument, which these calls did not open); and the calls of one
frame, observed with a callee that makes no call of its own and returns any
codes, never leave more than one handle open, on the three exit paths (skip in
mode `MODE_NONE`, recursion success, recursion failure). -/
theorem C19_handles_closed (w : World) :
    (∀ (fuel : Nat) (a : Args) (s : Sys) (r : Int) (s1 : Sys),
      ReadDir w fuel a s = some (r, s1) →
      ∃ D, s1.log = s.log ++ D ∧ ∀ st, handle_stack w D st = some st) ∧
    (∀ (ret : Args → Int) (a : Args) (stself : stat) (exts : List CStr)
      (entries : List CStr) (i_return : Int) (s : Sys), ∃ r s1 D,
      ReadDir_loop w (silent_callee ret) a stself exts i_return entries s = some (r, s1) ∧
      s1.log = s.log ++ D ∧ stack_within w 1 D [] = true) := by
  refine ⟨fun fuel a s r s1 h => ReadDir_balanced w fuel a s r s1 h, ?_⟩
  intro ret a stself exts entries i_return s
  obtain ⟨r, s1, D, h, hD, hDw, _⟩ := ReadDir_loop_frame w ret a stself exts entries i_return s
  exact ⟨r, s1, D, h, hD, hDw⟩

/-- C19 (witness): the expansion of `/m` in `world_tree` opens the handle `1`
of `sub` once and closes it once; the failing expansion in `world_failfast`
closes the handle `1` of `d` before returning `VLC_EGENERIC`. -/
theorem C19_handles_closed_witness :
    (∃ s1 D, ReadDir world_tree 2 (args_m MODE_EXPAND) Sys.init = some (VLC_SUCCESS, s1) ∧
      s1.log.filterMap Event.closed = [1] ∧
      s1.log = Sys.init.log ++ D ∧ ∀ st, handle_stack world_tree D st = some st) ∧
    (∃ s1 D, ReadDir world_failfast 2 (args_m MODE_EXPAND) Sys.init = some (VLC_EGENERIC, s1) ∧
      s1.log.filterMap Event.closed = [1] ∧
      s1.log = Sys.init.log ++ D ∧ ∀ st, handle_stack world_failfast D st = some st) := by
  constructor
  · have hmap : (ReadDir world_tree 2 (args_m MODE_EXPAND) Sys.init).map
        (fun p => (p.1, p.2.log.filterMap Event.closed)) = some (VLC_SUCCESS, [1]) := by
      decide
    cases h : ReadDir world_tree 2 (args_m MODE_EXPAND) Sys.init with
    | none => rw [h] at hmap; simp at hmap
    | some p =>
      obtain ⟨r, s1⟩ := p
      rw [h] at hmap
      simp only [Option.map_some', Option.some.injEq, Prod.mk.injEq] at hmap
      obtain ⟨rfl, hc⟩ := hmap
      obtain ⟨D, hD, hb⟩ := (C19_handles_closed world_tree).1 2 _ _ _ _ h
      exact ⟨s1, D, rfl, hc, hD, hb⟩
  · have hmap : (ReadDir world_failfast 2 (args_m MODE_EXPAND) Sys.init).map
        (fun p => (p.1, p.2.log.filterMap Event.closed)) = some (VLC_EGENERIC, [1]) := by
      decide
    cases h : ReadDir world_failfast 2 (args_m MODE_EXPAND) Sys.init with
    | none => rw [h] at hmap; simp at hmap
    | some p =>
      obtain ⟨r, s1⟩ := p
      rw [h] at hmap
      simp only [Option.map_some', Option.some.injEq, Prod.mk.injEq] at hmap
      obtain ⟨rfl, hc⟩ := hmap
      obtain ⟨D, hD, hb⟩ := (C19_handles_closed world_failfast).1 2 _ _ _ _ h
      exact ⟨s1, D, rfl, hc, hD, hb⟩

/-! ## The calls of `ReadDir` -/

/-- The entry loop makes only calls of `ReadDir` and `OpenDir`, if the callee
does. -/
theorem ReadDir_loop_events (w : World) (callee : Args → Sys → Option (Int × Sys))
    (hcallee : ∀ a s r s1, callee a s = some (r, s1) →
      ∃ D, s1.log = s.log ++ D ∧ ∀ e ∈ D, e.ofReadDir = true)
    (a : Args) (stself : stat) (exts : List CStr) (entries : List CStr) :
    ∀ (i_return : Int) (s : Sys) (r : Int) (s1 : Sys),
      ReadDir_loop w callee a stself exts i_return entries s = some (r, s1) →
      ∃ D, s1.log = s.log ++ D ∧ ∀ e ∈ D, e.ofReadDir = true := by
  induction entries with
  | nil =>
    intro i_return s r s1 h
    simp only [ReadDir_loop, Option.some.injEq, Prod.mk.injEq] at h
    exact ⟨[], by rw [← h.2]; simp, by simp⟩
  | cons entry rest ih =>
    intro i_return s r s1
    by_cases hvis : entry.head? = some '.'
    · rw [ReadDir_loop_hidden _ _ _ _ _ _ _ _ _ hvis]
      exact ih i_return s r s1
    · by_cases hfile : a.i_mode = MODE_COLLAPSE ∨
          ∃ err, w.utf8_opendir (mk_uri a.psz_name entry) = Except.error err
      · rw [ReadDir_loop_file _ _ _ _ _ _ _ _ _ hvis hfile]
        intro h
        obtain ⟨D, hD, hP⟩ := ih _ _ r s1 h
        have hO : ∃ O, (∀ e ∈ O, e.ofReadDir = true) ∧
            ((after_open w a entry s).emit
              (if ignored exts entry then Event.dbg_ignoring (mk_uri a.psz_name entry)
               else Event.BothAddInput (file_scheme ++ mk_uri a.psz_name entry) entry
                 a.p_current_input a.p_parent_category)).log = s.log ++ O := by
          unfold after_open
          by_cases hm : a.i_mode ≠ MODE_COLLAPSE
          · rw [if_pos hm]
            rcases OpenDir_state w (mk_uri a.psz_name entry) s with h1 | ⟨err, h1⟩ | h1 <;>
              rw [h1] <;> by_cases hi : ignored exts entry = true <;>
              simp only [hi, if_true, if_false, Sys.emit, List.append_assoc] <;>
              exact ⟨_, by simp [Event.ofReadDir], rfl⟩
          · rw [if_neg hm]
            by_cases hi : ignored exts entry = true <;>
              simp only [hi, if_true, if_false, Sys.emit] <;>
              exact ⟨_, by simp [Event.ofReadDir], rfl⟩
        obtain ⟨O, hO1, hO2⟩ := hO
        refine ⟨O ++ D, by rw [hD, hO2, List.append_assoc], fun e he => ?_⟩
        rcases List.mem_append.mp he with he | he
        · exact hO1 e he
        · exact hP e he
      · obtain ⟨hc, subdir, hopen⟩ := not_file_opens w a entry hfile
        by_cases hn : a.i_mode = MODE_NONE
        · rw [ReadDir_loop_dir_none _ _ _ _ _ _ _ _ _ subdir hvis hn hopen]
          intro h
          obtain ⟨D, hD, hP⟩ := ih _ _ r s1 h
          refine ⟨[Event.dbg_opening (mk_uri a.psz_name entry),
              Event.opendir (mk_uri a.psz_name entry),
              Event.dbg_skipping (mk_uri a.psz_name entry), Event.closedir subdir] ++ D,
            by rw [hD, List.append_assoc], fun e he => ?_⟩
          rcases List.mem_append.mp he with he | he
          · simp only [List.mem_cons, List.mem_singleton, List.not_mem_nil, or_false] at he
            rcases he with rfl | rfl | rfl | rfl <;> rfl
          · exact hP e he
        · rw [ReadDir_loop_dir_expand _ _ _ _ _ _ _ _ _ subdir hvis hc hn hopen]
          cases hcall : callee (sub_args a stself entry subdir (playlist_item_t.created s.i_nodes))
              (sub_start a entry s) with
          | none => simp
          | some q =>
            obtain ⟨r1, s2⟩ := q
            obtain ⟨D1, hD1, hP1⟩ := hcallee _ _ _ _ hcall
            have hpre : ∀ e ∈ [Event.dbg_opening (mk_uri a.psz_name entry),
                Event.opendir (mk_uri a.psz_name entry),
                Event.dbg_creating (mk_uri a.psz_name entry),
                Event.NodeCreate entry a.p_parent_category (playlist_item_t.created s.i_nodes)]
                ++ (D1 ++ [Event.closedir subdir]), e.ofReadDir = true := by
              intro e he
              simp only [List.mem_append, List.mem_cons, List.mem_singleton, List.not_mem_nil,
                or_false] at he
              rcases he with (rfl | rfl | rfl | rfl) | he | rfl
              · rfl
              · rfl
              · rfl
              · rfl
              · exact hP1 e he
              · rfl
            by_cases hr : r1 ≠ 0
            · simp only [if_pos hr, Option.some.injEq, Prod.mk.injEq]
              rintro ⟨_, rfl⟩
              exact ⟨_, by simp [Sys.emit, hD1, sub_start], hpre⟩
            · simp only [if_neg hr]
              intro h
              obtain ⟨D2, hD2, hP2⟩ := ih _ _ r s1 h
              refine ⟨([Event.dbg_opening (mk_uri a.psz_name entry),
                  Event.opendir (mk_uri a.psz_name entry),
                  Event.dbg_creating (mk_uri a.psz_name entry),
                  Event.NodeCreate entry a.p_parent_category
                    (playlist_item_t.created s.i_nodes)]
                  ++ (D1 ++ [Event.closedir subdir])) ++ D2, ?_, fun e he => ?_⟩
              · rw [hD2]; simp [Sys.emit, hD1, sub_start]
              · rcases List.mem_append.mp he with he | he
                · exact hpre e he
                · exact hP2 e he

/-- A call of `ReadDir` makes only calls of `ReadDir` and `OpenDir`: it never
writes the variable `activity`. -/
theorem ReadDir_events (w : World) (fuel : Nat) :
    ∀ (a : Args) (s : Sys) (r : Int) (s1 : Sys), ReadDir w fuel a s = some (r, s1) →
      ∃ D, s1.log = s.log ++ D ∧ ∀ e ∈ D, e.ofReadDir = true := by
  induction fuel with
  | zero => intro a s r s1 h; simp [ReadDir] at h
  | succ fuel ih =>
    intro a s r s1 h
    rcases ReadDir_succ_cases w fuel a s with ⟨_, hR⟩ | ⟨st, _, _, hR⟩
    · rw [hR] at h
      simp only [Option.some.injEq, Prod.mk.injEq] at h
      exact ⟨[Event.err_cannot_stat a.psz_name], by rw [← h.2]; rfl,
        by simp [Event.ofReadDir]⟩
    · rcases hR with ⟨_, hR⟩ | ⟨_, _, hR⟩ | ⟨_, _, hR⟩ | ⟨_, e, es, exts, _, _, hR⟩
      · rw [hR] at h
        simp only [Option.some.injEq, Prod.mk.injEq] at h
        exact ⟨[Event.warn_recursive a.psz_name], by rw [← h.2]; rfl,
          by simp [Event.ofReadDir]⟩
      · rw [hR] at h
        simp only [Option.some.injEq, Prod.mk.injEq] at h
        exact ⟨[Event.loaddir a.handle, Event.err_cannot_read a.psz_name],
          by rw [← h.2]; simp [Sys.emit], by simp [Event.ofReadDir]⟩
      · rw [hR] at h
        simp only [Option.some.injEq, Prod.mk.injEq] at h
        exact ⟨[Event.loaddir a.handle, Event.dbg_empty a.psz_name],
          by rw [← h.2]; simp [Sys.emit], by simp [Event.ofReadDir]⟩
      · rw [hR] at h
        obtain ⟨D, hD, hP⟩ := ReadDir_loop_events w (ReadDir w fuel) ih a st exts (e :: es)
          _ _ r s1 h
        refine ⟨[Event.loaddir a.handle] ++ D, by rw [hD]; simp [Sys.emit], fun x hx => ?_⟩
        rcases List.mem_append.mp hx with hx | hx
        · simp only [List.mem_singleton] at hx
          subst hx; rfl
        · exact hP x hx

/-! ## The top-level caller -/

/-- Adding and then subtracting in C `int` arithmetic gives back a value that
is an `int`. -/
theorem wrap_int_roundtrip (x d : Int) (hx : -2147483648 ≤ x ∧ x < 2147483648) :
    wrap_int (wrap_int (x + d) - d) = x := by
  unfold wrap_int
  omega

theorem ofReadDir_not_set (e : Event) (h : e.ofReadDir = true) : e.isSetActivity = false := by
  cases e <;> simp [Event.ofReadDir, Event.isSetActivity] at h ⊢

/-- What `Read` does once `ReadDir` has returned, whatever code it returned. -/
theorem Read_after_ReadDir (w : World) (h : Host) (fuel : Nat) (p_access : access_t)
    (i_len : Nat) (t : Top) (p_input : Nat) (p_current : playlist_item_t) (r : Int)
    (sys1 : Sys) (hs : h.strdup_null = false) (hi : h.p_input = some p_input)
    (hc : h.p_current = some p_current)
    (hrun : ReadDir w fuel (Read_args h p_access p_current) (Read_start h p_current t) =
      some (r, sys1)) :
    Read w h fuel p_access i_len t =
      some ((i_len : Int),
        { sys := { log := sys1.log ++
              [Event.set_activity (wrap_int (wrap_int (t.activity + h.DIRECTORY_ACTIVITY) -
                h.DIRECTORY_ACTIVITY)), Event.Signal]
                   i_nodes := sys1.i_nodes }
          activity := wrap_int (wrap_int (t.activity + h.DIRECTORY_ACTIVITY) -
            h.DIRECTORY_ACTIVITY)
          pf_read := pf_read_t.ReadNull
          p_buffer := List.replicate i_len 0 ++ t.p_buffer.drop i_len }) := by
  have hstart : (var_SetInteger_activity (wrap_int ((t.emit (Event.ItemToNode p_current)).activity
      + h.DIRECTORY_ACTIVITY)) (t.emit (Event.ItemToNode p_current))).sys =
      Read_start h p_current t := by
    simp [var_SetInteger_activity, Top.emit, Sys.emit, Read_start]
  simp only [Read, hs, hi, hc, Bool.false_eq_true, if_false, hstart, hrun]
  simp [ReadNull, var_SetInteger_activity, Top.emit, Sys.emit]

/-- C14 (amended): after a failure of the root expansion (the call of `ReadDir`
made by `Read` returns a code other than `VLC_SUCCESS`), `Read` does not report
it: the code is discarded and, as after a success, `Read` writes `activity`
back, signals the playlist, installs `ReadNull` and returns `i_len`, a
non-negative count, with the first `i_len` bytes of the buffer set to zero. -/
theorem C14_failure_not_reported (w : World) (h : Host) (fuel : Nat) (p_access : access_t)
    (i_len : Nat) (t : Top) (p_input : Nat) (p_current : playlist_item_t) (r : Int)
    (sys1 : Sys) (hs : h.strdup_null = false) (hi : h.p_input = some p_input)
    (hc : h.p_current = some p_current)
    (hrun : ReadDir w fuel (Read_args h p_access p_current) (Read_start h p_current t) =
      some (r, sys1))
    (_hr : r ≠ VLC_SUCCESS) :
    ∃ t1 v, Read w h fuel p_access i_len t = some ((i_len : Int), t1) ∧
      (0 : Int) ≤ (i_len : Int) ∧
      t1.sys.log = sys1.log ++ [Event.set_activity v, Event.Signal] ∧
      t1.pf_read = pf_read_t.ReadNull ∧
      t1.p_buffer = List.replicate i_len 0 ++ t.p_buffer.drop i_len :=
  ⟨_, _, Read_after_ReadDir w h fuel p_access i_len t p_input p_current r sys1 hs hi hc hrun,
    Int.natCast_nonneg i_len, rfl, rfl, rfl⟩

/-- C14 (witness): `Read` on `/m/` of `world_failfast`, where the expansion
fails with `VLC_EGENERIC`: the result is 3, the length asked for. -/
theorem C14_failure_not_reported_witness :
    ∃ (t1 : Top) (v : Int),
      Read world_failfast host_m 2 access_m 3 Top.init = some (((3 : Nat) : Int), t1) ∧
      (0 : Int) ≤ ((3 : Nat) : Int) ∧
      t1.sys.log =
        [Event.ItemToNode (playlist_item_t.host 0), Event.set_activity 107, Event.loaddir 0,
          Event.dbg_opening "/m/d".toList, Event.opendir "/m/d".toList,
          Event.dbg_creating "/m/d".toList,
          Event.NodeCreate "d".toList (some (playlist_item_t.host 1))
            (playlist_item_t.created 0),
          Event.err_cannot_stat "/m/d".toList, Event.closedir 1] ++
          [Event.set_activity v, Event.Signal] ∧
      t1.pf_read = pf_read_t.ReadNull ∧
      t1.p_buffer = List.replicate 3 0 ++ Top.init.p_buffer.drop 3 :=
  C14_failure_not_reported world_failfast host_m 2 access_m 3 Top.init 0
    (playlist_item_t.host 0) VLC_EGENERIC
    { log := [Event.ItemToNode (playlist_item_t.host 0), Event.set_activity 107,
        Event.loaddir 0, Event.dbg_opening "/m/d".toList, Event.opendir "/m/d".toList,
        Event.dbg_creating "/m/d".toList,
        Event.NodeCreate "d".toList (some (playlist_item_t.host 1)) (playlist_item_t.created 0),
        Event.err_cannot_stat "/m/d".toList, Event.closedir 1]
      i_nodes := 1 }
    rfl rfl rfl (by rfl) (by decide)

/-- C14 (counterexample): in `world_failfast` the call of `ReadDir` made by
`Read` returns `VLC_EGENERIC`, yet `Read` returns 3, the number of bytes asked
for, which is none of the error codes, and hands back three zero bytes. -/
theorem C14_counterexample :
    (∃ sys1, ReadDir world_failfast 2 (Read_args host_m access_m (playlist_item_t.host 0))
        (Read_start host_m (playlist_item_t.host 0) Top.init) = some (VLC_EGENERIC, sys1)) ∧
    VLC_EGENERIC ≠ VLC_SUCCESS ∧
    ∃ t1 : Top, Read world_failfast host_m 2 access_m 3 Top.init = some ((3 : Int), t1) ∧
      t1.p_buffer = [0, 0, 0, 4] ∧ t1.pf_read = pf_read_t.ReadNull ∧
      (3 : Int) ≠ VLC_EGENERIC ∧ (3 : Int) ≠ VLC_ENOMEM ∧ (3 : Int) ≠ VLC_ENOOBJ :=
  ⟨⟨_, by rfl⟩, by decide, _, by rfl, by rfl, by rfl, by decide, by decide, by decide⟩

/-- C20: with the variable `activity` holding a C `int` and fuel above the
number of directory identities: on each early-error return of `Read` (no
memory, no input, no item) the variable is not written and keeps its value;
otherwise `Read` first converts the item and writes
`activity + DIRECTORY_ACTIVITY`, then `ReadDir` runs from the state so reached
and returns (with whatever code) after making the calls `D`, none of which
writes the variable, and `Read` then adds to the log of that run the write of
the value minus `DIRECTORY_ACTIVITY`, which is the value `activity` had before
`Read`, and the signal. So the log of `Read` is the two calls before, the calls
`D` of `ReadDir`, and the two calls after. -/
theorem C20_activity_restored (w : World) (h : Host) (idents : List stat)
    (hid : ∀ fd st, w.fstat fd = some st → st ∈ idents) (fuel : Nat)
    (hfuel : idents.length < fuel) (p_access : access_t) (i_len : Nat) (t : Top)
    (hrange : -2147483648 ≤ t.activity ∧ t.activity < 2147483648) :
    ((h.strdup_null = true ∨ h.p_input = none ∨ h.p_current = none) →
      ∃ code t1, Read w h fuel p_access i_len t = some (code, t1) ∧
        (code = VLC_ENOMEM ∨ code = VLC_ENOOBJ) ∧ t1.activity = t.activity ∧
        t1.sys.log.filter Event.isSetActivity = t.sys.log.filter Event.isSetActivity) ∧
    (h.strdup_null = false → ∀ p_input p_current, h.p_input = some p_input →
      h.p_current = some p_current →
      ∃ r sys1 D t1,
        ReadDir w fuel (Read_args h p_access p_current) (Read_start h p_current t) =
          some (r, sys1) ∧
        (Read_start h p_current t).log = t.sys.log ++
          [Event.ItemToNode p_current,
            Event.set_activity (wrap_int (t.activity + h.DIRECTORY_ACTIVITY))] ∧
        sys1.log = (Read_start h p_current t).log ++ D ∧
        Read w h fuel p_access i_len t = some ((i_len : Int), t1) ∧
        t1.sys = { log := sys1.log ++ [Event.set_activity t.activity, Event.Signal]
                   i_nodes := sys1.i_nodes } ∧
        t1.sys.log = t.sys.log ++
          [Event.ItemToNode p_current,
            Event.set_activity (wrap_int (t.activity + h.DIRECTORY_ACTIVITY))] ++ D ++
          [Event.set_activity t.activity, Event.Signal] ∧
        (∀ e ∈ D, e.isSetActivity = false) ∧ t1.activity = t.activity) := by
  constructor
  · intro hearly
    by_cases hs : h.strdup_null = true
    · exact ⟨VLC_ENOMEM, t, by simp [Read, hs], Or.inl rfl, rfl, rfl⟩
    · cases hi : h.p_input with
      | none =>
        exact ⟨VLC_ENOOBJ, t.emit Event.err_no_input, by simp [Read, hs, hi], Or.inr rfl, rfl,
          by simp [Top.emit, Sys.emit, List.filter_append, Event.isSetActivity]⟩
      | some p_input =>
        cases hc : h.p_current with
        | none =>
          exact ⟨VLC_ENOOBJ, t.emit Event.err_no_item, by simp [Read, hs, hi, hc], Or.inr rfl,
            rfl, by simp [Top.emit, Sys.emit, List.filter_append, Event.isSetActivity]⟩
        | some p_current =>
          rcases hearly with h1 | h1 | h1
          · exact absurd h1 hs
          · rw [hi] at h1; simp at h1
          · rw [hc] at h1; simp at h1
  · intro hs p_input p_current hi hc
    obtain ⟨⟨r, sys1⟩, hrun⟩ := ReadDir_total w idents hid fuel (Read_args h p_access p_current)
      (Read_start h p_current t) (by simp [Read_args]) (by simp [Read_args])
      (by simp [Read_args]; omega)
    obtain ⟨D, hD, hP⟩ := ReadDir_events w fuel _ _ _ _ hrun
    have hread := Read_after_ReadDir w h fuel p_access i_len t p_input p_current r sys1 hs hi hc
      hrun
    rw [wrap_int_roundtrip t.activity h.DIRECTORY_ACTIVITY hrange] at hread
    refine ⟨r, sys1, D, _, hrun, rfl, hD, hread, rfl, ?_,
      fun e he => ofReadDir_not_set e (hP e he), rfl⟩
    simp [hD, Read_start]

/-- C20 (witness): `Read` on `/m/` of `world_failfast`, with `activity` at 7
and `DIRECTORY_ACTIVITY` at 100: 107 is written before the expansion, which
fails after seven calls, and 7 after it. -/
theorem C20_activity_restored_witness :
    ∃ r sys1 D t1,
      ReadDir world_failfast 2 (Read_args host_m access_m (playlist_item_t.host 0))
          (Read_start host_m (playlist_item_t.host 0) Top.init) = some (r, sys1) ∧
        (Read_start host_m (playlist_item_t.host 0) Top.init).log = Top.init.sys.log ++
          [Event.ItemToNode (playlist_item_t.host 0),
            Event.set_activity (wrap_int (Top.init.activity + host_m.DIRECTORY_ACTIVITY))] ∧
        sys1.log = (Read_start host_m (playlist_item_t.host 0) Top.init).log ++ D ∧
        Read world_failfast host_m 2 access_m 3 Top.init = some (((3 : Nat) : Int), t1) ∧
        t1.sys = { log := sys1.log ++ [Event.set_activity Top.init.activity, Event.Signal]
                   i_nodes := sys1.i_nodes } ∧
        t1.sys.log = Top.init.sys.log ++
          [Event.ItemToNode (playlist_item_t.host 0),
            Event.set_activity (wrap_int (Top.init.activity + host_m.DIRECTORY_ACTIVITY))] ++
          D ++ [Event.set_activity Top.init.activity, Event.Signal] ∧
        (∀ e ∈ D, e.isSetActivity = false) ∧ t1.activity = Top.init.activity :=
  (C20_activity_restored world_failfast host_m [{ st_ino := 100, st_dev := 1 }]
    (by
      intro fd st hst
      simp only [world_failfast] at hst
      split at hst
      · simp only [Option.some.injEq] at hst; subst hst; decide
      · simp at hst)
    2 (by decide) access_m 3 Top.init (by decide)).2 rfl 0 (playlist_item_t.host 0) rfl rfl

/-! ## The mode and the path chosen by `Read` -/

/-- The test `!strncmp( psz, lit, n )` with `n` the length of `lit` holds
exactly when `psz` begins with `lit`. -/
theorem strncmp_zero_iff (psz lit : CStr) :
    strncmp_zero psz lit lit.length = true ↔ lit <+: psz := by
  simp only [strncmp_zero, List.take_length, beq_iff_eq]
  rw [List.prefix_iff_eq_take]
  exact eq_comm

/-- The block "Handle mode" of `Read` in terms of beginnings of the value. -/
theorem handle_mode_eq (s : CStr) :
    handle_mode s =
      if s = [] ∨ "none".toList <+: s then MODE_NONE
      else if "collapse".toList <+: s then MODE_COLLAPSE else MODE_EXPAND := by
  have hn : strncmp_zero s "none".toList 4 = true ↔ "none".toList <+: s :=
    strncmp_zero_iff s "none".toList
  have hc : strncmp_zero s "collapse".toList 8 = true ↔ "collapse".toList <+: s :=
    strncmp_zero_iff s "collapse".toList
  unfold handle_mode
  simp only [hn, hc]

theorem mode_ite (P Q : Prop) [Decidable P] [Decidable Q] :
    ((if P then MODE_NONE else if Q then MODE_COLLAPSE else MODE_EXPAND) = MODE_NONE ↔ P) ∧
    ((if P then MODE_NONE else if Q then MODE_COLLAPSE else MODE_EXPAND) = MODE_COLLAPSE ↔
      (¬ P ∧ Q)) ∧
    ((if P then MODE_NONE else if Q then MODE_COLLAPSE else MODE_EXPAND) = MODE_EXPAND ↔
      (¬ P ∧ ¬ Q)) := by
  by_cases hP : P <;> by_cases hQ : Q <;> simp [hP, hQ]

/-- C21: `Read` selects `MODE_NONE` exactly when the value of `recursive` is
empty or begins with `none`, `MODE_COLLAPSE` exactly when it is not so and the
value begins with `collapse`, and `MODE_EXPAND` exactly when the value is not
empty and begins with neither; the documented values `none`, `collapse` and
`expand` select `MODE_NONE`, `MODE_COLLAPSE` and `MODE_EXPAND`, and a non-empty
value that begins with neither word (such as `all`) gives `MODE_EXPAND`. A
value is recognised by its beginning alone: `nonesuch` gives `MODE_NONE` and
`collapsed` gives `MODE_COLLAPSE`. -/
theorem C21_mode_selection :
    (∀ s : CStr, handle_mode s = MODE_NONE ↔ (s = [] ∨ "none".toList <+: s)) ∧
    (∀ s : CStr, handle_mode s = MODE_COLLAPSE ↔
      (¬ (s = [] ∨ "none".toList <+: s) ∧ "collapse".toList <+: s)) ∧
    (∀ s : CStr, handle_mode s = MODE_EXPAND ↔
      (s ≠ [] ∧ ¬ "none".toList <+: s ∧ ¬ "collapse".toList <+: s)) ∧
    handle_mode "none".toList = MODE_NONE ∧
    handle_mode "collapse".toList = MODE_COLLAPSE ∧
    handle_mode "expand".toList = MODE_EXPAND ∧
    handle_mode [] = MODE_NONE ∧
    handle_mode "all".toList = MODE_EXPAND ∧
    handle_mode "nonesuch".toList = MODE_NONE ∧
    handle_mode "collapsed".toList = MODE_COLLAPSE := by
  refine ⟨fun s => ?_, fun s => ?_, fun s => ?_, by decide, by decide, by decide, by decide,
    by decide, by decide, by decide⟩
  · rw [handle_mode_eq]
    exact (mode_ite _ _).1
  · rw [handle_mode_eq]
    exact (mode_ite _ _).2.1
  · rw [handle_mode_eq, (mode_ite _ _).2.2, not_or]
    exact and_assoc

theorem remove_ending_slash_snoc (s : CStr) (c : Char) :
    remove_ending_slash (s ++ [c]) = if c = '/' ∨ c = '\\' then s else s ++ [c] := by
  cases s with
  | nil => simp [remove_ending_slash]
  | cons x xs =>
    have h : (x :: xs ++ [c]).getLast? = some c := by
      rw [List.getLast?_append]; rfl
    have h2 : (x :: (xs ++ [c])).dropLast = x :: xs := by
      rw [← List.cons_append, List.dropLast_concat]
    simp only [List.cons_append] at h ⊢
    simp only [remove_ending_slash, h, h2]

/-- C29: the block "Remove the ending '/' char" of `Read` leaves the empty
path as it is without reading any character of it; on a non-empty path it
reads the last character (index `strlen - 1`, which lies in the string) and
removes it, and only it, when it is `/` or a backslash, leaving every other
path unchanged. So `/m/` becomes `/m`, `/m//` becomes `/m/`, `/` and the
one-backslash path become the empty path, and `/m` stays. -/
theorem C29_ending_slash :
    remove_ending_slash [] = [] ∧ ending_index [] = none ∧
    (∀ (s : CStr) (i : Int), ending_index s = some i →
      0 ≤ i ∧ i < s.length ∧ s.getLast? = s.get? i.toNat) ∧
    (∀ (s : CStr) (c : Char), c = '/' ∨ c = '\\' → remove_ending_slash (s ++ [c]) = s) ∧
    (∀ (s : CStr) (c : Char), c ≠ '/' → c ≠ '\\' →
      remove_ending_slash (s ++ [c]) = s ++ [c]) ∧
    (∀ s : CStr, remove_ending_slash s =
      if s ≠ [] ∧ (s.getLast? = some '/' ∨ s.getLast? = some '\\') then s.dropLast else s) ∧
    remove_ending_slash "/m/".toList = "/m".toList ∧
    remove_ending_slash "/m//".toList = "/m/".toList ∧
    remove_ending_slash "/".toList = [] ∧
    remove_ending_slash "\\".toList = [] ∧
    remove_ending_slash "/m".toList = "/m".toList := by
  refine ⟨rfl, rfl, ?_, ?_, ?_, ?_, by decide, by decide, by decide, by decide, by decide⟩
  · intro s i h
    cases s with
    | nil => simp [ending_index] at h
    | cons x xs =>
      simp only [ending_index, Option.some.injEq] at h
      subst h
      refine ⟨by simp, by simp, ?_⟩
      have : ((((x :: xs).length : Nat) : Int) - 1).toNat = (x :: xs).length - 1 := by
        simp
      rw [this, List.getLast?_eq_getElem?]
      simp
  · intro s c hc
    rw [remove_ending_slash_snoc, if_pos hc]
  · intro s c h1 h2
    rw [remove_ending_slash_snoc, if_neg (by simp [h1, h2])]
  · intro s
    rcases List.eq_nil_or_concat s with h | ⟨t, c, h⟩
    · subst h; simp [remove_ending_slash]
    · subst h
      rw [List.concat_eq_append, remove_ending_slash_snoc]
      simp [List.getLast?_append, List.dropLast_concat]

/-! ## Entries without extension -/

/-- C24: when the entry loop of `ReadDir` reaches a non-hidden entry that is
handled as a file (the open attempt fails, or the mode is `MODE_COLLAPSE`) and
whose name holds no dot or ends in a dot, the iteration adds the leaf
`file://<psz_name>/<entry>` under the category node, for every ignore array;
this holds in particular for the array of two empty strings, which is what the
configuration `,,` gives. -/
theorem C24_no_extension (w : World) (callee : Args → Sys → Option (Int × Sys)) (a : Args)
    (stself : stat) (exts : List CStr) (i_return : Int) (entry : CStr) (rest : List CStr)
    (s : Sys) (hvis : entry.head? ≠ some '.')
    (hfile : a.i_mode = MODE_COLLAPSE ∨
      ∃ err, w.utf8_opendir (mk_uri a.psz_name entry) = Except.error err)
    (hext : '.' ∉ entry ∨ ∃ pre, entry = pre ++ ['.']) :
    ReadDir_loop w callee a stself exts i_return (entry :: rest) s =
      ReadDir_loop w callee a stself exts i_return rest
        ((after_open w a entry s).emit
          (Event.BothAddInput (file_scheme ++ mk_uri a.psz_name entry) entry
            a.p_current_input a.p_parent_category)) ∧
    ignored exts entry = false ∧
    build_ignores (some ",,".toList) = some [[], []] ∧
    ignored [[], []] entry = false := by
  have hi := ignored_no_ext exts entry hext
  refine ⟨?_, hi, by decide, ignored_no_ext _ entry hext⟩
  rw [ReadDir_loop_file w callee a stself exts i_return entry rest s hvis hfile, hi]
  simp

/-- C24 (witness): the entries `a.` and `README` of `/m` in `world_cue`, with
the ignore array that `,,` gives. -/
theorem C24_no_extension_witness :
    (ReadDir_loop world_cue (fun _ _ => none) (args_m MODE_EXPAND)
        { st_ino := 100, st_dev := 1 } [[], []] 0 ["a.".toList, "README".toList] Sys.init =
      ReadDir_loop world_cue (fun _ _ => none) (args_m MODE_EXPAND)
        { st_ino := 100, st_dev := 1 } [[], []] 0 ["README".toList]
        ((after_open world_cue (args_m MODE_EXPAND) "a.".toList Sys.init).emit
          (Event.BothAddInput (file_scheme ++ mk_uri (args_m MODE_EXPAND).psz_name "a.".toList)
            "a.".toList (args_m MODE_EXPAND).p_current_input
            (args_m MODE_EXPAND).p_parent_category)) ∧
      ignored [[], []] "a.".toList = false ∧
      build_ignores (some ",,".toList) = some [[], []] ∧
      ignored [[], []] "a.".toList = false) ∧
    ReadDir_loop world_cue (fun _ _ => none) (args_m MODE_EXPAND)
        { st_ino := 100, st_dev := 1 } [[], []] 0 ["a.".toList, "README".toList] Sys.init =
      some (0, { log := [Event.dbg_opening "/m/a.".toList, Event.opendir "/m/a.".toList,
          Event.dbg_nondir "/m/a.".toList,
          Event.BothAddInput "file:///m/a.".toList "a.".toList (some 0)
            (some (playlist_item_t.host 1)),
          Event.dbg_opening "/m/README".toList, Event.opendir "/m/README".toList,
          Event.dbg_nondir "/m/README".toList,
          Event.BothAddInput "file:///m/README".toList "README".toList (some 0)
            (some (playlist_item_t.host 1))], i_nodes := 0 }) :=
  ⟨C24_no_extension world_cue (fun _ _ => none) (args_m MODE_EXPAND)
    { st_ino := 100, st_dev := 1 } [[], []] 0 "a.".toList ["README".toList] Sys.init
    (by decide) (Or.inr ⟨ENOTDIR, rfl⟩) (Or.inr ⟨"a".toList, rfl⟩), by decide⟩

/-! ## Mode `MODE_COLLAPSE`, entry by entry -/

/-- In mode `MODE_COLLAPSE` the entry loop never calls the callee and never
opens anything: its log is one line per non-hidden entry. -/
theorem ReadDir_loop_collapse (w : World) (callee : Args → Sys → Option (Int × Sys))
    (a : Args) (stself : stat) (exts : List CStr) (hm : a.i_mode = MODE_COLLAPSE)
    (entries : List CStr) :
    ∀ (i_return : Int) (s : Sys),
      ReadDir_loop w callee a stself exts i_return entries s =
        some (i_return,
          { log := s.log ++ (entries.filter (fun e => decide (e.head? ≠ some '.'))).map
              (fun e => if ignored exts e then Event.dbg_ignoring (mk_uri a.psz_name e)
                else Event.BothAddInput (file_scheme ++ mk_uri a.psz_name e) e
                  a.p_current_input a.p_parent_category)
            i_nodes := s.i_nodes }) := by
  induction entries with
  | nil => intro i_return s; simp [ReadDir_loop]
  | cons entry rest ih =>
    intro i_return s
    by_cases hvis : entry.head? = some '.'
    · rw [ReadDir_loop_hidden _ _ _ _ _ _ _ _ _ hvis, ih]
      simp [hvis]
    · rw [ReadDir_loop_file _ _ _ _ _ _ _ _ _ hvis (Or.inl hm), ih]
      simp [hvis, after_open, hm, Sys.emit]

/-- C25: in mode `MODE_COLLAPSE`, whatever `utf8_opendir` would answer and
whatever the callee is, the entry loop of `ReadDir` returns with a log that
holds exactly one call per non-hidden entry, in listing order: the message
"ignoring file" when the extension filter drops the name, and otherwise the
addition of the leaf `file://<psz_name>/<entry>` under the category node; no
open attempt is made and the callee is never called, so one level of recursion
is all `ReadDir` uses. In `world_shots` the directory `shots.jpg` is dropped
and the directory `sub` is added as a leaf. -/
theorem C25_collapse_file_path (w : World) (a : Args) (hm : a.i_mode = MODE_COLLAPSE) :
    (∀ (callee : Args → Sys → Option (Int × Sys)) (stself : stat) (exts : List CStr)
      (i_return : Int) (entries : List CStr) (s : Sys),
      ReadDir_loop w callee a stself exts i_return entries s =
        some (i_return,
          { log := s.log ++ (entries.filter (fun e => decide (e.head? ≠ some '.'))).map
              (fun e => if ignored exts e then Event.dbg_ignoring (mk_uri a.psz_name e)
                else Event.BothAddInput (file_scheme ++ mk_uri a.psz_name e) e
                  a.p_current_input a.p_parent_category)
            i_nodes := s.i_nodes })) ∧
    (∀ (fuel : Nat) (s : Sys), ReadDir w (fuel + 1) a s = ReadDir w 1 a s) ∧
    world_shots.utf8_opendir "/m/shots.jpg".toList = Except.ok 1 ∧
    world_shots.utf8_opendir "/m/sub".toList = Except.ok 2 ∧
    ReadDir world_shots 1 (args_m MODE_COLLAPSE) Sys.init =
      some (VLC_SUCCESS,
        { log := [Event.loaddir 0, Event.dbg_ignoring "/m/shots.jpg".toList,
            Event.BothAddInput "file:///m/sub".toList "sub".toList (some 0)
              (some (playlist_item_t.host 1))]
          i_nodes := 0 }) := by
  refine ⟨fun callee stself exts i_return entries s =>
    ReadDir_loop_collapse w callee a stself exts hm entries i_return s, ?_, rfl, rfl,
    by decide⟩
  intro fuel s
  simp only [ReadDir]
  by_cases hfd : w.dirfd a.handle = -1
  · simp [hfd]
  · simp only [hfd, if_false]
    cases hst : w.fstat (w.dirfd a.handle) with
    | none => rfl
    | some st =>
      by_cases hhit : stat_list_hit st a.stparent = true
      · simp [hhit]
      · simp only [hhit, if_false]
        cases hld : w.utf8_loaddir a.handle with
        | none => rfl
        | some content =>
          cases content with
          | nil => rfl
          | cons e es =>
            cases hb : build_ignores w.ignore_filetypes with
            | none => rfl
            | some exts =>
              simp only
              rw [ReadDir_loop_collapse w _ a st exts hm, ReadDir_loop_collapse w _ a st exts hm]

/-- C25 (witness): the listing `shots.jpg`, `sub`, `.git` of `/m` in
`world_shots`, with the ignore array `jpg`. -/
theorem C25_collapse_file_path_witness :
    ReadDir_loop world_shots (ReadDir world_shots 5) (args_m MODE_COLLAPSE)
        { st_ino := 100, st_dev := 1 } ["jpg".toList] 0
        ["shots.jpg".toList, "sub".toList, ".git".toList] Sys.init =
      some (0,
        { log := [Event.dbg_ignoring "/m/shots.jpg".toList,
            Event.BothAddInput "file:///m/sub".toList "sub".toList (some 0)
              (some (playlist_item_t.host 1))]
          i_nodes := 0 }) :=
  (C25_collapse_file_path world_shots (args_m MODE_COLLAPSE) rfl).1 (ReadDir world_shots 5)
    { st_ino := 100, st_dev := 1 } ["jpg".toList] 0
    ["shots.jpg".toList, "sub".toList, ".git".toList] Sys.init

/-! ## The comma search of the ignore-list parser -/

theorem strchr_some (c : Char) (p : CStr) :
    ∀ k, strchr c p = some k → k < p.length ∧ p.get? k = some c ∧ ∀ x ∈ p.take k, x ≠ c := by
  induction p with
  | nil => intro k h; simp [strchr] at h
  | cons x xs ih =>
    intro k h
    by_cases hx : x = c
    · simp only [strchr, hx, if_true, Option.some.injEq] at h
      subst h
      simp [hx]
    · simp only [strchr, hx, if_false, Option.map_eq_some'] at h
      obtain ⟨j, hj, rfl⟩ := h
      obtain ⟨h1, h2, h3⟩ := ih j hj
      refine ⟨by simp; omega, by simpa using h2, ?_⟩
      intro y hy
      simp only [List.take_succ_cons, List.mem_cons] at hy
      rcases hy with rfl | hy
      · exact hx
      · exact h3 y hy

theorem count_commas_zero (p : CStr) (h : ∀ x ∈ p, x ≠ ',') : count_commas p = 0 := by
  induction p with
  | nil => rfl
  | cons x xs ih =>
    have hx : x ≠ ',' := h x (List.mem_cons_self _ _)
    simp only [count_commas, hx, if_false, Nat.zero_add]
    exact ih (fun y hy => h y (List.mem_cons_of_mem _ hy))

/-- C27: in the filling loop of the ignore-list parser, started on any
configuration string with as many iterations as the string has commas: the
loop runs to its end and stores one field per comma; at an iteration with
`n + 1` iterations to go the rest of the string holds `n + 1` commas, `strchr`
finds a comma at an offset `k` inside the string, no comma lies before it, the
position `k + 1` is at most the length (so `ptr + 1` points into the string or
at its terminator), the rest after it holds `n` commas, and the iteration takes
the `strndup` branch; skipping spaces removes only spaces and no comma. -/
theorem C27_comma_search :
    (∀ s : CStr, ∃ l, build_ignores (some s) = some l ∧ l.length = count_commas s) ∧
    (∀ (n : Nat) (cur : CStr), count_commas cur = n + 1 →
      ∃ k, strchr ',' (skip_spaces cur) = some k ∧ k + 1 ≤ (skip_spaces cur).length ∧
        (skip_spaces cur).get? k = some ',' ∧
        count_commas ((skip_spaces cur).take k) = 0 ∧
        count_commas ((skip_spaces cur).drop (k + 1)) = n ∧
        ignore_loop (n + 1) (some cur) =
          (ignore_loop n (some ((skip_spaces cur).drop (k + 1)))).map
            ((skip_spaces cur).take k :: ·)) ∧
    (∀ cur : CStr, ∃ sp, cur = sp ++ skip_spaces cur ∧ (∀ c ∈ sp, c = ' ') ∧
      count_commas (skip_spaces cur) = count_commas cur) := by
  refine ⟨?_, ?_, ?_⟩
  · intro s
    cases s with
    | nil => exact ⟨[], rfl, rfl⟩
    | cons c cs => exact ignore_loop_some _ _ (Nat.le_refl _)
  · intro n cur hcur
    have hpos : 0 < count_commas (skip_spaces cur) := by
      rw [count_commas_skip_spaces, hcur]; omega
    obtain ⟨k, hk, hcount⟩ := strchr_of_count_pos _ hpos
    obtain ⟨h1, h2, h3⟩ := strchr_some ',' _ k hk
    refine ⟨k, hk, h1, h2, count_commas_zero _ h3, ?_, ?_⟩
    · rw [count_commas_skip_spaces, hcur] at hcount
      omega
    · simp only [ignore_loop, hk]
  · intro cur
    refine ⟨cur.takeWhile (· = ' '), ?_, ?_, count_commas_skip_spaces cur⟩
    · rw [skip_spaces_eq_dropWhile, List.takeWhile_append_dropWhile]
    · intro c hc
      simpa using (List.mem_takeWhile_imp hc)

/-! ## The array `psz_uri` -/

theorem poke_zero (buf src : List Char) (h : src.length ≤ buf.length) :
    poke buf 0 src = some (src ++ buf.drop src.length) := by
  unfold poke
  simp [h]

/-- The three writes into an array that is 7 bytes longer than the terminated
text `src` stay inside it and leave `file://` followed by `src`. -/
theorem fill_steps (src buf : List Char) (hlen : buf.length = src.length + 7) :
    ∃ b1 b2, poke buf 0 src = some b1 ∧ b1.length = buf.length ∧
      memmove b1 7 0 (b1.length - 7) = some b2 ∧
      memcpy b2 0 file_scheme 7 = some (file_scheme ++ src) := by
  have hfl : file_scheme.length = 7 := by decide
  have hf : (file_scheme ++ [NUL]).take 7 = file_scheme := by decide
  have hb1 : (src ++ buf.drop src.length).length = buf.length := by
    simp only [List.length_append, List.length_drop]; omega
  have ht7 : ((src ++ buf.drop src.length).take 7).length = 7 := by
    rw [List.length_take, hb1]; omega
  refine ⟨src ++ buf.drop src.length, (src ++ buf.drop src.length).take 7 ++ src,
    poke_zero buf src (by omega), hb1, ?_, ?_⟩
  · unfold memmove poke
    have hn : (src ++ buf.drop src.length).length - 7 = src.length := by omega
    rw [hn, if_pos (by omega)]
    have ht : (List.drop 0 (src ++ buf.drop src.length)).take src.length = src := by
      simp
    rw [ht, if_pos (by omega)]
    have hd : List.drop (7 + src.length) (src ++ buf.drop src.length) = [] := by
      apply List.drop_eq_nil_of_le
      omega
    rw [hd, List.append_nil]
  · unfold memcpy
    rw [if_pos (by omega), hf, poke_zero _ _ (by rw [List.length_append, ht7, hfl]; omega)]
    rw [hfl, List.drop_left' ht7]

/-- C28: for a directory path and an entry name whose lengths plus 9 fit a C
`int`, the size `i_size_entry` is the sum of the lengths plus 9, and with an
array of that size the `sprintf`, the `memmove` by 7 of the
`sizeof (psz_uri) - 7` bytes and the `memcpy` of the 7 bytes of `file://` all
stay inside the array; the array then holds `file://<psz_name>/<entry>`
followed by its terminator and nothing else, so the terminated string has
exactly the size of the array. -/
theorem C28_uri_buffer (psz_name entry : CStr) (garbage : Nat → Char)
    (hsize : psz_name.length + entry.length + 9 < 2147483648) :
    i_size_entry psz_name entry = ((psz_name.length + entry.length + 9 : Nat) : Int) ∧
    fill_psz_uri psz_name entry garbage =
      some (file_scheme ++ mk_uri psz_name entry ++ [NUL]) ∧
    (file_scheme ++ mk_uri psz_name entry ++ [NUL]).length =
      psz_name.length + entry.length + 9 := by
  have hs : i_size_entry psz_name entry = ((psz_name.length + entry.length + 9 : Nat) : Int) := by
    unfold i_size_entry wrap_int
    push_cast
    omega
  refine ⟨hs, ?_, by simp [file_scheme, mk_uri]; omega⟩
  unfold fill_psz_uri
  simp only [hs]
  have hpos : ¬ ((psz_name.length + entry.length + 9 : Nat) : Int) ≤ 0 := by omega
  rw [if_neg hpos]
  simp only [Int.toNat_ofNat]
  obtain ⟨b1, b2, h1, hl1, h2, h3⟩ := fill_steps (psz_name ++ '/' :: entry ++ [NUL])
    ((List.range (psz_name.length + entry.length + 9)).map garbage) (by simp; omega)
  have hl : 7 ≤ b1.length := by rw [hl1]; simp
  simp only [sprintf_uri, h1, h2, h3, if_neg (Nat.not_lt.mpr hl)]
  simp [mk_uri]

/-- C28 (witness): the path `/m` and the entry `a.mp3`, an array of 16
bytes. -/
theorem C28_uri_buffer_witness :
    i_size_entry "/m".toList "a.mp3".toList = ((2 + 5 + 9 : Nat) : Int) ∧
    fill_psz_uri "/m".toList "a.mp3".toList (fun _ => 'x') =
      some (file_scheme ++ mk_uri "/m".toList "a.mp3".toList ++ [NUL]) ∧
    (file_scheme ++ mk_uri "/m".toList "a.mp3".toList ++ [NUL]).length = 2 + 5 + 9 :=
  C28_uri_buffer "/m".toList "a.mp3".toList (fun _ => 'x') (by decide)

/-! ## The ancestry chain -/

/-- The entry loop calls the callee only with arguments `sub_args`: two
callees that agree on them give the same loop. -/
theorem ReadDir_loop_calls (w : World) (callee callee2 : Args → Sys → Option (Int × Sys))
    (a : Args) (stself : stat) (exts : List CStr)
    (hcallee : ∀ entry subdir p_node s,
      callee (sub_args a stself entry subdir p_node) s =
        callee2 (sub_args a stself entry subdir p_node) s)
    (entries : List CStr) :
    ∀ (i_return : Int) (s : Sys),
      ReadDir_loop w callee a stself exts i_return entries s =
        ReadDir_loop w callee2 a stself exts i_return entries s := by
  induction entries with
  | nil => intro i_return s; simp [ReadDir_loop]
  | cons entry rest ih =>
    intro i_return s
    by_cases hvis : entry.head? = some '.'
    · rw [ReadDir_loop_hidden _ _ _ _ _ _ _ _ _ hvis, ReadDir_loop_hidden _ _ _ _ _ _ _ _ _ hvis]
      exact ih i_return s
    · by_cases hfile : a.i_mode = MODE_COLLAPSE ∨
          ∃ err, w.utf8_opendir (mk_uri a.psz_name entry) = Except.error err
      · rw [ReadDir_loop_file _ _ _ _ _ _ _ _ _ hvis hfile,
          ReadDir_loop_file _ _ _ _ _ _ _ _ _ hvis hfile]
        exact ih i_return _
      · obtain ⟨hc, subdir, hopen⟩ := not_file_opens w a entry hfile
        by_cases hn : a.i_mode = MODE_NONE
        · rw [ReadDir_loop_dir_none _ _ _ _ _ _ _ _ _ subdir hvis hn hopen,
            ReadDir_loop_dir_none _ _ _ _ _ _ _ _ _ subdir hvis hn hopen]
          exact ih i_return _
        · rw [ReadDir_loop_dir_expand _ _ _ _ _ _ _ _ _ subdir hvis hc hn hopen,
            ReadDir_loop_dir_expand _ _ _ _ _ _ _ _ _ subdir hvis hc hn hopen, hcallee]
          cases hcall : callee2 (sub_args a stself entry subdir (playlist_item_t.created s.i_nodes))
              (sub_start a entry s) with
          | none => rfl
          | some q =>
            obtain ⟨r, s1⟩ := q
            by_cases hr : r ≠ 0
            · simp [hr]
            · simp only [hr, if_false]
              exact ih r _

/-- The chain of every frame of an expansion started with an empty chain holds
pairwise distinct identities of the filesystem. -/
theorem Frame_chain (w : World) (idents : List stat)
    (hid : ∀ fd st, w.fstat fd = some st → st ∈ idents) (root : Args)
    (hroot : root.stparent = []) (a : Args) (h : Frame w root a) :
    a.stparent.Nodup ∧ a.stparent ⊆ idents := by
  induction h with
  | root => rw [hroot]; exact ⟨List.nodup_nil, List.nil_subset _⟩
  | call a st entry subdir p_node _ hfd hst hmiss ih =>
    have hm : ¬ stat_list_hit st a.stparent = true := by simp [hmiss]
    exact ⟨List.nodup_cons.mpr ⟨stat_list_miss_not_mem st a.stparent hm, ih.1⟩,
      List.cons_subset.mpr ⟨hid _ _ hst, ih.2⟩⟩

/-- C26 (amended): in an expansion started with an empty chain, in a
filesystem all of whose directory identities are in the list `idents`: the
chain of every frame holds pairwise distinct identities, so at most
`idents.length + 1` calls of `ReadDir` are active at a time; in a frame that
passes the cycle guard the identity of the frame is none of the chain, the
chain with that identity in front is again pairwise distinct, and at most
`idents.length` calls are active. The entry loop of a frame calls `ReadDir`
only with the arguments `sub_args`, and `ReadDir` returns whenever it may nest
`idents.length + 1` calls. -/
theorem C26_chain_distinct (w : World) (idents : List stat)
    (hid : ∀ fd st, w.fstat fd = some st → st ∈ idents) (root : Args)
    (hroot : root.stparent = []) :
    (∀ a, Frame w root a →
      a.stparent.Nodup ∧ depth a ≤ idents.length + 1 ∧
      ∀ st, w.dirfd a.handle ≠ -1 → w.fstat (w.dirfd a.handle) = some st →
        stat_list_hit st a.stparent = false →
        (∀ x ∈ a.stparent, x ≠ st) ∧ (st :: a.stparent).Nodup ∧ depth a ≤ idents.length) ∧
    (∀ (callee callee2 : Args → Sys → Option (Int × Sys)) (a : Args) (stself : stat)
      (exts : List CStr) (i_return : Int) (entries : List CStr) (s : Sys),
      (∀ entry subdir p_node s1,
        callee (sub_args a stself entry subdir p_node) s1 =
          callee2 (sub_args a stself entry subdir p_node) s1) →
      ReadDir_loop w callee a stself exts i_return entries s =
        ReadDir_loop w callee2 a stself exts i_return entries s) ∧
    (∀ (fuel : Nat) (s : Sys), idents.length < fuel → ∃ p, ReadDir w fuel root s = some p) := by
  refine ⟨?_, ?_, ?_⟩
  · intro a ha
    obtain ⟨hnd, hsub⟩ := Frame_chain w idents hid root hroot a ha
    have hlen := (List.Nodup.subperm hnd hsub).length_le
    refine ⟨hnd, by unfold depth; omega, ?_⟩
    intro st hfd hst hmiss
    have hm : ¬ stat_list_hit st a.stparent = true := by simp [hmiss]
    have hnot := stat_list_miss_not_mem st a.stparent hm
    have hnd2 : (st :: a.stparent).Nodup := List.nodup_cons.mpr ⟨hnot, hnd⟩
    have hsub2 : st :: a.stparent ⊆ idents := List.cons_subset.mpr ⟨hid _ _ hst, hsub⟩
    have hlen2 := (List.Nodup.subperm hnd2 hsub2).length_le
    refine ⟨fun x hx hxe => hnot (hxe ▸ hx), hnd2, ?_⟩
    unfold depth
    simpa using hlen2
  · intro callee callee2 a stself exts i_return entries s hc
    exact ReadDir_loop_calls w callee callee2 a stself exts hc entries i_return s
  · intro fuel s hfuel
    exact ReadDir_total w idents hid fuel root s (by rw [hroot]; exact List.nodup_nil)
      (by rw [hroot]; exact List.nil_subset _) (by rw [hroot]; simpa using hfuel)

/-- C26 (witness): the expansion of `/m` in `world_selfloop`, whose only
identity is inode 100 on device 1: the frame of `/m` passes the guard at depth
1, and two nested calls are enough. -/
theorem C26_chain_distinct_witness :
    (∀ fd st, world_selfloop.fstat fd = some st → st ∈ [({ st_ino := 100, st_dev := 1 } : stat)]) ∧
    (args_m MODE_EXPAND).stparent = [] ∧
    depth (args_m MODE_EXPAND) ≤ [({ st_ino := 100, st_dev := 1 } : stat)].length ∧
    ∃ p, ReadDir world_selfloop 2 (args_m MODE_EXPAND) Sys.init = some p :=
  have hid : ∀ fd st, world_selfloop.fstat fd = some st →
      st ∈ [({ st_ino := 100, st_dev := 1 } : stat)] := by
    intro fd st h
    simp only [world_selfloop, Option.some.injEq] at h
    subst h
    decide
  ⟨hid, rfl,
    ((C26_chain_distinct world_selfloop [{ st_ino := 100, st_dev := 1 }] hid
      (args_m MODE_EXPAND) rfl).1 (args_m MODE_EXPAND) Frame.root).2.2
      { st_ino := 100, st_dev := 1 } (by decide) rfl rfl |>.2.2,
    (C26_chain_distinct world_selfloop [{ st_ino := 100, st_dev := 1 }] hid
      (args_m MODE_EXPAND) rfl).2.2 2 Sys.init (by decide)⟩

/-- C26 (counterexample): `world_selfloop` has one directory identity, yet the
expansion of `/m` nests two calls of `ReadDir`: the call for `/m/again`, which
the cycle guard stops, is a frame of depth 2, one level of recursion is not
enough for `ReadDir` to return and two are. -/
theorem C26_counterexample :
    (∀ fd st, world_selfloop.fstat fd = some st → st = { st_ino := 100, st_dev := 1 }) ∧
    Frame world_selfloop (args_m MODE_EXPAND)
      (sub_args (args_m MODE_EXPAND) { st_ino := 100, st_dev := 1 } "again".toList 1
        (playlist_item_t.created 0)) ∧
    depth (sub_args (args_m MODE_EXPAND) { st_ino := 100, st_dev := 1 } "again".toList 1
        (playlist_item_t.created 0)) = 2 ∧
    ReadDir world_selfloop 1 (args_m MODE_EXPAND) Sys.init = none ∧
    ReadDir world_selfloop 2 (args_m MODE_EXPAND) Sys.init =
      some (VLC_SUCCESS,
        { log := [Event.loaddir 0, Event.dbg_opening "/m/again".toList,
            Event.opendir "/m/again".toList, Event.dbg_creating "/m/again".toList,
            Event.NodeCreate "again".toList (some (playlist_item_t.host 1))
              (playlist_item_t.created 0),
            Event.warn_recursive "/m/again".toList, Event.closedir 1]
          i_nodes := 1 }) := by
  refine ⟨?_, ?_, rfl, by decide, by decide⟩
  · intro fd st h
    simp only [world_selfloop, Option.some.injEq] at h
    exact h.symm
  · exact Frame.call (args_m MODE_EXPAND) { st_ino := 100, st_dev := 1 } "again".toList 1
      (playlist_item_t.created 0) Frame.root (by decide) rfl rfl

/-! ## Two runs of the same expansion -/

theorem after_open_rename (w : World) (f : playlist_item_t → playlist_item_t) (a : Args)
    (entry : CStr) :
    ∃ O, (∀ s, after_open w a entry s = { log := s.log ++ O, i_nodes := s.i_nodes }) ∧
      (∀ s, after_open w (a.rename f) entry s = { log := s.log ++ O, i_nodes := s.i_nodes }) ∧
      O.map (Event.rename f) = O := by
  have hsame : ∀ s, after_open w (a.rename f) entry s = after_open w a entry s := fun s => rfl
  simp only [hsame]
  by_cases hm : a.i_mode = MODE_COLLAPSE
  · exact ⟨[], fun s => by simp [after_open, hm], fun s => by simp [after_open, hm], rfl⟩
  · cases hopen : w.utf8_opendir (mk_uri a.psz_name entry) with
    | error err =>
      by_cases he : err = ENOTDIR
      · exact ⟨[Event.dbg_opening (mk_uri a.psz_name entry),
            Event.opendir (mk_uri a.psz_name entry), Event.dbg_nondir (mk_uri a.psz_name entry)],
          fun s => by simp [after_open, OpenDir, hm, hopen, he, Sys.emit],
          fun s => by simp [after_open, OpenDir, hm, hopen, he, Sys.emit], rfl⟩
      · exact ⟨[Event.dbg_opening (mk_uri a.psz_name entry),
            Event.opendir (mk_uri a.psz_name entry),
            Event.err_open (mk_uri a.psz_name entry) err],
          fun s => by simp [after_open, OpenDir, hm, hopen, he, Sys.emit],
          fun s => by simp [after_open, OpenDir, hm, hopen, he, Sys.emit], rfl⟩
    | ok handle =>
      exact ⟨[Event.dbg_opening (mk_uri a.psz_name entry),
          Event.opendir (mk_uri a.psz_name entry)],
        fun s => by simp [after_open, OpenDir, hm, hopen, Sys.emit],
        fun s => by simp [after_open, OpenDir, hm, hopen, Sys.emit], rfl⟩

/-- A second run of the entry loop, started in another state and with renamed
items, makes the same calls up to the renaming, if the callee does. -/
theorem ReadDir_loop_rename (w : World) (f : playlist_item_t → playlist_item_t)
    (callee : Args → Sys → Option (Int × Sys)) (hcallee : Repeatable f callee) (a : Args)
    (stself : stat) (exts : List CStr) (entries : List CStr) :
    ∀ (i_return : Int) (s1 s2 : Sys),
      (∀ j, f (playlist_item_t.created (s1.i_nodes + j)) =
        playlist_item_t.created (s2.i_nodes + j)) →
      ∀ (r : Int) (t1 : Sys),
        ReadDir_loop w callee a stself exts i_return entries s1 = some (r, t1) →
        ∃ D k, t1 = { log := s1.log ++ D, i_nodes := s1.i_nodes + k } ∧
          ReadDir_loop w callee (a.rename f) stself exts i_return entries s2 =
            some (r, { log := s2.log ++ D.map (Event.rename f), i_nodes := s2.i_nodes + k }) := by
  induction entries with
  | nil =>
    intro i_return s1 s2 _ r t1 h
    simp only [ReadDir_loop, Option.some.injEq, Prod.mk.injEq] at h
    obtain ⟨rfl, rfl⟩ := h
    exact ⟨[], 0, by simp, by simp [ReadDir_loop]⟩
  | cons entry rest ih =>
    intro i_return s1 s2 hf r t1 h
    by_cases hvis : entry.head? = some '.'
    · rw [ReadDir_loop_hidden _ _ _ _ _ _ _ _ _ hvis] at h ⊢
      exact ih i_return s1 s2 hf r t1 h
    · by_cases hfile : a.i_mode = MODE_COLLAPSE ∨
          ∃ err, w.utf8_opendir (mk_uri a.psz_name entry) = Except.error err
      · have hfile2 : (a.rename f).i_mode = MODE_COLLAPSE ∨
            ∃ err, w.utf8_opendir (mk_uri (a.rename f).psz_name entry) = Except.error err := hfile
        rw [ReadDir_loop_file _ _ _ _ _ _ _ _ _ hvis hfile] at h
        rw [ReadDir_loop_file _ _ _ _ _ _ _ _ _ hvis hfile2]
        obtain ⟨O, hO1, hO2, hOf⟩ := after_open_rename w f a entry
        rw [hO1] at h
        rw [hO2]
        obtain ⟨D, k, ht, hrun⟩ := ih i_return
          ((({ log := s1.log ++ O, i_nodes := s1.i_nodes } : Sys)).emit
            (if ignored exts entry then Event.dbg_ignoring (mk_uri a.psz_name entry)
             else Event.BothAddInput (file_scheme ++ mk_uri a.psz_name entry) entry
               a.p_current_input a.p_parent_category))
          ((({ log := s2.log ++ O, i_nodes := s2.i_nodes } : Sys)).emit
            (if ignored exts entry then Event.dbg_ignoring (mk_uri (a.rename f).psz_name entry)
             else Event.BothAddInput (file_scheme ++ mk_uri (a.rename f).psz_name entry) entry
               (a.rename f).p_current_input (a.rename f).p_parent_category)) hf r t1 h
        refine ⟨O ++ [if ignored exts entry then Event.dbg_ignoring (mk_uri a.psz_name entry)
             else Event.BothAddInput (file_scheme ++ mk_uri a.psz_name entry) entry
               a.p_current_input a.p_parent_category] ++ D, k, ?_, ?_⟩
        · rw [ht]; simp [Sys.emit]
        · rw [hrun]
          by_cases hi : ignored exts entry = true <;>
            simp [Sys.emit, hOf, hi, Event.rename, Args.rename]
      · obtain ⟨hc, subdir, hopen⟩ := not_file_opens w a entry hfile
        have hopen2 : w.utf8_opendir (mk_uri (a.rename f).psz_name entry) = Except.ok subdir :=
          hopen
        by_cases hn : a.i_mode = MODE_NONE
        · have hn2 : (a.rename f).i_mode = MODE_NONE := hn
          rw [ReadDir_loop_dir_none _ _ _ _ _ _ _ _ _ subdir hvis hn hopen] at h
          rw [ReadDir_loop_dir_none _ _ _ _ _ _ _ _ _ subdir hvis hn2 hopen2]
          obtain ⟨D, k, ht, hrun⟩ := ih i_return
            { log := s1.log ++ [Event.dbg_opening (mk_uri a.psz_name entry),
                Event.opendir (mk_uri a.psz_name entry),
                Event.dbg_skipping (mk_uri a.psz_name entry), Event.closedir subdir]
              i_nodes := s1.i_nodes }
            { log := s2.log ++ [Event.dbg_opening (mk_uri (a.rename f).psz_name entry),
                Event.opendir (mk_uri (a.rename f).psz_name entry),
                Event.dbg_skipping (mk_uri (a.rename f).psz_name entry), Event.closedir subdir]
              i_nodes := s2.i_nodes } hf r t1 h
          refine ⟨[Event.dbg_opening (mk_uri a.psz_name entry),
                Event.opendir (mk_uri a.psz_name entry),
                Event.dbg_skipping (mk_uri a.psz_name entry), Event.closedir subdir] ++ D, k,
            ?_, ?_⟩
          · rw [ht]; simp
          · rw [hrun]; simp [Event.rename, Args.rename]
        · have hc2 : (a.rename f).i_mode ≠ MODE_COLLAPSE := hc
          have hn2 : (a.rename f).i_mode ≠ MODE_NONE := hn
          rw [ReadDir_loop_dir_expand _ _ _ _ _ _ _ _ _ subdir hvis hc hn hopen] at h
          rw [ReadDir_loop_dir_expand _ _ _ _ _ _ _ _ _ subdir hvis hc2 hn2 hopen2]
          have hargs : sub_args (a.rename f) stself entry subdir
              (playlist_item_t.created s2.i_nodes) =
              (sub_args a stself entry subdir (playlist_item_t.created s1.i_nodes)).rename f := by
            have h0 := hf 0
            simp only [Nat.add_zero] at h0
            cases hcat : a.p_parent_category <;> simp [sub_args, Args.rename, h0, hcat]
          have hf1 : ∀ j, f (playlist_item_t.created ((sub_start a entry s1).i_nodes + j)) =
              playlist_item_t.created ((sub_start (a.rename f) entry s2).i_nodes + j) := by
            intro j
            have := hf (1 + j)
            simpa [sub_start, Nat.add_assoc] using this
          cases hcall : callee (sub_args a stself entry subdir (playlist_item_t.created s1.i_nodes))
              (sub_start a entry s1) with
          | none => rw [hcall] at h; simp at h
          | some q =>
            obtain ⟨r1, u1⟩ := q
            rw [hcall] at h
            obtain ⟨D1, k1, hu1, hrun1⟩ := hcallee _ _ (sub_start (a.rename f) entry s2) hf1 r1 u1
              hcall
            rw [hargs, hrun1]
            have h0 := hf 0
            simp only [Nat.add_zero] at h0
            simp only [] at h ⊢
            by_cases hr : r1 ≠ 0
            · rw [if_pos hr] at h ⊢
              simp only [Option.some.injEq, Prod.mk.injEq] at h ⊢
              obtain ⟨rfl, rfl⟩ := h
              refine ⟨[Event.dbg_opening (mk_uri a.psz_name entry),
                  Event.opendir (mk_uri a.psz_name entry),
                  Event.dbg_creating (mk_uri a.psz_name entry),
                  Event.NodeCreate entry a.p_parent_category
                    (playlist_item_t.created s1.i_nodes)] ++ D1 ++ [Event.closedir subdir],
                1 + k1, ?_, ?_⟩
              · rw [hu1]; simp [Sys.emit, sub_start, Nat.add_assoc]
              · simp [Sys.emit, sub_start, Nat.add_assoc, Event.rename, Args.rename, h0]
            · rw [if_neg hr] at h ⊢
              have hf2 : ∀ j, f (playlist_item_t.created ((u1.emit (Event.closedir subdir)).i_nodes
                  + j)) = playlist_item_t.created
                    (s2.i_nodes + 1 + k1 + j) := by
                intro j
                have := hf (1 + k1 + j)
                rw [hu1]
                simpa [Sys.emit, sub_start, Nat.add_assoc] using this
              obtain ⟨D, k, ht, hrun⟩ := ih r1 (u1.emit (Event.closedir subdir))
                (({ log := (sub_start (a.rename f) entry s2).log ++ D1.map (Event.rename f)
                    i_nodes := (sub_start (a.rename f) entry s2).i_nodes + k1 } : Sys).emit
                  (Event.closedir subdir)) hf2 r t1 h
              refine ⟨[Event.dbg_opening (mk_uri a.psz_name entry),
                  Event.opendir (mk_uri a.psz_name entry),
                  Event.dbg_creating (mk_uri a.psz_name entry),
                  Event.NodeCreate entry a.p_parent_category
                    (playlist_item_t.created s1.i_nodes)] ++ D1 ++ [Event.closedir subdir] ++ D,
                1 + k1 + k, ?_, ?_⟩
              · rw [ht, hu1]; simp [Sys.emit, sub_start, Nat.add_assoc]
              · rw [hrun]
                simp [Sys.emit, sub_start, Nat.add_assoc, Event.rename, Args.rename, h0]

/-- A second run of `ReadDir`, started in another state and with renamed
items, makes the same calls up to the renaming and returns the same code. -/
theorem ReadDir_rename (w : World) (f : playlist_item_t → playlist_item_t) (fuel : Nat) :
    Repeatable f (ReadDir w fuel) := by
  induction fuel with
  | zero => intro a s1 s2 _ r t1 h; simp [ReadDir] at h
  | succ fuel ih =>
    intro a s1 s2 hf r t1 h
    have e1 : (a.rename f).handle = a.handle := rfl
    have e2 : (a.rename f).psz_name = a.psz_name := rfl
    have e3 : (a.rename f).stparent = a.stparent := rfl
    simp only [ReadDir, e1, e2, e3] at h ⊢
    by_cases hfd : w.dirfd a.handle = -1
    · simp only [hfd, if_true, Option.some.injEq, Prod.mk.injEq] at h ⊢
      obtain ⟨rfl, rfl⟩ := h
      exact ⟨[Event.err_cannot_stat a.psz_name], 0, by simp [Sys.emit],
        by simp [Sys.emit, Event.rename]⟩
    · simp only [hfd, if_false] at h ⊢
      cases hst : w.fstat (w.dirfd a.handle) with
      | none =>
        simp only [hst, Option.some.injEq, Prod.mk.injEq] at h ⊢
        obtain ⟨rfl, rfl⟩ := h
        exact ⟨[Event.err_cannot_stat a.psz_name], 0, by simp [Sys.emit],
          by simp [Sys.emit, Event.rename]⟩
      | some st =>
        simp only [hst] at h ⊢
        by_cases hhit : stat_list_hit st a.stparent = true
        · simp only [hhit, if_true, Option.some.injEq, Prod.mk.injEq] at h ⊢
          obtain ⟨rfl, rfl⟩ := h
          exact ⟨[Event.warn_recursive a.psz_name], 0, by simp [Sys.emit],
            by simp [Sys.emit, Event.rename]⟩
        · simp only [hhit, if_false] at h ⊢
          cases hld : w.utf8_loaddir a.handle with
          | none =>
            simp only [hld, Option.some.injEq, Prod.mk.injEq] at h ⊢
            obtain ⟨rfl, rfl⟩ := h
            exact ⟨[Event.loaddir a.handle, Event.err_cannot_read a.psz_name], 0,
              by simp [Sys.emit], by simp [Sys.emit, Event.rename]⟩
          | some content =>
            cases content with
            | nil =>
              simp only [hld, Option.some.injEq, Prod.mk.injEq] at h ⊢
              obtain ⟨rfl, rfl⟩ := h
              exact ⟨[Event.loaddir a.handle, Event.dbg_empty a.psz_name], 0,
                by simp [Sys.emit], by simp [Sys.emit, Event.rename]⟩
            | cons e es =>
              simp only [hld] at h ⊢
              cases hb : build_ignores w.ignore_filetypes with
              | none => simp [hb] at h
              | some exts =>
                simp only [hb] at h ⊢
                obtain ⟨D, k, ht, hrun⟩ := ReadDir_loop_rename w f (ReadDir w fuel) ih a st exts
                  (e :: es) VLC_SUCCESS (s1.emit (Event.loaddir a.handle))
                  (s2.emit (Event.loaddir a.handle)) hf r t1 h
                refine ⟨Event.loaddir a.handle :: D, k, ?_, ?_⟩
                · rw [ht]; simp [Sys.emit]
                · rw [hrun]; simp [Sys.emit, Event.rename]

/-- Renaming the items of a log by an injective map renames the items of the
tree it builds and changes nothing else. -/
theorem grow_rename (f : playlist_item_t → playlist_item_t) (hinj : Function.Injective f)
    (g g2 : Option playlist_item_t → List PlTree) (hg : ∀ q, g2 (q.map f) = g q)
    (D : List Event) :
    ∀ q, grow (D.map (Event.rename f)) g2 (q.map f) = grow D g q := by
  induction D with
  | nil => intro q; simpa [grow] using hg q
  | cons e D ih =>
    intro q
    have hmap : ∀ parent : Option playlist_item_t, q.map f = parent.map f ↔ q = parent :=
      fun parent => (Option.map_injective hinj).eq_iff
    simp only [grow, List.map_cons, List.foldr_cons] at ih ⊢
    cases e
    case NodeCreate name parent p_node =>
      simp only [Event.rename, attach, hmap]
      have := ih (some p_node)
      simp only [Option.map_some'] at this
      by_cases hq : q = parent
      · simp [hq, this, ih parent]
      · simp [hq, ih q]
    case BothAddInput psz_uri name p_current_input parent =>
      simp only [Event.rename, attach, hmap]
      by_cases hq : q = parent
      · simp [hq, ih parent]
      · simp [hq, ih q]
    all_goals (simp only [Event.rename, attach]; exact ih q)

/-- C22: let one run of `ReadDir` return the code `r` after making the calls
`D`. A second run on the same filesystem with the same path, mode, handle and
chain, started in any other state of the playlist (so that the items have
other identities, as given by an injective renaming `f` that sends the nodes
the first run creates to those the second creates), returns the same code `r`
and makes the same calls in the same order, up to the renaming of the items;
the ordered trees the two logs build under corresponding items are equal. -/
theorem C22_deterministic (w : World) (fuel : Nat) (a : Args) (s1 s2 : Sys)
    (f : playlist_item_t → playlist_item_t) (hinj : Function.Injective f)
    (hf : ∀ j, f (playlist_item_t.created (s1.i_nodes + j)) =
      playlist_item_t.created (s2.i_nodes + j))
    (r : Int) (t1 : Sys) (hrun : ReadDir w fuel a s1 = some (r, t1)) :
    ∃ D k, t1 = { log := s1.log ++ D, i_nodes := s1.i_nodes + k } ∧
      ReadDir w fuel (a.rename f) s2 =
        some (r, { log := s2.log ++ D.map (Event.rename f), i_nodes := s2.i_nodes + k }) ∧
      (a.rename f).psz_name = a.psz_name ∧ (a.rename f).i_mode = a.i_mode ∧
      (a.rename f).stparent = a.stparent ∧
      ∀ q, children_of (D.map (Event.rename f)) (q.map f) = children_of D q := by
  obtain ⟨D, k, ht, h2⟩ := ReadDir_rename w f fuel a s1 s2 hf r t1 hrun
  exact ⟨D, k, ht, h2, rfl, rfl, rfl,
    grow_rename f hinj (fun _ => []) (fun _ => []) (fun _ => rfl) D⟩

theorem shift_created_injective (d : Nat) : Function.Injective (shift_created d) := by
  intro x y h
  cases x <;> cases y <;> simp [shift_created] at h ⊢ <;> omega

/-- C22 (witness): the expansion of `/m` in `world_tree`, run once from the
initial state and once in a state where three nodes exist already. -/
theorem C22_deterministic_witness :
    ∃ D k, ({ log := [Event.loaddir 0, Event.dbg_opening "/m/a.mp3".toList,
            Event.opendir "/m/a.mp3".toList, Event.dbg_nondir "/m/a.mp3".toList,
            Event.BothAddInput "file:///m/a.mp3".toList "a.mp3".toList (some 0)
              (some (playlist_item_t.host 1)),
            Event.dbg_opening "/m/sub".toList, Event.opendir "/m/sub".toList,
            Event.dbg_creating "/m/sub".toList,
            Event.NodeCreate "sub".toList (some (playlist_item_t.host 1))
              (playlist_item_t.created 0),
            Event.loaddir 1, Event.dbg_opening "/m/sub/b.mp3".toList,
            Event.opendir "/m/sub/b.mp3".toList, Event.dbg_nondir "/m/sub/b.mp3".toList,
            Event.BothAddInput "file:///m/sub/b.mp3".toList "b.mp3".toList (some 0)
              (some (playlist_item_t.created 0)),
            Event.closedir 1],
              i_nodes := 1 } : Sys) = { log := Sys.init.log ++ D, i_nodes := Sys.init.i_nodes + k } ∧
      ReadDir world_tree 2 ((args_m MODE_EXPAND).rename (shift_created 3))
          { log := [Event.Signal], i_nodes := 3 } =
        some (0, { log := [Event.Signal] ++ D.map (Event.rename (shift_created 3)),
                   i_nodes := 3 + k }) ∧
      ((args_m MODE_EXPAND).rename (shift_created 3)).psz_name = (args_m MODE_EXPAND).psz_name ∧
      ((args_m MODE_EXPAND).rename (shift_created 3)).i_mode = (args_m MODE_EXPAND).i_mode ∧
      ((args_m MODE_EXPAND).rename (shift_created 3)).stparent =
        (args_m MODE_EXPAND).stparent ∧
      ∀ q, children_of (D.map (Event.rename (shift_created 3))) (q.map (shift_created 3)) =
        children_of D q :=
  C22_deterministic world_tree 2 (args_m MODE_EXPAND) Sys.init
    { log := [Event.Signal], i_nodes := 3 } (shift_created 3) (shift_created_injective 3)
    (fun j => by simp [shift_created, Sys.init]; omega) 0 _ (by decide)

end Directory

namespace DirectX

/-! ## The chromas `UpdatePictureStruct` accepts -/

theorem UpdatePictureStruct_unknown (p_vout : vout_thread_t) (p_pic : picture_t)
    (i_chroma : Nat) (h : p_vout.output.i_chroma ∉ known_chromas) :
    UpdatePictureStruct p_vout p_pic i_chroma = (0, p_pic) := by
  simp only [known_chromas, List.mem_cons, List.mem_singleton, not_or, List.mem_nil_iff,
    or_false] at h
  obtain ⟨h1, h2, h3, h4, h5, h6, h7, h8⟩ := h
  simp [UpdatePictureStruct, h1, h2, h3, h4, h5, h6, h7, h8]

theorem UpdatePictureStruct_known (p_vout : vout_thread_t) (p_pic : picture_t)
    (i_chroma : Nat) (h : p_vout.output.i_chroma ∈ known_chromas) :
    (UpdatePictureStruct p_vout p_pic i_chroma).1 = 1 := by
  simp only [known_chromas, List.mem_cons, List.mem_singleton, List.mem_nil_iff,
    or_false] at h
  unfold UpdatePictureStruct
  rcases h with h | h | h | h | h | h | h | h <;> rw [h] <;> rfl

/-- C30: `UpdatePictureStruct` returns 1 exactly when the output chroma
`p_vout->output.i_chroma` is one of RGB2, RV15, RV16, RV24, RV32, YV12, IYUV
and YUY2; for every other output chroma it returns 0 and the picture is as
before; it never returns -1; its result and the picture it leaves do not depend
on the argument `i_chroma`. The chromas UYVY and YVYU, which `vout_Init`
selects as first choice for the rendered chromas UYVY, UYNV, Y422 and YVYU,
are among those for which it returns 0. -/
theorem C30_update_picture_struct :
    (∀ (p_vout : vout_thread_t) (p_pic : picture_t) (i_chroma : Nat),
      (UpdatePictureStruct p_vout p_pic i_chroma).1 = 1 ↔
        p_vout.output.i_chroma ∈ known_chromas) ∧
    (∀ (p_vout : vout_thread_t) (p_pic : picture_t) (i_chroma : Nat),
      p_vout.output.i_chroma ∉ known_chromas →
        UpdatePictureStruct p_vout p_pic i_chroma = (0, p_pic)) ∧
    (∀ (p_vout : vout_thread_t) (p_pic : picture_t) (i_chroma : Nat),
      (UpdatePictureStruct p_vout p_pic i_chroma).1 ≠ -1) ∧
    (∀ (p_vout : vout_thread_t) (p_pic : picture_t) (i_chroma i_chroma2 : Nat),
      UpdatePictureStruct p_vout p_pic i_chroma = UpdatePictureStruct p_vout p_pic i_chroma2) ∧
    known_chromas = [FOURCC_RGB2, FOURCC_RV15, FOURCC_RV16, FOURCC_RV24, FOURCC_RV32,
      FOURCC_YV12, FOURCC_IYUV, FOURCC_YUY2] ∧
    vout_Init_chroma FOURCC_UYVY = FOURCC_UYVY ∧ vout_Init_chroma FOURCC_UYNV = FOURCC_UYVY ∧
    vout_Init_chroma FOURCC_Y422 = FOURCC_UYVY ∧ vout_Init_chroma FOURCC_YVYU = FOURCC_YVYU ∧
    FOURCC_UYVY ∉ known_chromas ∧ FOURCC_YVYU ∉ known_chromas ∧
    UpdatePictureStruct (vout_sample FOURCC_UYVY true true) picture_zero FOURCC_UYVY =
      (0, picture_zero) ∧
    UpdatePictureStruct (vout_sample FOURCC_YVYU true true) picture_zero FOURCC_YVYU =
      (0, picture_zero) := by
  have hcases : ∀ (p_vout : vout_thread_t) (p_pic : picture_t) (i_chroma : Nat),
      (p_vout.output.i_chroma ∈ known_chromas ∧
        (UpdatePictureStruct p_vout p_pic i_chroma).1 = 1) ∨
      (p_vout.output.i_chroma ∉ known_chromas ∧
        (UpdatePictureStruct p_vout p_pic i_chroma).1 = 0) := by
    intro p_vout p_pic i_chroma
    by_cases h : p_vout.output.i_chroma ∈ known_chromas
    · exact Or.inl ⟨h, UpdatePictureStruct_known p_vout p_pic i_chroma h⟩
    · exact Or.inr ⟨h, by rw [UpdatePictureStruct_unknown p_vout p_pic i_chroma h]⟩
  refine ⟨?_, UpdatePictureStruct_unknown, ?_, fun _ _ _ _ => rfl, rfl, by decide, by decide,
    by decide, by decide, by decide, by decide, by decide, by decide⟩
  · intro p_vout p_pic i_chroma
    rcases hcases p_vout p_pic i_chroma with ⟨h, h1⟩ | ⟨h, h1⟩
    · exact ⟨fun _ => h, fun _ => h1⟩
    · exact ⟨fun h2 => by rw [h1] at h2; exact absurd h2 (by decide), fun h2 => absurd h2 h⟩
  · intro p_vout p_pic i_chroma
    rcases hcases p_vout p_pic i_chroma with ⟨_, h1⟩ | ⟨_, h1⟩ <;> rw [h1] <;> decide

/-! ## The result of `NewPictureVec` -/

theorem DirectXCreateSurface_fails (dd : DDraw) (site i_chroma : Nat) (b_overlay : Bool)
    (i_backbuffers : Int)
    (h : dd.IDirectDraw2_CreateSurface site b_overlay i_chroma i_backbuffers ≠ HRESULT.DD_OK) :
    DirectXCreateSurface dd site i_chroma b_overlay i_backbuffers = (0, 0) := by
  unfold DirectXCreateSurface
  cases b_overlay <;> simp [h]

/-- The overlay part returns only with -1 and no picture; when it goes on, the
overlay flag is as before and there is a picture only if the flag is set. -/
theorem NewPictureVec_overlay_cases (dd : DDraw) (p_vout : vout_thread_t) (p_pic : picture_t)
    (h0 : p_vout.output.i_pictures = 0) :
    (∃ v p, NewPictureVec_overlay dd p_vout p_pic = Flow.ret (-1) v p ∧
      v.output.i_pictures = 0) ∨
    (∃ v p, NewPictureVec_overlay dd p_vout p_pic = Flow.go v p ∧
      v.p_sys.b_using_overlay = p_vout.p_sys.b_using_overlay ∧
      (v.output.i_pictures = 0 ∨
        (v.output.i_pictures = 1 ∧ p_vout.p_sys.b_using_overlay = true))) := by
  unfold NewPictureVec_overlay
  generalize DirectXCreateSurface dd 0 p_vout.output.i_chroma p_vout.p_sys.b_using_overlay 2 = c0
  generalize DirectXCreateSurface dd 1 p_vout.output.i_chroma p_vout.p_sys.b_using_overlay 0 = c1
  by_cases ho : p_vout.p_sys.b_using_overlay = true <;> by_cases h1 : c0.1 = 0 <;>
    by_cases h2 : c1.1 = 0 <;> by_cases hm : dd.malloc_ok = false <;>
    simp [ho, h0, h1, h2, hm]

theorem rgb_output_pictures (pf : DDPIXELFORMAT) (output output2 : output_t)
    (h : rgb_output pf output = some output2) : output2.i_pictures = output.i_pictures := by
  unfold rgb_output at h
  split_ifs at h <;> simp at h <;> subst h <;> rfl

/-- The plain part returns only when the overlay flag is not set, with 0 or
-1 and the number of pictures it started with; when it goes on, the number of
pictures is as before or is 1. -/
theorem NewPictureVec_plain_cases (dd : DDraw) (p_vout : vout_thread_t) (p_pic : picture_t) :
    (∃ c v p, NewPictureVec_plain dd p_vout p_pic = Flow.ret c v p ∧ (c = 0 ∨ c = -1) ∧
      v.output.i_pictures = p_vout.output.i_pictures ∧
      p_vout.p_sys.b_using_overlay = false) ∨
    (∃ v p, NewPictureVec_plain dd p_vout p_pic = Flow.go v p ∧
      (v.output.i_pictures = p_vout.output.i_pictures ∨ v.output.i_pictures = 1)) := by
  unfold NewPictureVec_plain
  generalize DirectXCreateSurface dd 2 p_vout.output.i_chroma p_vout.p_sys.b_using_overlay 0 = c2
  by_cases ho : p_vout.p_sys.b_using_overlay = false
  · cases hrgb : rgb_output dd.IDirectDrawSurface2_GetPixelFormat p_vout.output with
    | none =>
      by_cases hy : p_vout.p_sys.b_hw_yuv = true <;> by_cases h2 : c2.1 = 0 <;>
        by_cases hm : dd.malloc_ok = false <;> simp [ho, hy, h2, hm, hrgb] <;>
        exact ⟨_, _, ⟨rfl, rfl⟩, by simp, rfl⟩
    | some output =>
      have hp := rgb_output_pictures _ _ _ hrgb
      by_cases hy : p_vout.p_sys.b_hw_yuv = true <;> by_cases h2 : c2.1 = 0 <;>
        by_cases h3 : (DirectXCreateSurface dd 3 output.i_chroma false 0).1 = 0 <;>
        by_cases hm : dd.malloc_ok = false <;>
        simp [ho, hy, h2, h3, hm, hrgb, hp] <;>
        first
          | exact ⟨_, _, ⟨rfl, rfl⟩, by simp, hp⟩
          | exact ⟨_, _, ⟨rfl, rfl⟩, by simp, rfl⟩
  · simp [ho]

/-- The last part returns 0 and keeps the number of pictures, or returns -1
and leaves no picture. -/
theorem NewPictureVec_finish_cases (dd : DDraw) (p_vout : vout_thread_t) (p_pic : picture_t) :
    ((NewPictureVec_finish dd p_vout p_pic).1 = 0 ∧
      (NewPictureVec_finish dd p_vout p_pic).2.1.output.i_pictures =
        p_vout.output.i_pictures) ∨
    ((NewPictureVec_finish dd p_vout p_pic).1 = -1 ∧
      (NewPictureVec_finish dd p_vout p_pic).2.1.output.i_pictures = 0) := by
  unfold NewPictureVec_finish
  by_cases hp : 0 < p_vout.output.i_pictures
  · by_cases hd : (DirectXGetSurfaceDesc dd
        { p_pic with i_status := DESTROYED_PICTURE, i_type := DIRECT_PICTURE }).1 = 0
    · simp [hp, hd]
    · by_cases hu : (UpdatePictureStruct p_vout (DirectXGetSurfaceDesc dd
          { p_pic with i_status := DESTROYED_PICTURE, i_type := DIRECT_PICTURE }).2
          p_vout.output.i_chroma).1 = 0 <;> simp [hp, hd, hu]
  · simp [hp]

/-- The results of `NewPictureVec`: 0 with no picture or with one, or -1 with
no picture. -/
theorem NewPictureVec_cases (dd : DDraw) (p_vout : vout_thread_t) (p_pic : picture_t)
    (i_num_pics : Int) :
    ((NewPictureVec dd p_vout p_pic i_num_pics).1 = 0 ∧
      ((NewPictureVec dd p_vout p_pic i_num_pics).2.1.output.i_pictures = 0 ∨
       (NewPictureVec dd p_vout p_pic i_num_pics).2.1.output.i_pictures = 1)) ∨
    ((NewPictureVec dd p_vout p_pic i_num_pics).1 = -1 ∧
      (NewPictureVec dd p_vout p_pic i_num_pics).2.1.output.i_pictures = 0) := by
  unfold NewPictureVec
  rcases NewPictureVec_overlay_cases dd
      { p_vout with output := { p_vout.output with i_pictures := 0 } } p_pic rfl with
    ⟨v, p, h, hp⟩ | ⟨v, p, h, hov, hp⟩
  · simp [h, hp]
  · rcases NewPictureVec_plain_cases dd v p with ⟨c, v2, p2, h2, hc, hp2, hov2⟩ | ⟨v2, p2, h2, hp2⟩
    · have hz : v.output.i_pictures = 0 := by
        rcases hp with hp | ⟨_, hov3⟩
        · exact hp
        · rw [hov2] at hov
          rw [← hov] at hov3
          exact absurd hov3 (by decide)
      rcases hc with rfl | rfl <;> simp [h, h2, hp2, hz]
    · have hv2 : v2.output.i_pictures = 0 ∨ v2.output.i_pictures = 1 := by
        rcases hp2 with hp2 | hp2
        · rcases hp with hp | ⟨hp, _⟩
          · exact Or.inl (hp2.trans hp)
          · exact Or.inr (hp2.trans hp)
        · exact Or.inr hp2
      rcases NewPictureVec_finish_cases dd v2 p2 with ⟨h3, h4⟩ | ⟨h3, h4⟩
      · left
        simp only [h, h2]
        exact ⟨h3, by rw [h4]; exact hv2⟩
      · right
        simp only [h, h2]
        exact ⟨h3, h4⟩

/-- C23: `NewPictureVec` returns 0 or -1, and whenever it leaves an output
picture (`I_OUTPUTPICTURES` is 1 on return) it returns 0; but it also returns 0
without an output picture (`I_OUTPUTPICTURES` is 0 on return): when the overlay
is not used, the hardware conversion is off and the display has an RGB format
of a depth other than 8, 15, 16, 24 and 32 ("unknown screen depth"), and
whenever DirectDraw creates no surface at all. On a display of 12 bits, and
with a DirectDraw that refuses every surface, the result is 0 and
`I_OUTPUTPICTURES` is 0. -/
theorem C23_zero_without_picture :
    (∀ (dd : DDraw) (p_vout : vout_thread_t) (p_pic : picture_t) (i_num_pics : Int),
      ((NewPictureVec dd p_vout p_pic i_num_pics).1 = 0 ∨
        (NewPictureVec dd p_vout p_pic i_num_pics).1 = -1) ∧
      ((NewPictureVec dd p_vout p_pic i_num_pics).2.1.output.i_pictures = 1 →
        (NewPictureVec dd p_vout p_pic i_num_pics).1 = 0) ∧
      ((NewPictureVec dd p_vout p_pic i_num_pics).1 = -1 →
        (NewPictureVec dd p_vout p_pic i_num_pics).2.1.output.i_pictures = 0)) ∧
    (∀ (dd : DDraw) (p_vout : vout_thread_t) (p_pic : picture_t) (i_num_pics : Int),
      p_vout.p_sys.b_using_overlay = false → p_vout.p_sys.b_hw_yuv = false →
      dd.IDirectDrawSurface2_GetPixelFormat.dwFlags_RGB = true →
      dd.IDirectDrawSurface2_GetPixelFormat.dwRGBBitCount ∉ [8, 15, 16, 24, 32] →
      NewPictureVec dd p_vout p_pic i_num_pics =
        (0, { p_vout with output := { p_vout.output with i_pictures := 0 } }, p_pic)) ∧
    (∀ (dd : DDraw) (p_vout : vout_thread_t) (p_pic : picture_t) (i_num_pics : Int),
      (∀ site b_overlay i_chroma i_backbuffers,
        dd.IDirectDraw2_CreateSurface site b_overlay i_chroma i_backbuffers ≠ HRESULT.DD_OK) →
      (NewPictureVec dd p_vout p_pic i_num_pics).1 = 0 ∧
      (NewPictureVec dd p_vout p_pic i_num_pics).2.1.output.i_pictures = 0) ∧
    NewPictureVec ddraw_depth12 (vout_sample FOURCC_YV12 false false) picture_zero 1 =
      (0, vout_sample FOURCC_YV12 false false, picture_zero) ∧
    (vout_sample FOURCC_YV12 false false).output.i_pictures = 0 ∧
    NewPictureVec ddraw_no_surface (vout_sample FOURCC_YV12 true true) picture_zero 1 =
      (0, vout_sample FOURCC_YV12 true true, picture_zero) ∧
    (vout_sample FOURCC_YV12 true true).output.i_pictures = 0 ∧
    (NewPictureVec ddraw_fine (vout_sample FOURCC_YV12 true true) picture_zero 1).1 = 0 ∧
    (NewPictureVec ddraw_fine (vout_sample FOURCC_YV12 true true)
      picture_zero 1).2.1.output.i_pictures = 1 := by
  refine ⟨?_, ?_, ?_, by decide, rfl, by decide, rfl, by decide, by decide⟩
  · intro dd p_vout p_pic i_num_pics
    rcases NewPictureVec_cases dd p_vout p_pic i_num_pics with ⟨h1, h2⟩ | ⟨h1, h2⟩
    · exact ⟨Or.inl h1, fun _ => h1, fun h => by rw [h1] at h; exact absurd h (by decide)⟩
    · exact ⟨Or.inr h1, fun h => by rw [h2] at h; exact absurd h (by decide), fun _ => h2⟩
  · intro dd p_vout p_pic i_num_pics ho hy hrgb hdepth
    simp only [List.mem_cons, List.mem_singleton, List.mem_nil_iff, or_false, not_or] at hdepth
    obtain ⟨d1, d2, d3, d4, d5⟩ := hdepth
    simp [NewPictureVec, NewPictureVec_overlay, NewPictureVec_plain, rgb_output, ho, hy, hrgb,
      d1, d2, d3, d4, d5]
  · intro dd p_vout p_pic i_num_pics hno
    have hfail : ∀ site i_chroma b_overlay i_backbuffers,
        DirectXCreateSurface dd site i_chroma b_overlay i_backbuffers = (0, 0) :=
      fun site i_chroma b_overlay i_backbuffers =>
        DirectXCreateSurface_fails dd site i_chroma b_overlay i_backbuffers (hno _ _ _ _)
    unfold NewPictureVec NewPictureVec_overlay NewPictureVec_plain
    simp only [hfail]
    by_cases ho : p_vout.p_sys.b_using_overlay = true
    · simp [ho, NewPictureVec_finish]
    · have ho2 : p_vout.p_sys.b_using_overlay = false := by simpa using ho
      simp only [ho2]
      cases hrgb : rgb_output dd.IDirectDrawSurface2_GetPixelFormat
          { p_vout.output with i_pictures := 0 } with
      | none => by_cases hy : p_vout.p_sys.b_hw_yuv = true <;> simp [ho2, hy, hrgb]
      | some output =>
        have hp := rgb_output_pictures _ _ _ hrgb
        by_cases hy : p_vout.p_sys.b_hw_yuv = true <;>
          simp [ho2, hy, hrgb, NewPictureVec_finish, hp]

end DirectX
